import Mathlib

/-!
# libovsdb: the conditional API and the marshalling of operations

A shallow embedding of `client/condition.go`, `ovsdb/notation.go` and
`ovsdb/serverdb/database.go`.

Conventions of the embedding.

* A Go `error` that is not nil is a `GoError`; a result of type `error` is an
  `Option GoError`, `none` standing for `nil`.
* A Go function returning `(T, error)` that is defined in the embedded files returns
  the Lean pair, so that the value handed back next to an error stays visible.
* In `condition.go` no slice is ever compared with `nil`, so a slice is a `List`
  there and the nil slice is `[]`.  In `notation.go` the nil slice is observable
  (`where == nil`), so a slice is a `Slice`, `none` standing for `nil`.
* Methods of `orm` and of the row cache live in files that are not part of the
  embedded sources; they are taken as fields of the structures `orm`, `RowCache`
  and `TableCache`, and every theorem holds for each way of filling them in.
* The ORM of a schema, `newORM`, fills the fields of `orm` with definitions that
  follow the specification (sections 3 and 4.1 to 4.4); the cases of the tests
  `TestORMCondition` and `TestORMEqualIndexes` are replayed on them.
* The methods `newRow`, `getRowData` and `newMutation` of `orm`, the codec between
  native and wire values, and `modelgen.AtomicType` follow the specification and the
  tests `TestORMNewRowFields`, `TestORMGetData`, `TestORMMutation` and
  `TestAtomicType`, whose cases are replayed on them.  A wire row is a `Row`, read
  through `Row.get`; `getRowData` returns the model as it is after the call.
* A call that ends in a run-time panic has the result `none`.
* The pointers of `serverdb.Database` are addresses into a `Memory` that is passed
  along; a copy takes the first free address.
-/

namespace Libovsdb

/-! ## Go values -/

/-- A Go `error` value other than nil; `Error` is the text its `Error()` method returns. -/
structure GoError where
  Error : String
deriving DecidableEq, Repr

/-- An atomic value: a Go integer, a Go floating-point number (held as the rational
it denotes), a boolean or a string, or an `ovsdb.UUID`. -/
inductive Atom where
  | int (n : Int)
  | real (x : Rat)
  | bool (b : Bool)
  | str (s : String)
  | uuid (GoUUID : String)
deriving DecidableEq, Repr

/-- A dynamically typed Go value (`interface{}`), as far as this development tells
such values apart: the constants it needs, `ovsdb.UUID` values, pointers, Go slices
and maps of atomic values, and the values `ovsdb.OvsSet` and `ovsdb.OvsMap`. -/
inductive Any where
  | nil
  | bool (b : Bool)
  | int (n : Int)
  | str (s : String)
  | uuid (GoUUID : String)
  | ptr (addr : Nat)
  | real (x : Rat)
  | slice (elems : List Atom)
  | gomap (entries : List (Atom × Atom))
  | set (GoSet : List Atom)
  | map (GoMap : List (Atom × Atom))
deriving DecidableEq, Repr

/-- An atomic value as a dynamically typed value. -/
def Atom.toAny : Atom → Any
  | .int n => .int n
  | .real x => .real x
  | .bool b => .bool b
  | .str s => .str s
  | .uuid u => .uuid u

/-- The atomic value a dynamically typed value holds, if it holds one. -/
def Any.toAtom? : Any → Option Atom
  | .int n => some (.int n)
  | .real x => some (.real x)
  | .bool b => some (.bool b)
  | .str s => some (.str s)
  | .uuid u => some (.uuid u)
  | _ => none

/-- Whether a value is the zero value of its Go type: false, 0, the empty string, a
nil pointer or interface, a slice or map without elements. -/
def Any.isZero : Any → Bool
  | .nil => true
  | .bool b => !b
  | .int n => n == 0
  | .str s => s == ""
  | .uuid u => u == ""
  | .ptr addr => addr == 0
  | .real x => x == 0
  | .slice elems => elems.isEmpty
  | .gomap entries => entries.isEmpty
  | .set elems => elems.isEmpty
  | .map entries => entries.isEmpty

/-- Whether an atomic value is a value of a Go field: an identifier is held as a
string, never as an `ovsdb.UUID`. -/
def Atom.isNative : Atom → Bool
  | .uuid _ => false
  | _ => true

/-- Whether a value is a native value of a model field: nil, an atomic value, or a
slice or map of atomic values, none of them an `ovsdb.UUID`. -/
def Any.isNative : Any → Bool
  | .nil => true
  | .bool _ => true
  | .int _ => true
  | .real _ => true
  | .str _ => true
  | .slice elems => elems.all Atom.isNative
  | .gomap entries => entries.all (fun kv => kv.1.isNative && kv.2.isNative)
  | _ => false

/-- A Go slice whose nil-ness matters: `none` is the nil slice, `some xs` a slice
that is not nil and holds `xs`. -/
abbrev Slice (α : Type) := Option (List α)

/-- The Go builtin `len` on a slice. -/
def Slice.len {α : Type} : Slice α → Nat
  | none => 0
  | some xs => xs.length

/-- A Go map with string keys: `none` is the nil map; the entries of a map that is
not nil are listed in increasing key order, the order `encoding/json` writes them in. -/
abbrev GoMap (α : Type) := Option (List (String × α))

/-- The Go builtin `len` on a map. -/
def GoMap.len {α : Type} : GoMap α → Nat
  | none => 0
  | some kvs => kvs.length

namespace fmt

/-- The expansion `fmt.Sprintf` makes of a format whose only verb is `%s`, fed string
arguments: each `%s` is replaced by the next argument (`%!s(MISSING)` when none is
left), every other character is copied. -/
def expand : List Char → List String → List Char
  | '%' :: 's' :: rest, a :: args => a.data ++ expand rest args
  | '%' :: 's' :: rest, [] => "%!s(MISSING)".data ++ expand rest []
  | c :: rest, args => c :: expand rest args
  | [], _ => []

/-- `fmt.Errorf(format, args...)` for a format whose only verb is `%s` and as many
string arguments as the format has verbs, which is how these sources call it. -/
def Errorf (format : String) (args : List String) : GoError :=
  ⟨String.mk (expand format.data args)⟩

end fmt

namespace ovsdb

/-- Modelled from the spec: the type `ovsdb.Condition` is declared outside the embedded
files; section 3 gives it as the triple of a column, a function and a value. -/
structure Condition where
  Column : String
  Function : String
  Value : Any
deriving DecidableEq, Repr

/-! ### notation.go -/

/-- A JSON document as a tree.  `MarshalJSON` returns the bytes of such a document;
the embedding keeps the tree, with the members of an object in the order written. -/
inductive JSON where
  | null
  | bool (b : Bool)
  | num (n : Int)
  | str (s : String)
  | arr (items : List JSON)
  | obj (members : List (String × JSON))

/-- The keys of a JSON object in the order written, with repetitions. -/
def JSON.keys : JSON → List String
  | .obj members => members.map Prod.fst
  | _ => []

/-- The value of the first member of a JSON object that has key `k`. -/
def JSON.get (j : JSON) (k : String) : Option JSON :=
  match j with
  | .obj members => (members.find? (fun kv => kv.1 == k)).map Prod.snd
  | _ => none

/-- What `encoding/json` makes of the values whose types are declared outside the
embedded files: a dynamically typed value, and an `ovsdb.Condition` (which has a
`MarshalJSON` method of its own).  Each either encodes or makes `json.Marshal` fail. -/
structure Encoder where
  any : Any → Except GoError JSON
  condition : Condition → Except GoError JSON

/-- The struct `Operation`. -/
structure Operation where
  Op : String
  Table : String
  Row : GoMap Any
  Rows : Slice (GoMap Any)
  Columns : Slice String
  Mutations : Slice Any
  Timeout : Int
  Where : Slice Condition
  Until : String
  UUIDName : String

/-- Encoding of the elements of a list one after the other; the first failure is the
failure of the whole. -/
def encodeList {α β : Type} (f : α → Except GoError β) : List α → Except GoError (List β)
  | [] => .ok []
  | x :: xs =>
    match f x with
    | .error e => .error e
    | .ok y =>
      match encodeList f xs with
      | .error e => .error e
      | .ok ys => .ok (y :: ys)

/-- How `encoding/json` writes a slice: null for the nil slice, otherwise an array. -/
def encodeSlice {α : Type} (f : α → Except GoError JSON) : Slice α → Except GoError JSON
  | none => .ok .null
  | some xs =>
    match encodeList f xs with
    | .error e => .error e
    | .ok js => .ok (.arr js)

/-- How `encoding/json` writes a `map[string]interface{}`: null for the nil map,
otherwise an object with the entries in key order. -/
def encodeMap (enc : Encoder) : GoMap Any → Except GoError JSON
  | none => .ok .null
  | some kvs =>
    match encodeList (fun kv => (enc.any kv.2).map (fun j => (kv.1, j))) kvs with
    | .error e => .error e
    | .ok members => .ok (.obj members)

/-- One field of a struct as `encoding/json` sees it: the key of its `json` tag, its
embedding depth (0 for a field of the struct itself, 1 for a field promoted from an
embedded struct), whether the tag says `omitempty`, whether the value is the empty
value of its type (zero, the empty string, a nil or zero-length slice or map), and
the encoding of the value. -/
structure StructField where
  name : String
  depth : Nat
  omitempty : Bool
  empty : Bool
  value : Except GoError JSON

/-- The field-selection rule of `encoding/json` for fields that all carry a tag: among
the fields with one key the one of least depth is kept and hides the others; fields
tied at the least depth are all dropped.  `before` are the fields already passed. -/
def dominantFields : List StructField → List StructField → List StructField
  | _, [] => []
  | before, f :: after =>
    (if (before ++ after).any (fun g => g.name == f.name && decide (g.depth ≤ f.depth))
      then [] else [f]) ++ dominantFields (before ++ [f]) after

/-- The members written for a list of selected fields: a field that is `omitempty`
and empty is skipped, the others are encoded in order. -/
def encodeFields : List StructField → Except GoError (List (String × JSON))
  | [] => .ok []
  | f :: rest =>
    if f.omitempty && f.empty then
      encodeFields rest
    else
      match f.value with
      | .error e => .error e
      | .ok j =>
        match encodeFields rest with
        | .error e => .error e
        | .ok members => .ok ((f.name, j) :: members)

/-- The call `json.Marshal` on a struct with the given fields (in index order). -/
def marshalStruct (fields : List StructField) : Except GoError JSON :=
  match encodeFields (dominantFields [] fields) with
  | .error e => .error e
  | .ok members => .ok (.obj members)

/-- The fields of `OpAlias` (the struct `Operation` without its methods) with their
`json` tags, at embedding depth `depth`. -/
def OpAlias.fields (enc : Encoder) (o : Operation) (depth : Nat) : List StructField :=
  [ { name := "op", depth := depth, omitempty := false, empty := o.Op == "",
      value := .ok (.str o.Op) },
    { name := "table", depth := depth, omitempty := false, empty := o.Table == "",
      value := .ok (.str o.Table) },
    { name := "row", depth := depth, omitempty := true, empty := GoMap.len o.Row == 0,
      value := encodeMap enc o.Row },
    { name := "rows", depth := depth, omitempty := true, empty := Slice.len o.Rows == 0,
      value := encodeSlice (encodeMap enc) o.Rows },
    { name := "columns", depth := depth, omitempty := true, empty := Slice.len o.Columns == 0,
      value := encodeSlice (fun s => .ok (.str s)) o.Columns },
    { name := "mutations", depth := depth, omitempty := true,
      empty := Slice.len o.Mutations == 0,
      value := encodeSlice enc.any o.Mutations },
    { name := "timeout", depth := depth, omitempty := true, empty := o.Timeout == 0,
      value := .ok (.num o.Timeout) },
    { name := "where", depth := depth, omitempty := true, empty := Slice.len o.Where == 0,
      value := encodeSlice enc.condition o.Where },
    { name := "until", depth := depth, omitempty := true, empty := o.Until == "",
      value := .ok (.str o.Until) },
    { name := "uuid-name", depth := depth, omitempty := true, empty := o.UUIDName == "",
      value := .ok (.str o.UUIDName) } ]

/-- The method `MarshalJSON` of `Operation`. -/
def Operation.MarshalJSON (enc : Encoder) (o : Operation) : Except GoError JSON :=
  if o.Op = "select" then
    let wh : Slice Condition :=
      match o.Where with
      | none => some []
      | some w => some w
    marshalStruct
      ({ name := "where", depth := 0, omitempty := false, empty := Slice.len wh == 0,
         value := encodeSlice enc.condition wh } :: OpAlias.fields enc o 1)
  else
    marshalStruct (OpAlias.fields enc o 1)

/-- The dynamically typed values of an operation that `MarshalJSON` has to encode
when the operation has no where clause: those of `Row`, of each map of `Rows`, and
of `Mutations`. -/
def Operation.dynamicValues (o : Operation) : List Any :=
  let values : GoMap Any → List Any := fun m =>
    match m with
    | none => []
    | some kvs => kvs.map Prod.snd
  values o.Row
    ++ (match o.Rows with
        | none => []
        | some ms => (ms.map values).flatten)
    ++ (match o.Mutations with
        | none => []
        | some vs => vs)

/-- The function `NewMutation`. -/
def NewMutation (column : String) (mutator : String) (value : Any) : List Any :=
  [Any.str column, Any.str mutator, value]

/-! ### ovsSliceToGoNotation -/

/-- What `encoding/json` does for `ovsSliceToGoNotation`: `marshal` is `json.Marshal` on
a `[]interface{}`; `uuid`, `set` and `map` are `json.Unmarshal` of the bytes into a
variable of type `UUID`, `OvsSet` and `OvsMap`, whose `UnmarshalJSON` methods are
declared outside the embedded files.  Each of the three yields the value the variable
holds afterwards together with the error. -/
structure Decoder where
  marshal : List JSON → Except GoError JSON
  uuid : JSON → Any × Option GoError
  set : JSON → Any × Option GoError
  map : JSON → Any × Option GoError

/-- The values that `ovsSliceToGoNotation` returns as an `interface{}`: nil, its
argument, or a `UUID`, an `OvsSet` or an `OvsMap`. -/
inductive Dynamic where
  | nil
  | json (val : JSON)
  | ovs (v : Any)

/-- The function `ovsSliceToGoNotation`.  The argument is a value as `encoding/json`
decodes it into an `interface{}`, held as its tree: a `[]interface{}` is an array, and
the comparison of `sl[0]` with a string constant holds for a string of that text only.
The result is `none` when the call ends in a run-time panic: `sl[0]` on a slice
without elements is an index out of range. -/
def ovsSliceToGoNotation (dec : Decoder) (val : JSON) : Option (Dynamic × Option GoError) :=
  match val with
  | .arr sl =>
    match dec.marshal sl with
    | .error err => some (.nil, some err)
    | .ok bsliced =>
      match sl[0]? with
      | none => none
      | some first =>
        match first with
        | .str s =>
          if s = "uuid" ∨ s = "named-uuid" then
            some (.ovs (dec.uuid bsliced).1, (dec.uuid bsliced).2)
          else if s = "set" then
            some (.ovs (dec.set bsliced).1, (dec.set bsliced).2)
          else if s = "map" then
            some (.ovs (dec.map bsliced).1, (dec.map bsliced).2)
          else some (.json val, none)
        | _ => some (.json val, none)
  | _ => some (.json val, none)

/-! ### The schema registry and the value codec

The files that declare the schema types and the codec are not part of the embedded
sources; the definitions below follow sections 3, 4.1 and 4.2 of the specification. -/

/-- Modelled from the spec: the atomic types of section 3; the declaration of the type
is not among the sources. -/
inductive AtomicType where
  | integer
  | real
  | boolean
  | string
  | uuid
deriving DecidableEq, Repr

/-- Modelled from the spec: a column schema as section 3 gives it (the Go type
`ColumnSchema` is declared outside the sources): the atomic key type, the value type
when the column is a map, the cardinality `(Min, Max)` with `Max = none` for
unbounded, the mutability flag and the enum domain. -/
structure ColumnSchema where
  Key : AtomicType
  Value : Option AtomicType
  Min : Nat
  Max : Option Nat
  Mutable : Bool
  Enum : Option (List Atom)
deriving DecidableEq, Repr

/-- Modelled from the spec: a table schema as section 3 gives it (the Go type
`TableSchema` is declared outside the sources): the columns by name and the ordered
list of index tuples. -/
structure TableSchema where
  Columns : List (String × ColumnSchema)
  Indexes : List (List String)
deriving DecidableEq, Repr

/-- Modelled from the spec: a schema maps table names to table schemas (section 3);
the Go type `DatabaseSchema` is declared outside the sources. -/
structure DatabaseSchema where
  Tables : List (String × TableSchema)
deriving DecidableEq, Repr

/-- The column every table has for the identifier of a row: a required scalar of
type uuid. -/
def UUIDColumn : ColumnSchema :=
  { Key := .uuid, Value := none, Min := 1, Max := some 1, Mutable := false, Enum := none }

/-- Modelled from the spec: the lookup `table(name)` of section 4.1 (the method is
defined outside the sources). -/
def DatabaseSchema.Table (schema : DatabaseSchema) (name : String) : Option TableSchema :=
  (schema.Tables.find? (fun kv => kv.1 == name)).map Prod.snd

/-- Modelled from the spec: the lookup `column(table, name)` of section 4.1 (the method
is defined outside the sources); the reserved name `_uuid` resolves in every table. -/
def TableSchema.Column (table : TableSchema) (name : String) : Option ColumnSchema :=
  if name = "_uuid" then some UUIDColumn
  else (table.Columns.find? (fun kv => kv.1 == name)).map Prod.snd

/-- Modelled from the spec: `indexes(table)` of section 4.1 (defined outside the
sources): the declared index tuples in order, after the synthetic tuple `_uuid`. -/
def TableSchema.allIndexes (table : TableSchema) : List (List String) :=
  ["_uuid"] :: table.Indexes

/-- The logical shapes of a column (section 3). -/
inductive ColumnShape where
  | scalar
  | optional
  | set
  | map
deriving DecidableEq, Repr

/-- Modelled from the spec: the shape of a column by section 3: a map when it has a
value type; otherwise a set when `Max` exceeds 1 or is unbounded, an optional scalar
when `Min = 0` and `Max = 1`, a required scalar when `Min = Max = 1`. -/
def ColumnSchema.shape (column : ColumnSchema) : Option ColumnShape :=
  if column.Value.isSome then some .map
  else
    match column.Max with
    | none => some .set
    | some n =>
      if 1 < n then some .set
      else if n = 1 ∧ column.Min = 0 then some .optional
      else if n = 1 ∧ column.Min = 1 then some .scalar
      else none

/-- The error kinds of section 7 that the codec and the ORM raise. -/
def ErrUnknownTable : GoError := ⟨"unknown table"⟩

def ErrUnknownColumn : GoError := ⟨"unknown column"⟩

def ErrTypeMismatch : GoError := ⟨"type mismatch"⟩

def ErrConstraintViolation : GoError := ⟨"constraint violation"⟩

def ErrNoIndex : GoError := ⟨"no index"⟩

def ErrInvalidFieldReference : GoError := ⟨"invalid field reference"⟩

/-- Modelled from the spec: the wire form of one native atomic value for a key of
type `key` (section 4.2; the codec is defined outside the sources): integers, reals,
booleans and strings pass through, the identifier string of a uuid column becomes a UUID,
a value of another type is a type mismatch. -/
def atomToWire (key : AtomicType) : Atom → Except GoError Atom
  | .int n => if key = .integer then .ok (.int n) else .error ErrTypeMismatch
  | .real x => if key = .real then .ok (.real x) else .error ErrTypeMismatch
  | .bool b => if key = .boolean then .ok (.bool b) else .error ErrTypeMismatch
  | .str s =>
    match key with
    | .string => .ok (.str s)
    | .uuid => .ok (.uuid s)
    | _ => .error ErrTypeMismatch
  | .uuid u => if key = .uuid then .ok (.uuid u) else .error ErrTypeMismatch

/-- Modelled from the spec: the enum rule of section 4.2: a value of an enum column
must lie in the enum domain, otherwise the failure is a constraint violation. -/
def checkEnum (column : ColumnSchema) (a : Atom) : Except GoError Atom :=
  match column.Enum with
  | none => .ok a
  | some domain => if a ∈ domain then .ok a else .error ErrConstraintViolation

/-- The wire form of one element of a column: the enum rule, then `atomToWire`. -/
def elemToWire (column : ColumnSchema) (a : Atom) : Except GoError Atom :=
  match checkEnum column a with
  | .error e => .error e
  | .ok a => atomToWire column.Key a

/-- Modelled from the spec: `to-wire(column-schema, native-value)` of section 4.2 (the
codec is defined outside the sources).  A required scalar is an atomic value; a set
column takes a sequence and yields an OVSDB set; a map column takes a Go map and
yields an OVSDB map; an optional scalar takes nil (the empty set), a present atomic
value or a sequence, and yields a set.  Sets are always written in the `set` form. -/
def toWire (column : ColumnSchema) (v : Any) : Except GoError Any :=
  match column.shape with
  | some .scalar =>
    match v.toAtom? with
    | none => .error ErrTypeMismatch
    | some a =>
      match elemToWire column a with
      | .error e => .error e
      | .ok w => .ok w.toAny
  | some .set =>
    match v with
    | .slice elems =>
      match encodeList (elemToWire column) elems with
      | .error e => .error e
      | .ok ws => .ok (.set ws)
    | _ => .error ErrTypeMismatch
  | some .optional =>
    match v with
    | .nil => .ok (.set [])
    | .slice elems =>
      match encodeList (elemToWire column) elems with
      | .error e => .error e
      | .ok ws => .ok (.set ws)
    | _ =>
      match v.toAtom? with
      | none => .error ErrTypeMismatch
      | some a =>
        match elemToWire column a with
        | .error e => .error e
        | .ok w => .ok (.set [w])
  | some .map =>
    match v, column.Value with
    | .gomap entries, some valueType =>
      match encodeList (fun kv =>
          match elemToWire column kv.1, atomToWire valueType kv.2 with
          | .ok k, .ok w => .ok (k, w)
          | .error e, _ => .error e
          | _, .error e => .error e) entries with
      | .error e => .error e
      | .ok ws => .ok (.map ws)
    | _, _ => .error ErrTypeMismatch
  | none => .error ErrTypeMismatch

/-- Modelled from the spec: the native form of one atomic wire value for a key of
type `key` (section 4.2; the codec is defined outside the sources): integers, reals,
booleans and strings pass through, a UUID becomes its identifier string, a value of
another type is a type mismatch. -/
def atomFromWire (key : AtomicType) : Atom → Except GoError Atom
  | .int n => if key = .integer then .ok (.int n) else .error ErrTypeMismatch
  | .real x => if key = .real then .ok (.real x) else .error ErrTypeMismatch
  | .bool b => if key = .boolean then .ok (.bool b) else .error ErrTypeMismatch
  | .str s => if key = .string then .ok (.str s) else .error ErrTypeMismatch
  | .uuid u => if key = .uuid then .ok (.str u) else .error ErrTypeMismatch

/-- Modelled from the spec: the elements of a wire value of a set column (section 4.2):
those of a value in the `set` form,
or the one element of a bare atomic value. -/
def wireElems (w : Any) : Option (List Atom) :=
  match w with
  | .set ws => some ws
  | _ => (w.toAtom?).map (fun a => [a])

/-- Modelled from the spec: whether a decoded native value fits a destination field,
judged by the value the
field holds: atomic values of the same Go type, two slices, or two maps. -/
def fitsField (dest native : Any) : Bool :=
  match dest, native with
  | .int _, .int _ => true
  | .real _, .real _ => true
  | .bool _, .bool _ => true
  | .str _, .str _ => true
  | .slice _, .slice _ => true
  | .gomap _, .gomap _ => true
  | _, _ => false

/-- Modelled from the spec: `from-wire(column-schema, wire-value, dest field)` of
section 4.2 (the codec is defined outside the sources).  A required scalar is read
from an atomic value.  A set column, and an optional scalar held in a slice, is read
from the `set` form or from a bare atomic value, which gives the one-element
sequence.  An optional scalar held in a nullable field (nil or an atomic value) is
read from the empty set as nil and from one element as that element.  A map column is
read from the `map` form.  Anything else, and a value that does not fit the
destination field, is a type mismatch. -/
def fromWire (column : ColumnSchema) (w : Any) (dest : Any) : Except GoError Any :=
  match column.shape with
  | some .scalar =>
    match w.toAtom? with
    | none => .error ErrTypeMismatch
    | some a =>
      match atomFromWire column.Key a with
      | .error e => .error e
      | .ok v => if fitsField dest v.toAny then .ok v.toAny else .error ErrTypeMismatch
  | some .set =>
    match wireElems w with
    | none => .error ErrTypeMismatch
    | some ws =>
      match encodeList (atomFromWire column.Key) ws with
      | .error e => .error e
      | .ok vs => if fitsField dest (.slice vs) then .ok (.slice vs) else .error ErrTypeMismatch
  | some .optional =>
    match wireElems w with
    | none => .error ErrTypeMismatch
    | some ws =>
      match encodeList (atomFromWire column.Key) ws with
      | .error e => .error e
      | .ok vs =>
        match dest with
        | .slice _ => .ok (.slice vs)
        | _ =>
          if dest = .nil ∨ dest.toAtom?.isSome then
            match vs with
            | [] => .ok .nil
            | [v] =>
              if dest = .nil ∨ fitsField dest v.toAny then .ok v.toAny
              else .error ErrTypeMismatch
            | _ => .error ErrTypeMismatch
          else .error ErrTypeMismatch
  | some .map =>
    match w, column.Value with
    | .map entries, some valueType =>
      match encodeList (fun kv =>
          match atomFromWire column.Key kv.1, atomFromWire valueType kv.2 with
          | .ok k, .ok v => .ok (k, v)
          | .error e, _ => .error e
          | _, .error e => .error e) entries with
      | .error e => .error e
      | .ok vs => if fitsField dest (.gomap vs) then .ok (.gomap vs) else .error ErrTypeMismatch
    | _, _ => .error ErrTypeMismatch
  | none => .error ErrTypeMismatch

/-- Modelled from the spec: the error kinds of section 7 that the mutation builder
raises. -/
def ErrImmutableColumn : GoError := ⟨"immutable column"⟩

def ErrIllegalMutator : GoError := ⟨"illegal mutator for type"⟩

/-- Modelled from the spec: the arithmetic mutators of section 6. -/
def arithmeticMutators : List String := ["+=", "-=", "*=", "/=", "%="]

/-- Modelled from the spec: the seven mutators of section 6. -/
def mutators : List String := ["+=", "-=", "*=", "/=", "%=", "insert", "delete"]

/-- Modelled from the spec: whether a column is an atomic integer or real column: a
required scalar whose key
is of type integer or real. -/
def ColumnSchema.isNumeric (column : ColumnSchema) : Bool :=
  column.shape == some .scalar && (column.Key == .integer || column.Key == .real)

/-- Modelled from the spec: whether a column holds a set: a set column or an optional
scalar (a set of at most
one element, which the tests of the mutation builder mutate as a set). -/
def ColumnSchema.isSet (column : ColumnSchema) : Bool :=
  column.shape == some .set || column.shape == some .optional

/-- Modelled from the spec: the legality of a mutator for a column (section 4.3.5; the
validation is defined outside the sources): the arithmetic mutators only for atomic
integer and real columns, `insert` and `delete` only for set and map columns. -/
def legalMutator (column : ColumnSchema) (mutator : String) : Bool :=
  if mutator ∈ arithmeticMutators then column.isNumeric
  else if mutator = "insert" ∨ mutator = "delete" then
    column.isSet || column.shape == some .map
  else false

/-- Modelled from the spec: the wire form of the value of a mutation (section 4.3.5):
the keys to delete from a map column, given as a sequence, become an OVSDB set of
keys; every other value is put in the wire form of the column (section 4.2). -/
def mutationValue (column : ColumnSchema) (mutator : String) (value : Any) :
    Except GoError Any :=
  match column.shape, mutator, value with
  | some .map, "delete", .slice keys =>
    match encodeList (elemToWire column) keys with
    | .error e => .error e
    | .ok ws => .ok (.set ws)
  | _, _, _ => toWire column value

/-- Modelled from the spec: whether a destination field, judged by the value it holds,
has the Go type of the
native value `v` of a column: for an optional scalar both are slices or both are
nullable (nil, or atomic values of one type); otherwise as `fitsField` says. -/
def sameFieldType (column : ColumnSchema) (dest v : Any) : Bool :=
  match column.shape with
  | some .optional =>
    match dest, v with
    | .slice _, .slice _ => true
    | .nil, w => w == .nil || w.toAtom?.isSome
    | d, .nil => d.toAtom?.isSome
    | d, w => d.toAtom?.isSome && fitsField d w
  | _ => fitsField dest v

/-! ### Concrete values used to exercise the definitions -/

/-- The encoding of a value in the samples: constants encode as themselves, a UUID as
the pair tagged `uuid`, every other value is rejected. -/
def sampleAny : Any → Except GoError JSON
  | Any.nil => .ok .null
  | Any.bool b => .ok (.bool b)
  | Any.int n => .ok (.num n)
  | Any.str s => .ok (.str s)
  | Any.uuid u => .ok (.arr [.str "uuid", .str u])
  | _ => .error ⟨"json: unsupported value"⟩

/-- An encoder for the samples; a condition is written as the array of its three parts. -/
def sampleEncoder : Encoder :=
  { any := sampleAny,
    condition := fun c =>
      match sampleAny c.Value with
      | .error e => .error e
      | .ok v => .ok (.arr [.str c.Column, .str c.Function, v]) }

/-- A decoder for the samples: `json.Marshal` writes the array of the elements; a
`UUID` is read from a pair whose second part is a string, and every other document is
rejected. -/
def sampleDecoder : Decoder :=
  { marshal := fun sl => .ok (.arr sl),
    uuid := fun j =>
      match j with
      | .arr [_, .str u] => (Any.uuid u, none)
      | _ => (Any.uuid "", some ⟨"json: cannot unmarshal into UUID"⟩),
    set := fun _ => (Any.set [], some ⟨"json: cannot unmarshal into OvsSet"⟩),
    map := fun _ => (Any.map [], some ⟨"json: cannot unmarshal into OvsMap"⟩) }

/-- A `select` of one column on all rows of a table: the where clause is an empty
slice that is not nil. -/
def selectAll : Operation :=
  { Op := "select", Table := "Bridge", Row := none, Rows := none, Columns := some ["name"],
    Mutations := some [Any.int 1], Timeout := 0, Where := some [], Until := "",
    UUIDName := "" }

/-- A `select` with a where clause of one condition and all optional fields set. -/
def selectWhere : Operation :=
  { Op := "select", Table := "Bridge", Row := some [("name", Any.str "br0")],
    Rows := some [none, some [("name", Any.str "br1")]], Columns := some ["name"],
    Mutations := some [Any.int 1], Timeout := 5,
    Where := some [⟨"name", "==", Any.str "br0"⟩], Until := "==", UUIDName := "row1" }

/-- An `insert` of one row, with no where clause (nil slice). -/
def insertRow : Operation :=
  { Op := "insert", Table := "Bridge", Row := some [("name", Any.str "br0")], Rows := none,
    Columns := none, Mutations := none, Timeout := 0, Where := none, Until := "",
    UUIDName := "row1" }

end ovsdb

namespace client

/-- Modelled from the spec: the type `client.Condition` is declared outside the embedded
files; section 4.4.2 gives it as a field pointer (or column), a function and a value. -/
structure Condition where
  Field : Any
  Function : String
  Value : Any
deriving DecidableEq, Repr

/-- One field of a model record: its `ovs:"..."` column tag, if it has one, and its value. -/
structure ModelField where
  tag : Option String
  value : Any
deriving DecidableEq, Repr

/-- Modelled from the spec: a `Model` is a pointer to a user record whose fields carry
column tags (section 3); `addr` is the address of the record. -/
structure Model where
  addr : Nat
  fields : List ModelField
deriving DecidableEq, Repr

/-- The value of the field of `m` bound to column `col`, if there is one. -/
def Model.column (m : Model) (col : String) : Option Any :=
  (m.fields.find? (fun f => f.tag == some col)).map (fun f => f.value)

/-- The identifier held by the field tagged `_uuid`; empty when there is none. -/
def Model.uuid (m : Model) : String :=
  match m.column "_uuid" with
  | some (Any.str s) => s
  | _ => ""

/-- The methods of `orm` that `condition.go` calls.  They are defined outside the
embedded files and are therefore fields here.  `fields` are the variadic field
pointers; a call either fails with an error or yields its value. -/
structure orm where
  newEqualityCondition : String → Model → List Any → Except GoError (List ovsdb.Condition)
  newCondition : String → Model → Condition → Except GoError ovsdb.Condition
  equalFields : String → Model → Model → List Any → Bool × Option GoError

/-- The handle `cache.Table(name)` returns: `Rows()` lists the identifiers of the
cached rows, `Row(id)` fetches one of them. -/
structure RowCache where
  Rows : List String
  Row : String → Model

/-- The read interface of `*TableCache` used by `condition.go`: `Table(name)` is
`none` when the cache has no entry for the table (a nil handle). -/
structure TableCache where
  Table : String → Option RowCache
  orm : orm

/-! ### equalityConditional -/

/-- The struct `equalityConditional`. -/
structure equalityConditional where
  orm : orm
  tableName : String
  model : Model
  singleOp : Bool

def equalityConditional.Matches (c : equalityConditional) (m : Model) : Bool × Option GoError :=
  c.orm.equalFields c.tableName c.model m []

def equalityConditional.Table (c : equalityConditional) : String :=
  c.tableName

/-- Generate of `equalityConditional`: `newEqualityCondition` is called on the stored
table and model with no field pointers. -/
def equalityConditional.Generate (c : equalityConditional) :
    List (List ovsdb.Condition) × Option GoError :=
  let result : List (List ovsdb.Condition) := []
  match c.orm.newEqualityCondition c.tableName c.model [] with
  | .error err => ([], some err)
  | .ok conds =>
    if c.singleOp then
      (result ++ [conds], none)
    else
      (conds.foldl (fun result c => result ++ [[c]]) result, none)

/-! ### explicitConditional -/

/-- The struct `explicitConditional`. -/
structure explicitConditional where
  orm : orm
  tableName : String
  model : Model
  conditions : List Condition
  singleOp : Bool

def explicitConditional.Matches (_c : explicitConditional) (_m : Model) : Bool × Option GoError :=
  (false, some (fmt.Errorf "Cannot perform Cache comparisons using explicit Conditions" []))

def explicitConditional.Table (c : explicitConditional) : String :=
  c.tableName

/-- The `for ... range c.conditions` loop of Generate, run from the loop state
`(result, conds)`: it stops with the error of the first condition that
`newCondition` rejects, otherwise it ends in the final loop state. -/
def explicitConditional.loop (c : explicitConditional) :
    List Condition → List (List ovsdb.Condition) → List ovsdb.Condition →
    Except GoError (List (List ovsdb.Condition) × List ovsdb.Condition)
  | [], result, conds => .ok (result, conds)
  | cond :: rest, result, conds =>
    match c.orm.newCondition c.tableName c.model cond with
    | .error err => .error err
    | .ok ovsdbCond =>
      if c.singleOp then
        explicitConditional.loop c rest result (conds ++ [ovsdbCond])
      else
        explicitConditional.loop c rest (result ++ [[ovsdbCond]]) conds

def explicitConditional.Generate (c : explicitConditional) :
    List (List ovsdb.Condition) × Option GoError :=
  match explicitConditional.loop c c.conditions [] [] with
  | .error err => ([], some err)
  | .ok (result, conds) =>
    if c.singleOp then
      (result ++ [conds], none)
    else
      (result, none)

/-! ### predicateConditional -/

/-- The struct `predicateConditional`.  The Go field `predicate` is an `interface{}`
called through reflection with the model as its one argument; it is embedded as the
function it holds. -/
structure predicateConditional where
  tableName : String
  predicate : Model → Bool
  cache : TableCache

def predicateConditional.Matches (c : predicateConditional) (model : Model) :
    Bool × Option GoError :=
  (c.predicate model, none)

def predicateConditional.Table (c : predicateConditional) : String :=
  c.tableName

/-- The `for ... range tableCache.Rows()` loop of Generate, run from the loop state
`allConditions`.  The second component of the result records, in order, the models
the predicate was called on (`calls` being those of the earlier iterations). -/
def predicateConditional.loop (c : predicateConditional) (tableCache : RowCache) :
    List String → List (List ovsdb.Condition) → List Model →
    (List (List ovsdb.Condition) × Option GoError) × List Model
  | [], allConditions, calls => ((allConditions, none), calls)
  | row :: rest, allConditions, calls =>
    let elem := tableCache.Row row
    match c.Matches elem with
    | (_, some err) => (([], some err), calls ++ [elem])
    | (isMatch, none) =>
      if isMatch then
        match c.cache.orm.newEqualityCondition c.tableName elem [] with
        | .error err => (([], some err), calls ++ [elem])
        | .ok elemCond =>
          predicateConditional.loop c tableCache rest (allConditions ++ [elemCond]) (calls ++ [elem])
      else
        predicateConditional.loop c tableCache rest allConditions (calls ++ [elem])

/-- Generate of `predicateConditional` together with the list of models the predicate
was called on.  `ErrNotFound` is the package-level error variable of that name, which
is declared outside the embedded files. -/
def predicateConditional.GenerateCalls (ErrNotFound : GoError) (c : predicateConditional) :
    (List (List ovsdb.Condition) × Option GoError) × List Model :=
  let allConditions : List (List ovsdb.Condition) := []
  match c.cache.Table c.tableName with
  | none => (([], some ErrNotFound), [])
  | some tableCache => predicateConditional.loop c tableCache tableCache.Rows allConditions []

def predicateConditional.Generate (ErrNotFound : GoError) (c : predicateConditional) :
    List (List ovsdb.Condition) × Option GoError :=
  (predicateConditional.GenerateCalls ErrNotFound c).1

/-! ### errorConditional -/

/-- The struct `errorConditional`; `err` may be any `error`, nil included. -/
structure errorConditional where
  err : Option GoError

def errorConditional.Matches (e : errorConditional) (_m : Model) : Bool × Option GoError :=
  (false, e.err)

def errorConditional.Table (_e : errorConditional) : String :=
  ""

def errorConditional.Generate (e : errorConditional) :
    List (List ovsdb.Condition) × Option GoError :=
  ([], e.err)

/-! ### The interface and the constructors -/

/-- The interface `Conditional`, as the sum of the four types that implement it. -/
inductive Conditional where
  | equality (c : equalityConditional)
  | explicit (c : explicitConditional)
  | predicate (c : predicateConditional)
  | error (c : errorConditional)

def Conditional.Generate (ErrNotFound : GoError) :
    Conditional → List (List ovsdb.Condition) × Option GoError
  | .equality c => c.Generate
  | .explicit c => c.Generate
  | .predicate c => c.Generate ErrNotFound
  | .error c => c.Generate

def Conditional.Matches : Conditional → Model → Bool × Option GoError
  | .equality c, m => c.Matches m
  | .explicit c, m => c.Matches m
  | .predicate c, m => c.Matches m
  | .error c, m => c.Matches m

def Conditional.Table : Conditional → String
  | .equality c => c.Table
  | .explicit c => c.Table
  | .predicate c => c.Table
  | .error c => c.Table

/-- The constructor `newEqualityConditional`; the field pointers `_fields` are not stored. -/
def newEqualityConditional (orm : orm) (table : String) (all : Bool) (model : Model)
    (_fields : List Any) : Conditional × Option GoError :=
  (.equality { orm := orm, tableName := table, model := model, singleOp := all }, none)

def newExplicitConditional (orm : orm) (table : String) (all : Bool) (model : Model)
    (cond : List Condition) : Conditional × Option GoError :=
  (.explicit { orm := orm, tableName := table, model := model, conditions := cond,
               singleOp := all }, none)

def newPredicateConditional (table : String) (cache : TableCache) (predicate : Model → Bool) :
    Conditional × Option GoError :=
  (.predicate { tableName := table, predicate := predicate, cache := cache }, none)

/-- The constructor `newErrorConditional`.  Calling `err.Error()` on a nil `error` is a
run-time panic: the result is `none` then and no conditional is built. -/
def newErrorConditional (err : Option GoError) : Option Conditional :=
  match err with
  | none => none
  | some e => some (.error { err := some (fmt.Errorf "conditionerror: %s" [e.Error]) })

/-! ### The ORM

The file that defines `orm` and its methods is not part of the embedded sources; its
tests are.  The definitions below follow sections 3, 4.3.3, 4.3.4 and 4.4.2 of the
specification. -/

/-- The address of the field at position `i` of the record of `m`, as a pointer value:
different records and different positions give different addresses. -/
def Model.fieldPtr (m : Model) (i : Nat) : Any :=
  Any.ptr (Nat.pair m.addr i)

/-- The walk over the fields of a record from position `i` on that looks for the field
whose address is `p` and returns its column tag. -/
def Model.columnByPtrFrom (m : Model) (p : Any) : Nat → List ModelField → Option String
  | _, [] => none
  | i, f :: rest =>
    if m.fieldPtr i = p then f.tag else Model.columnByPtrFrom m p (i + 1) rest

/-- Modelled from the spec: the resolution of a field pointer to the column the field
is bound to, by walking the model and comparing addresses (section 4.3.2; defined
outside the sources).  It is `none` when `p` is not the address of a tagged field of
`m`. -/
def Model.columnByPtr (m : Model) (p : Any) : Option String :=
  Model.columnByPtrFrom m p 0 m.fields

/-- Modelled from the spec: a column has a "set" value in a model when the model has a
field bound to it whose value is not zero (scalars) or not empty (containers), as in
section 4.3.3. -/
def Model.isSet (m : Model) (col : String) : Bool :=
  match m.column col with
  | some v => !v.isZero
  | none => false

/-- Modelled from the spec: the invariant of section 3 that every tagged field of a
model resolves to a column of the table. -/
def Model.wellFormed (table : ovsdb.TableSchema) (m : Model) : Bool :=
  m.fields.all (fun f =>
    match f.tag with
    | none => true
    | some col => (table.Column col).isSome)

/-- Modelled from the spec: equality of two field values by section 4.3.4: sets are
equal as multisets, maps as sets of key and value pairs, everything else when the
values are the same. -/
def valueEqual : Any → Any → Bool
  | .slice xs, .slice ys => xs.isPerm ys
  | .gomap xs, .gomap ys => xs.isPerm ys
  | .set xs, .set ys => xs.isPerm ys
  | .map xs, .map ys => xs.isPerm ys
  | a, b => a == b

/-- Whether two models have equal values in column `col`; a model without a field for
the column has no value to compare. -/
def Model.sameColumn (one other : Model) (col : String) : Bool :=
  match one.column col, other.column col with
  | some a, some b => valueEqual a b
  | _, _ => false

/-- The equality condition on one column: the column, `==`, and the wire form of the
value the model holds for it. -/
def newORM.equalityOn (table : ovsdb.TableSchema) (data : Model) (col : String) :
    Except GoError ovsdb.Condition :=
  match table.Column col, data.column col with
  | some column, some v =>
    match ovsdb.toWire column v with
    | .error e => .error e
    | .ok w => .ok { Column := col, Function := "==", Value := w }
  | _, _ => .error ovsdb.ErrUnknownColumn

/-- Modelled from the spec: the policy of section 4.3.3 for the columns to condition
on (defined outside the sources): the columns the field pointers designate when there
are pointers; else `_uuid` when the identifier of the model is not empty; else the
first declared index tuple all of whose columns are set in the model; else the
failure `no index`. -/
def newORM.conditionColumns (table : ovsdb.TableSchema) (data : Model) (fields : List Any) :
    Except GoError (List String) :=
  match fields with
  | _ :: _ =>
    ovsdb.encodeList (fun p =>
      match data.columnByPtr p with
      | some col => .ok col
      | none => .error ovsdb.ErrInvalidFieldReference) fields
  | [] =>
    if data.uuid ≠ "" then .ok ["_uuid"]
    else
      match table.Indexes.find? (fun idx => idx.all (fun col => data.isSet col)) with
      | some idx => .ok idx
      | none => .error ovsdb.ErrNoIndex

/-- Modelled from the spec: the method `newEqualityCondition` of `orm` (section 4.3.3;
defined outside the sources): the table is looked up, the model must be well formed,
and one `==` condition is built for each column the policy selects. -/
def newORM.newEqualityCondition (schema : ovsdb.DatabaseSchema) (tableName : String)
    (data : Model) (fields : List Any) : Except GoError (List ovsdb.Condition) :=
  match schema.Table tableName with
  | none => .error ovsdb.ErrUnknownTable
  | some table =>
    if ¬ data.wellFormed table then .error ovsdb.ErrUnknownColumn
    else
      match newORM.conditionColumns table data fields with
      | .error e => .error e
      | .ok cols => ovsdb.encodeList (newORM.equalityOn table data) cols

/-- Modelled from the spec: the method `equalIndexes` of `orm` (section 4.3.4; defined
outside the sources): two models denote the same row when they have equal values in
all columns of the `_uuid` tuple or of a declared index tuple that is set in the first
model, or in all of the extra columns when there are any. -/
def newORM.equalIndexes (table : ovsdb.TableSchema) (one other : Model)
    (indexes : List String) : Bool × Option GoError :=
  if ¬ one.wellFormed table ∨ ¬ other.wellFormed table then
    (false, some ovsdb.ErrUnknownColumn)
  else
    let candidates :=
      table.allIndexes.filter (fun idx => idx.all (fun col => one.isSet col))
        ++ (match indexes with
            | [] => []
            | _ :: _ => [indexes])
    (candidates.any (fun idx => idx.all (fun col => one.sameColumn other col)), none)

/-- Modelled from the spec: the method `equalFields` of `orm` (section 4.3.4; defined
outside the sources): the field pointers must designate fields of the first model
(else `invalid field reference`); the columns they designate are the extra columns of
`equalIndexes`. -/
def newORM.equalFields (schema : ovsdb.DatabaseSchema) (tableName : String)
    (one other : Model) (fields : List Any) : Bool × Option GoError :=
  match schema.Table tableName with
  | none => (false, some ovsdb.ErrUnknownTable)
  | some table =>
    match ovsdb.encodeList (fun p =>
        match one.columnByPtr p with
        | some col => .ok col
        | none => .error ovsdb.ErrInvalidFieldReference) fields with
    | .error e => (false, some e)
    | .ok indexes => newORM.equalIndexes table one other indexes

/-- Modelled from the spec: the method `newCondition` of `orm` (section 4.4.2; defined
outside the sources): the field pointer, or the column name, of the explicit condition
is resolved to a column and the value is put in wire form. -/
def newORM.newCondition (schema : ovsdb.DatabaseSchema) (tableName : String)
    (data : Model) (cond : Condition) : Except GoError ovsdb.Condition :=
  match schema.Table tableName with
  | none => .error ovsdb.ErrUnknownTable
  | some table =>
    if ¬ data.wellFormed table then .error ovsdb.ErrUnknownColumn
    else
      match (match cond.Field with
             | Any.str col => some col
             | p => data.columnByPtr p) with
      | none => .error ovsdb.ErrInvalidFieldReference
      | some col =>
        match table.Column col with
        | none => .error ovsdb.ErrUnknownColumn
        | some column =>
          match ovsdb.toWire column cond.Value with
          | .error e => .error e
          | .ok w => .ok { Column := col, Function := cond.Function, Value := w }

/-- The constructor `newORM`: the ORM of a schema. -/
def newORM (schema : ovsdb.DatabaseSchema) : orm :=
  { newEqualityCondition := newORM.newEqualityCondition schema,
    newCondition := newORM.newCondition schema,
    equalFields := newORM.equalFields schema }

/-! ### Rows and mutations

The methods `newRow`, `getRowData` and `newMutation` of `orm` are defined outside the
embedded sources; their tests are part of them.  The definitions below follow
sections 4.3.1, 4.3.2 and 4.3.5 of the specification and these tests. -/

/-- Modelled from the spec: a wire row (section 3), the entries of a Go map from column
names to wire values, listed in
the order of the fields of the model they come from.  A Go map has no order:
statements about a row are made through `Row.get`. -/
abbrev Row := List (String × Any)

/-- Modelled from the spec: the entry of a row for a column, if there is one. -/
def Row.get (row : Row) (col : String) : Option Any :=
  (row.find? (fun kv => kv.1 == col)).map Prod.snd

/-- Modelled from the spec: the columns a row has an entry for. -/
def Row.columns (row : Row) : List String :=
  row.map Prod.fst

/-- Modelled from the spec: the walk of `newRow` over the fields of the model: a field
without tag, the
`_uuid` field and a field that `emit` rejects give no entry; every other field gives
the entry of its column with the wire form of its value. -/
def newORM.rowEntries (table : ovsdb.TableSchema) (emit : String → Any → Bool) :
    List ModelField → Except GoError Row
  | [] => .ok []
  | f :: rest =>
    match f.tag with
    | none => newORM.rowEntries table emit rest
    | some col =>
      if col = "_uuid" ∨ emit col f.value = false then newORM.rowEntries table emit rest
      else
        match table.Column col with
        | none => .error ovsdb.ErrUnknownColumn
        | some column =>
          match ovsdb.toWire column f.value with
          | .error e => .error e
          | .ok w =>
            match newORM.rowEntries table emit rest with
            | .error e => .error e
            | .ok row => .ok ((col, w) :: row)

/-- Modelled from the spec: the method `newRow` of `orm` (section 4.3.2; defined
outside the sources).  With explicit fields exactly the designated columns are
emitted, even when empty.  Without explicit fields a column is emitted only when the
value of its field is not the zero value of its type: by the cases of
`TestORMNewRowFields` without field specification this holds for scalars as it does
for sets and maps.  The `_uuid` column is never emitted. -/
def newORM.newRow (schema : ovsdb.DatabaseSchema) (tableName : String) (data : Model)
    (fields : List Any) : Except GoError Row :=
  match schema.Table tableName with
  | none => .error ovsdb.ErrUnknownTable
  | some table =>
    if ¬ data.wellFormed table then .error ovsdb.ErrUnknownColumn
    else
      match ovsdb.encodeList (fun p =>
          match data.columnByPtr p with
          | some col => .ok col
          | none => .error ovsdb.ErrInvalidFieldReference) fields with
      | .error e => .error e
      | .ok explicit =>
        newORM.rowEntries table
          (fun col v =>
            match fields with
            | [] => !v.isZero
            | _ :: _ => decide (col ∈ explicit))
          data.fields

/-- Modelled from the spec: the walk of `getRowData` over the fields of the model, with
the fields already
passed (`done`, updated) and the fields still to read: a field without tag, and a
field whose column has no entry in the row, keeps its value; every other field is
assigned the native form of the entry of its column.  On a failure the fields read so
far stay assigned and the others keep their values. -/
def newORM.readFields (table : ovsdb.TableSchema) (row : Row) :
    List ModelField → List ModelField → List ModelField × Option GoError
  | done, [] => (done, none)
  | done, f :: rest =>
    match f.tag with
    | none => newORM.readFields table row (done ++ [f]) rest
    | some col =>
      match row.get col with
      | none => newORM.readFields table row (done ++ [f]) rest
      | some w =>
        match table.Column col with
        | none => (done ++ f :: rest, some ovsdb.ErrUnknownColumn)
        | some column =>
          match ovsdb.fromWire column w f.value with
          | .error e => (done ++ f :: rest, some e)
          | .ok v => newORM.readFields table row (done ++ [{ f with value := v }]) rest

/-- Modelled from the spec: the method `getRowData` of `orm` (section 4.3.1; defined
outside the sources).  The model is updated in place: the result is the model after
the call, together with the error. -/
def newORM.getRowData (schema : ovsdb.DatabaseSchema) (tableName : String) (row : Row)
    (result : Model) : Model × Option GoError :=
  match schema.Table tableName with
  | none => (result, some ovsdb.ErrUnknownTable)
  | some table =>
    if ¬ result.wellFormed table then (result, some ovsdb.ErrUnknownColumn)
    else
      match newORM.readFields table row [] result.fields with
      | (fields, err) => ({ result with fields := fields }, err)

/-- Modelled from the spec: the method `newMutation` of `orm` (section 4.3.5; defined
outside the sources): the column must exist and be mutable, the mutator must be legal
for the type of the column, and the value is put in wire form; the result is the
triple of `NewMutation`. -/
def newORM.newMutation (schema : ovsdb.DatabaseSchema) (tableName : String) (data : Model)
    (column : String) (mutator : String) (value : Any) : Except GoError (List Any) :=
  match schema.Table tableName with
  | none => .error ovsdb.ErrUnknownTable
  | some table =>
    if ¬ data.wellFormed table then .error ovsdb.ErrUnknownColumn
    else
      match table.Column column with
      | none => .error ovsdb.ErrUnknownColumn
      | some columnSchema =>
        if columnSchema.Mutable = false then .error ovsdb.ErrImmutableColumn
        else if ovsdb.legalMutator columnSchema mutator = false then
          .error ovsdb.ErrIllegalMutator
        else
          match ovsdb.mutationValue columnSchema mutator value with
          | .error e => .error e
          | .ok w => .ok (ovsdb.NewMutation column mutator w)

/-- Modelled from the spec: the pointers to the tagged fields of the record of `m`
among the fields `fs`
that start at position `i`. -/
def Model.taggedPtrsFrom (m : Model) : Nat → List ModelField → List Any
  | _, [] => []
  | i, f :: rest =>
    (if f.tag.isSome then [m.fieldPtr i] else []) ++ Model.taggedPtrsFrom m (i + 1) rest

/-- Modelled from the spec: the pointers to all tagged fields of a model, in the order
of the fields: the
explicit fields of a call of `newRow` "with all fields". -/
def Model.taggedPtrs (m : Model) : List Any :=
  Model.taggedPtrsFrom m 0 m.fields

/-! ### The schema and the records of the tests of the ORM -/

/-- A required scalar column of the given type. -/
def scalarColumn (key : ovsdb.AtomicType) : ovsdb.ColumnSchema :=
  { Key := key, Value := none, Min := 1, Max := some 1, Mutable := true, Enum := none }

/-- The table `TestTable` of `TestORMCondition` and `TestORMEqualIndexes`: the indexes
are `name` and the pair `composed_1`, `composed_2`. -/
def testTable : ovsdb.TableSchema :=
  { Columns := [("name", scalarColumn .string),
                ("composed_1", scalarColumn .string),
                ("composed_2", scalarColumn .string),
                ("int1", scalarColumn .integer),
                ("int2", scalarColumn .integer),
                ("config", { Key := .string, Value := some .string, Min := 0, Max := none,
                             Mutable := true, Enum := none })],
    Indexes := [["name"], ["composed_1", "composed_2"]] }

/-- The schema of these tests. -/
def testSchema : ovsdb.DatabaseSchema :=
  { Tables := [("TestTable", testTable)] }

/-- A record of the type `testType` of the tests, at address `addr`. -/
def testType (addr : Nat) (ID MyName : String) (Config : List (Atom × Atom))
    (Comp1 Comp2 : String) (Int1 Int2 : Int) : Model :=
  { addr := addr,
    fields := [ { tag := some "_uuid", value := Any.str ID },
                { tag := some "name", value := Any.str MyName },
                { tag := some "config", value := Any.gomap Config },
                { tag := some "composed_1", value := Any.str Comp1 },
                { tag := some "composed_2", value := Any.str Comp2 },
                { tag := some "int1", value := Any.int Int1 },
                { tag := some "int2", value := Any.int Int2 } ] }

/-- A set column of the given key type with cardinality `(min, max)`. -/
def setColumn (key : ovsdb.AtomicType) (min : Nat) (max : Option Nat) : ovsdb.ColumnSchema :=
  { Key := key, Value := none, Min := min, Max := max, Mutable := true, Enum := none }

/-- The table `TestTable` of `TestORMGetData`, `TestORMNewRow` and
`TestORMNewRowFields`; a cardinality that the schema does not give is 1. -/
def ormTestTable : ovsdb.TableSchema :=
  { Columns := [("aString", scalarColumn .string),
                ("aSet", setColumn .string 0 none),
                ("aSingleSet", setColumn .string 0 (some 1)),
                ("aUUIDSet", setColumn .uuid 0 (some 1)),
                ("aUUID", scalarColumn .uuid),
                ("aIntSet", setColumn .integer 0 none),
                ("aFloat", scalarColumn .real),
                ("aFloatSet", setColumn .real 0 (some 10)),
                ("aEmptySet", setColumn .string 0 none),
                ("aEnum", { Key := .string, Value := none, Min := 1, Max := some 1,
                            Mutable := true,
                            Enum := some [Atom.str "enum1", Atom.str "enum2",
                                          Atom.str "enum3"] }),
                ("aMap", { Key := .string, Value := some .string, Min := 0, Max := none,
                           Mutable := true, Enum := none })],
    Indexes := [] }

/-- The schema of these tests. -/
def ormTestSchema : ovsdb.DatabaseSchema :=
  { Tables := [("TestTable", ormTestTable)] }

/-- A record of the type `obj` of `TestORMNewRowFields`, at address `addr`. -/
def newRowObj (addr : Nat) (MyMap : List (Atom × Atom)) (MySet : List Atom)
    (MyString : String) (MyFloat : Rat) : Model :=
  { addr := addr,
    fields := [ { tag := some "aMap", value := Any.gomap MyMap },
                { tag := some "aSet", value := Any.slice MySet },
                { tag := some "aString", value := Any.str MyString },
                { tag := some "aFloat", value := Any.real MyFloat } ] }

/-- The table `TestTable` of `TestORMMutation`. -/
def mutationTestTable : ovsdb.TableSchema :=
  { Columns := [("string", scalarColumn .string),
                ("set", setColumn .string 0 (some 1)),
                ("map", { Key := .string, Value := some .string, Min := 1, Max := some 1,
                          Mutable := true, Enum := none }),
                ("unmutable", { Key := .integer, Value := none, Min := 1, Max := some 1,
                                Mutable := false, Enum := none }),
                ("int", scalarColumn .integer)],
    Indexes := [] }

/-- The schema of `TestORMMutation`. -/
def mutationTestSchema : ovsdb.DatabaseSchema :=
  { Tables := [("TestTable", mutationTestTable)] }

/-- The record `testType{}` of `TestORMMutation`: every field holds its zero value. -/
def mutationTestObj : Model :=
  { addr := 1,
    fields := [ { tag := some "_uuid", value := Any.str "" },
                { tag := some "string", value := Any.str "" },
                { tag := some "set", value := Any.slice [] },
                { tag := some "map", value := Any.gomap [] },
                { tag := some "int", value := Any.int 0 },
                { tag := some "unmutable", value := Any.int 0 } ] }

def aUUID0 : String := "2f77b348-9768-4866-b761-89d5177ecda0"

def aUUID1 : String := "2f77b348-9768-4866-b761-89d5177ecda1"

/-- A record of the type `ormTestType` of `TestORMGetData`, at address 1: eleven
tagged fields and the field `NonTagged`, which carries no tag. -/
def ormTestType (AString : String) (ASet ASingleSet AUUIDSet : List Atom) (AUUID : String)
    (AIntSet : List Atom) (AFloat : Rat) (AFloatSet YetAnotherStringSet : List Atom)
    (AEnum : String) (AMap : List (Atom × Atom)) (NonTagged : String) : Model :=
  { addr := 1,
    fields := [ { tag := some "aString", value := Any.str AString },
                { tag := some "aSet", value := Any.slice ASet },
                { tag := some "aSingleSet", value := Any.slice ASingleSet },
                { tag := some "aUUIDSet", value := Any.slice AUUIDSet },
                { tag := some "aUUID", value := Any.str AUUID },
                { tag := some "aIntSet", value := Any.slice AIntSet },
                { tag := some "aFloat", value := Any.real AFloat },
                { tag := some "aFloatSet", value := Any.slice AFloatSet },
                { tag := some "aEmptySet", value := Any.slice YetAnotherStringSet },
                { tag := some "aEnum", value := Any.str AEnum },
                { tag := some "aMap", value := Any.gomap AMap },
                { tag := none, value := Any.str NonTagged } ] }

/-- The values `aSet` and `aMap` of the tests of the ORM. -/
def aSet : List Atom := [Atom.str "a", Atom.str "set", Atom.str "of", Atom.str "strings"]

def aMap : List (Atom × Atom) :=
  [(Atom.str "key1", Atom.str "value1"), (Atom.str "key2", Atom.str "value2"),
   (Atom.str "key3", Atom.str "value3")]

/-- The wire row of `getOvsTestRow`: the column `aSingleSet` holds a bare string. -/
def getOvsTestRow : Row :=
  [("aString", Any.str "foo"),
   ("aSet", Any.set aSet),
   ("aSingleSet", Any.str "foo"),
   ("aUUIDSet", Any.set [Atom.uuid aUUID0, Atom.uuid aUUID1,
      Atom.uuid "2f77b348-9768-4866-b761-89d5177ecda2",
      Atom.uuid "2f77b348-9768-4866-b761-89d5177ecda3"]),
   ("aUUID", Any.uuid aUUID0),
   ("aIntSet", Any.set [Atom.int 3, Atom.int 2, Atom.int 42]),
   ("aFloat", Any.real 42),
   ("aFloatSet", Any.set [Atom.real 3, Atom.real 2, Atom.real 42]),
   ("aEmptySet", Any.set []),
   ("aEnum", Any.str "enum1"),
   ("aMap", Any.map aMap)]

/-! ### Concrete values used to exercise the definitions -/

/-- A model with identifier `u` and a `name` column holding `n`. -/
def sampleModel (u n : String) : Model :=
  { addr := 0,
    fields := [ { tag := some "_uuid", value := Any.str u },
                { tag := some "name", value := Any.str n } ] }

/-- The condition `(_uuid, ==, UUID(u))`. -/
def uuidCondition (u : String) : ovsdb.Condition :=
  { Column := "_uuid", Function := "==", Value := Any.uuid u }

/-- An `orm` for the samples: the equality condition of a model is the one on its
identifier and fails when the identifier is empty; an explicit condition resolves to
a condition on the column its `Field` names and fails when `Field` is not a string. -/
def sampleOrm : orm :=
  { newEqualityCondition := fun _ m _ =>
      if m.uuid = "" then .error ⟨"no index"⟩ else .ok [uuidCondition m.uuid],
    newCondition := fun _ _ c =>
      match c.Field with
      | Any.str col => .ok { Column := col, Function := c.Function, Value := c.Value }
      | _ => .error ⟨"unknown field"⟩,
    equalFields := fun _ a b _ => (a.uuid == b.uuid, none) }

/-- The two conditions of the composed index of the test table. -/
def composedConditions : List ovsdb.Condition :=
  [⟨"composed_1", "==", Any.str "foo"⟩, ⟨"composed_2", "==", Any.str "bar"⟩]

/-- An `orm` whose equality condition is always the one of the composed index. -/
def composedOrm : orm :=
  { newEqualityCondition := fun _ _ _ => .ok composedConditions,
    newCondition := sampleOrm.newCondition,
    equalFields := sampleOrm.equalFields }

/-- An `orm` whose equality condition is always the empty list of conditions. -/
def emptyOrm : orm :=
  { newEqualityCondition := fun _ _ _ => .ok [],
    newCondition := sampleOrm.newCondition,
    equalFields := sampleOrm.equalFields }

/-- A cache with the one table `Bridge`, holding three rows. -/
def sampleCache : TableCache :=
  { Table := fun name =>
      if name = "Bridge" then
        some { Rows := ["u1", "u2", "u3"],
               Row := fun id => sampleModel id (if id = "u2" then "other" else "br0") }
      else none,
    orm := sampleOrm }

end client

/-! ## The code generator (`modelgen`)

The file that defines `AtomicType` and `FieldType` is not part of the embedded sources;
its test is. -/

namespace ovsdb

/-- The names of the atomic types (section 3), the constants `TypeInteger` to
`TypeUUID` that the test of `AtomicType` uses; they are declared outside the sources. -/
def TypeInteger : String := "integer"

def TypeReal : String := "real"

def TypeBoolean : String := "boolean"

def TypeString : String := "string"

def TypeUUID : String := "uuid"

end ovsdb

namespace modelgen

/-- Modelled from the spec: the function `AtomicType` of the code generator (defined
outside the sources), after its test `TestAtomicType` and the native types section 3
gives to the atomic types: the name of the Go type for the name of an OVSDB atomic
type, and the empty string for any other name. -/
def AtomicType (atype : String) : String :=
  if atype = ovsdb.TypeInteger then "int"
  else if atype = ovsdb.TypeReal then "float64"
  else if atype = ovsdb.TypeBoolean then "bool"
  else if atype = ovsdb.TypeString then "string"
  else if atype = ovsdb.TypeUUID then "string"
  else ""

end modelgen

namespace ovsdb

/-- The name of an atomic type in a schema document. -/
def AtomicType.name : AtomicType → String
  | .integer => TypeInteger
  | .real => TypeReal
  | .boolean => TypeBoolean
  | .string => TypeString
  | .uuid => TypeUUID

/-- Modelled from the spec: the column schema that the parser of schema documents
(outside the sources) builds for a `type` object with the given key type, value type
and members `min` and `max`, where `max` is a number or `unlimited` (`some none`).  A
bound that the document omits is 1: `TestFieldType` expects the pointer type of an
optional scalar for a type object with `min` 0 and no `max`. -/
def ColumnSchema.ofType (key : AtomicType) (value : Option AtomicType) (min : Option Nat)
    (max : Option (Option Nat)) : ColumnSchema :=
  { Key := key, Value := value, Min := min.getD 1, Max := max.getD (some 1),
    Mutable := true, Enum := none }

end ovsdb

namespace modelgen

/-- Modelled from the spec: the function `FieldType` of the code generator (defined
outside the sources), after its test `TestFieldType`, the fields `TestNewTableTemplate`
expects of the template function of that name, and the native types section 3 gives to
the shapes of a column: the atomic type for a required scalar, a pointer to it for an
optional scalar, a slice of it for a set, a Go map for a map.  The names of the table
and the column and the enum domain do not enter the result. -/
def FieldType (_tableName _columnName : String) (column : ovsdb.ColumnSchema) : String :=
  match column.Value with
  | some value => "map[" ++ AtomicType column.Key.name ++ "]" ++ AtomicType value.name
  | none =>
    match column.shape with
    | some .scalar => AtomicType column.Key.name
    | some .optional => "*" ++ AtomicType column.Key.name
    | _ => "[]" ++ AtomicType column.Key.name

/-- The column schemas `singleValueSetSchema` and `multipleValueSetSchema` of
`TestFieldType`. -/
def singleValueSetSchema : ovsdb.ColumnSchema :=
  ovsdb.ColumnSchema.ofType .string none (some 0) none

def multipleValueSetSchema : ovsdb.ColumnSchema :=
  ovsdb.ColumnSchema.ofType .string none (some 0) (some (some 2))

end modelgen

/-! ## The model of the `Database` table (`ovsdb/serverdb/database.go`)

The optional columns of the table are pointers.  A pointer is nil or the address of a
variable, and the variables live in a memory that is passed along: comparing two
pointers compares addresses, dereferencing reads the memory, and `b := *a; return &b`
takes a free address for the new variable `b`. -/

namespace serverdb

/-- A pointer `*string` or `*uint64`: `none` is nil, `some p` the address `p`. -/
abbrev Ptr := Option Nat

/-- The memory that pointers point into: the `string` variables and the `uint64`
variables by address (a `uint64` is held as the number it denotes; it is only copied
and compared).  The addresses from `next` on are free. -/
structure Memory where
  strings : Nat → String
  uints : Nat → Nat
  next : Nat

/-- The struct `Database`. -/
structure Database where
  UUID : String
  Cid : Ptr
  Connected : Bool
  Index : Ptr
  Leader : Bool
  Model : String
  Name : String
  Schema : Ptr
  Sid : Ptr
deriving DecidableEq, Repr

/-- The memory after a new `string` variable holding `b` was placed at the first free
address. -/
def Memory.newString (mem : Memory) (b : String) : Memory :=
  { mem with strings := fun q => if q = mem.next then b else mem.strings q,
             next := mem.next + 1 }

/-- The memory after a new `uint64` variable holding `b` was placed at the first free
address. -/
def Memory.newUint (mem : Memory) (b : Nat) : Memory :=
  { mem with uints := fun q => if q = mem.next then b else mem.uints q,
             next := mem.next + 1 }

def copyDatabaseCid (mem : Memory) (a : Ptr) : Ptr × Memory :=
  match a with
  | none => (none, mem)
  | some p =>
    let b := mem.strings p
    (some mem.next, mem.newString b)

/-- The function `equalDatabaseCid`; the result is `none` if a nil pointer is
dereferenced. -/
def equalDatabaseCid (mem : Memory) (a b : Ptr) : Option Bool :=
  if (a == none) != (b == none) then some false
  else if a == b then some true
  else
    match a, b with
    | some p, some q => some (mem.strings p == mem.strings q)
    | _, _ => none

def copyDatabaseIndex (mem : Memory) (a : Ptr) : Ptr × Memory :=
  match a with
  | none => (none, mem)
  | some p =>
    let b := mem.uints p
    (some mem.next, mem.newUint b)

def equalDatabaseIndex (mem : Memory) (a b : Ptr) : Option Bool :=
  if (a == none) != (b == none) then some false
  else if a == b then some true
  else
    match a, b with
    | some p, some q => some (mem.uints p == mem.uints q)
    | _, _ => none

def copyDatabaseSchema (mem : Memory) (a : Ptr) : Ptr × Memory :=
  match a with
  | none => (none, mem)
  | some p =>
    let b := mem.strings p
    (some mem.next, mem.newString b)

def equalDatabaseSchema (mem : Memory) (a b : Ptr) : Option Bool :=
  if (a == none) != (b == none) then some false
  else if a == b then some true
  else
    match a, b with
    | some p, some q => some (mem.strings p == mem.strings q)
    | _, _ => none

def copyDatabaseSid (mem : Memory) (a : Ptr) : Ptr × Memory :=
  match a with
  | none => (none, mem)
  | some p =>
    let b := mem.strings p
    (some mem.next, mem.newString b)

def equalDatabaseSid (mem : Memory) (a b : Ptr) : Option Bool :=
  if (a == none) != (b == none) then some false
  else if a == b then some true
  else
    match a, b with
    | some p, some q => some (mem.strings p == mem.strings q)
    | _, _ => none

/-- The method `DeepCopyInto`, for a receiver and an argument that point to different
structs: the result is the struct `*b` after the call, and the memory.  The content
`_b` of `*b` before the call is overwritten by `*b = *a`. -/
def Database.DeepCopyInto (mem : Memory) (a : Database) (_b : Database) :
    Database × Memory :=
  let b := a
  let (cid, mem) := copyDatabaseCid mem a.Cid
  let b := { b with Cid := cid }
  let (index, mem) := copyDatabaseIndex mem a.Index
  let b := { b with Index := index }
  let (schema, mem) := copyDatabaseSchema mem a.Schema
  let b := { b with Schema := schema }
  let (sid, mem) := copyDatabaseSid mem a.Sid
  let b := { b with Sid := sid }
  (b, mem)

/-- The struct that `new(Database)` points to: every field holds its zero value. -/
def Database.zero : Database :=
  { UUID := "", Cid := none, Connected := false, Index := none, Leader := false,
    Model := "", Name := "", Schema := none, Sid := none }

def Database.DeepCopy (mem : Memory) (a : Database) : Database × Memory :=
  let b := Database.zero
  Database.DeepCopyInto mem a b

/-- The operator `&&` on operands that may panic: the right operand counts only when
the left one is true. -/
def andAlso (x y : Option Bool) : Option Bool :=
  match x with
  | none => none
  | some false => some false
  | some true => y

/-- The method `Equals`: the chain of `&&`, which groups to the left. -/
def Database.Equals (mem : Memory) (a b : Database) : Option Bool :=
  [ equalDatabaseCid mem a.Cid b.Cid,
    some (a.Connected == b.Connected),
    equalDatabaseIndex mem a.Index b.Index,
    some (a.Leader == b.Leader),
    some (a.Model == b.Model),
    some (a.Name == b.Name),
    equalDatabaseSchema mem a.Schema b.Schema,
    equalDatabaseSid mem a.Sid b.Sid ].foldl andAlso (some (a.UUID == b.UUID))

/-- The interface `model.Model`, declared outside the embedded files: a value of it
is a pointer to a `Database`, given by the struct it points to, or a value of another
type. -/
inductive ModelValue where
  | database (d : Database)
  | other

/-- The method `CloneModelInto`; `none` when the type assertion `b.(*Database)` fails,
a run-time panic. -/
def Database.CloneModelInto (mem : Memory) (a : Database) (b : ModelValue) :
    Option (Database × Memory) :=
  match b with
  | .database c => some (Database.DeepCopyInto mem a c)
  | .other => none

def Database.CloneModel (mem : Memory) (a : Database) : ModelValue × Memory :=
  (.database (Database.DeepCopy mem a).1, (Database.DeepCopy mem a).2)

/-- The method `EqualsModel`; `none` when the type assertion `b.(*Database)` fails. -/
def Database.EqualsModel (mem : Memory) (a : Database) (b : ModelValue) : Option Bool :=
  match b with
  | .database c => Database.Equals mem a c
  | .other => none

/-- Two pointers are both nil, or both point to variables that hold equal values. -/
def Ptr.same {α : Type} (deref : Nat → α) (a b : Ptr) : Prop :=
  (a = none ∧ b = none) ∨ ∃ p q, a = some p ∧ b = some q ∧ deref p = deref q

/-- A pointer is nil or the address of a variable that exists in the memory. -/
def Ptr.allocated (mem : Memory) (a : Ptr) : Bool :=
  match a with
  | none => true
  | some p => decide (p < mem.next)

/-- Every pointer of a `Database` is nil or points to a variable of the memory. -/
def Database.allocated (mem : Memory) (a : Database) : Bool :=
  Ptr.allocated mem a.Cid && Ptr.allocated mem a.Index && Ptr.allocated mem a.Schema
    && Ptr.allocated mem a.Sid

/-- Every variable of the memory `mem` exists in the memory `mem'` and holds the same
value there. -/
def Memory.preserved (mem mem' : Memory) : Prop :=
  mem.next ≤ mem'.next
    ∧ ∀ p, p < mem.next → mem'.strings p = mem.strings p ∧ mem'.uints p = mem.uints p

/-- The value a pointer points to, if it is not nil. -/
def Ptr.value {α : Type} (deref : Nat → α) (a : Ptr) : Option α :=
  a.map deref

/-- A memory for the samples: the strings `one` and `two` at addresses 0 and 1, the
string `one` again at address 2, and the number 7 at address 3. -/
def sampleMemory : Memory :=
  { strings := fun p => if p = 1 then "two" else "one",
    uints := fun _ => 7,
    next := 4 }

/-- A clustered database whose `cid` and `sid` point to the strings at addresses 0
and 1 and whose `index` points to the number at address 3. -/
def sampleDatabase : Database :=
  { UUID := "u1", Cid := some 0, Connected := true, Index := some 3, Leader := false,
    Model := "clustered", Name := "OVN_Northbound", Schema := none, Sid := some 1 }

end serverdb

/-! ## Lemmas -/

namespace client

theorem foldl_singletons (conds : List ovsdb.Condition) (result : List (List ovsdb.Condition)) :
    conds.foldl (fun result c => result ++ [[c]]) result
      = result ++ conds.map (fun c => [c]) := by
  induction conds generalizing result with
  | nil => simp
  | cons c rest ih => simp [ih]

theorem explicit_loop_resolved (c : explicitConditional) (cs : List Condition)
    (os : List ovsdb.Condition)
    (h : List.Forall₂ (fun cond o => c.orm.newCondition c.tableName c.model cond = .ok o) cs os)
    (result : List (List ovsdb.Condition)) (conds : List ovsdb.Condition) :
    explicitConditional.loop c cs result conds
      = .ok (if c.singleOp then (result, conds ++ os)
             else (result ++ os.map (fun o => [o]), conds)) := by
  induction h generalizing result conds with
  | nil => cases c.singleOp <;> simp [explicitConditional.loop]
  | cons hd _ ih =>
    cases hs : c.singleOp <;> simp [explicitConditional.loop, hd, hs] <;> rw [ih] <;> simp [hs]

theorem predicate_loop_matching (c : predicateConditional) (tableCache : RowCache)
    (conds : Model → List ovsdb.Condition) (ids : List String)
    (hok : ∀ id ∈ ids, c.predicate (tableCache.Row id) = true →
      c.cache.orm.newEqualityCondition c.tableName (tableCache.Row id) []
        = .ok (conds (tableCache.Row id)))
    (allConditions : List (List ovsdb.Condition)) (calls : List Model) :
    predicateConditional.loop c tableCache ids allConditions calls
      = ((allConditions ++ ((ids.map tableCache.Row).filter c.predicate).map conds, none),
         calls ++ ids.map tableCache.Row) := by
  induction ids generalizing allConditions calls with
  | nil => simp [predicateConditional.loop]
  | cons id rest ih =>
    have hrest : ∀ id ∈ rest, c.predicate (tableCache.Row id) = true →
        c.cache.orm.newEqualityCondition c.tableName (tableCache.Row id) []
          = .ok (conds (tableCache.Row id)) :=
      fun i hi => hok i (List.mem_cons_of_mem _ hi)
    cases hp : c.predicate (tableCache.Row id) with
    | false =>
      simp [predicateConditional.loop, predicateConditional.Matches, hp, ih hrest]
    | true =>
      have h1 := hok id (List.mem_cons_self _ _) hp
      simp [predicateConditional.loop, predicateConditional.Matches, hp, h1, ih hrest]

end client

namespace ovsdb

theorem encodeList_total {α β : Type} (f : α → Except GoError β) (xs : List α)
    (h : ∀ x ∈ xs, ∃ y, f x = .ok y) : ∃ ys, encodeList f xs = .ok ys := by
  induction xs with
  | nil => exact ⟨[], rfl⟩
  | cons x rest ih =>
    obtain ⟨y, hy⟩ := h x (List.mem_cons_self _ _)
    obtain ⟨ys, hys⟩ := ih (fun z hz => h z (List.mem_cons_of_mem _ hz))
    exact ⟨y :: ys, by simp [encodeList, hy, hys]⟩

theorem encodeFields_total (fs : List StructField)
    (h : ∀ f ∈ fs, (f.omitempty && f.empty) = true ∨ ∃ j, f.value = .ok j) :
    ∃ members, encodeFields fs = .ok members := by
  induction fs with
  | nil => exact ⟨[], rfl⟩
  | cons f rest ih =>
    obtain ⟨ms, hms⟩ := ih (fun g hg => h g (List.mem_cons_of_mem _ hg))
    by_cases hskip : (f.omitempty && f.empty) = true
    · exact ⟨ms, by simp only [encodeFields, hskip, if_true, hms]⟩
    · rcases h f (List.mem_cons_self _ _) with h1 | ⟨j, hj⟩
      · exact absurd h1 hskip
      · exact ⟨(f.name, j) :: ms, by simp only [encodeFields, hskip, hj, hms]; simp⟩

theorem dominantFields_default (enc : Encoder) (o : Operation) :
    dominantFields [] (OpAlias.fields enc o 1) = OpAlias.fields enc o 1 := by
  simp [dominantFields, OpAlias.fields]

theorem dominantFields_select (enc : Encoder) (o : Operation) (w : StructField)
    (hn : w.name = "where") (hd : w.depth = 0) :
    dominantFields [] (w :: OpAlias.fields enc o 1)
      = w :: (OpAlias.fields enc o 1).filter (fun f => f.name != "where") := by
  simp [dominantFields, OpAlias.fields, hn, hd]


theorem encodeSlice_total {α : Type} (f : α → Except GoError JSON) (xs : Slice α)
    (h : ∀ l, xs = some l → ∀ x ∈ l, ∃ y, f x = .ok y) : ∃ j, encodeSlice f xs = .ok j := by
  cases xs with
  | none => exact ⟨.null, rfl⟩
  | some l =>
    obtain ⟨ys, hys⟩ := encodeList_total f l (h l rfl)
    exact ⟨.arr ys, by simp [encodeSlice, hys]⟩

theorem encodeMap_total (enc : Encoder) (m : GoMap Any)
    (h : ∀ kvs, m = some kvs → ∀ kv ∈ kvs, ∃ j, enc.any kv.2 = .ok j) :
    ∃ j, encodeMap enc m = .ok j := by
  cases m with
  | none => exact ⟨.null, rfl⟩
  | some kvs =>
    have hall : ∀ kv ∈ kvs, ∃ y, (fun kv : String × Any =>
        (enc.any kv.2).map (fun j => (kv.1, j))) kv = .ok y := by
      intro kv hkv
      obtain ⟨j, hj⟩ := h kvs rfl kv hkv
      exact ⟨(kv.1, j), by simp [hj, Except.map]⟩
    obtain ⟨ys, hys⟩ := encodeList_total _ kvs hall
    exact ⟨.obj ys, by simp [encodeMap, hys]⟩

theorem opAlias_fields_encodable_of (enc : Encoder) (o : Operation)
    (hwhere : Slice.len o.Where = 0 ∨ ∃ j, encodeSlice enc.condition o.Where = .ok j)
    (hv : ∀ v ∈ o.dynamicValues, ∃ j, enc.any v = .ok j) :
    ∀ f ∈ OpAlias.fields enc o 1,
      (f.omitempty && f.empty) = true ∨ ∃ j, f.value = .ok j := by
  have hrow : ∃ j, encodeMap enc o.Row = .ok j := by
    apply encodeMap_total
    intro kvs hk kv hkv
    apply hv
    simp only [Operation.dynamicValues, hk, List.mem_append, List.mem_map]
    exact Or.inl (Or.inl ⟨kv, hkv, rfl⟩)
  have hrows : ∃ j, encodeSlice (encodeMap enc) o.Rows = .ok j := by
    apply encodeSlice_total
    intro ms hms m hm
    apply encodeMap_total
    intro kvs hk kv hkv
    apply hv
    simp only [Operation.dynamicValues, hms, List.mem_append, List.mem_flatten, List.mem_map]
    refine Or.inl (Or.inr ⟨kvs.map Prod.snd, ⟨m, hm, by simp [hk]⟩, ?_⟩)
    exact List.mem_map.2 ⟨kv, hkv, rfl⟩
  have hcols : ∃ j, encodeSlice (fun s : String => (.ok (.str s) : Except GoError JSON))
      o.Columns = .ok j :=
    encodeSlice_total _ _ (fun _ _ x _ => ⟨.str x, rfl⟩)
  have hmut : ∃ j, encodeSlice enc.any o.Mutations = .ok j := by
    apply encodeSlice_total
    intro vs hvs v hvmem
    apply hv
    simp only [Operation.dynamicValues, hvs, List.mem_append]
    exact Or.inr hvmem
  intro f hf
  simp only [OpAlias.fields, List.mem_cons, List.mem_singleton, List.not_mem_nil,
    or_false] at hf
  rcases hf with rfl | rfl | rfl | rfl | rfl | rfl | rfl | rfl | rfl | rfl
  · exact Or.inr ⟨_, rfl⟩
  · exact Or.inr ⟨_, rfl⟩
  · exact Or.inr hrow
  · exact Or.inr hrows
  · exact Or.inr hcols
  · exact Or.inr hmut
  · exact Or.inr ⟨_, rfl⟩
  · rcases hwhere with hw | hj
    · exact Or.inl (by simp [hw])
    · exact Or.inr hj
  · exact Or.inr ⟨_, rfl⟩
  · exact Or.inr ⟨_, rfl⟩

theorem opAlias_fields_encodable (enc : Encoder) (o : Operation)
    (hw : Slice.len o.Where = 0)
    (hv : ∀ v ∈ o.dynamicValues, ∃ j, enc.any v = .ok j) :
    ∀ f ∈ OpAlias.fields enc o 1,
      (f.omitempty && f.empty) = true ∨ ∃ j, f.value = .ok j :=
  opAlias_fields_encodable_of enc o (Or.inl hw) hv

theorem encodeFields_cons_kept (f : StructField) (rest : List StructField) (j : JSON)
    (ho : f.omitempty = false) (hv : f.value = .ok j) :
    encodeFields (f :: rest)
      = match encodeFields rest with
        | .error e => .error e
        | .ok members => .ok ((f.name, j) :: members) := by
  simp [encodeFields, ho, hv]

theorem opAlias_names_without_where (enc : Encoder) (o : Operation) :
    ((OpAlias.fields enc o 1).filter (fun f => f.name != "where")).map (fun f => f.name)
      = ["op", "table", "row", "rows", "columns", "mutations", "timeout", "until",
         "uuid-name"] := by
  simp [OpAlias.fields, List.filter]

theorem opAlias_names (enc : Encoder) (o : Operation) :
    (OpAlias.fields enc o 1).map (fun f => f.name)
      = ["op", "table", "row", "rows", "columns", "mutations", "timeout", "where", "until",
         "uuid-name"] := by
  simp [OpAlias.fields]

theorem select_marshal (enc : Encoder) (o : Operation)
    (hop : o.Op = "select") (hw : Slice.len o.Where = 0) :
    o.MarshalJSON enc
      = match encodeFields ((OpAlias.fields enc o 1).filter (fun f => f.name != "where")) with
        | .error e => .error e
        | .ok members => .ok (.obj (("where", .arr []) :: members)) := by
  have hwh : encodeSlice enc.condition
      (match o.Where with
        | none => some []
        | some w => some w) = .ok (.arr []) := by
    cases hW : o.Where with
    | none => rfl
    | some w =>
      have : w = [] := by simpa [Slice.len, hW] using hw
      subst this
      rfl
  unfold Operation.MarshalJSON
  rw [if_pos hop]
  simp only [marshalStruct]
  rw [dominantFields_select enc o _ rfl rfl, encodeFields_cons_kept _ _ _ rfl hwh]
  cases encodeFields ((OpAlias.fields enc o 1).filter (fun f => f.name != "where")) <;> rfl

theorem default_marshal (enc : Encoder) (o : Operation) (hop : o.Op ≠ "select") :
    o.MarshalJSON enc = marshalStruct (OpAlias.fields enc o 1) := by
  unfold Operation.MarshalJSON
  rw [if_neg hop]

theorem encodeFields_keys_eq (fs : List StructField) (members : List (String × JSON))
    (h : encodeFields fs = .ok members) :
    members.map Prod.fst
      = (fs.filter (fun f => !(f.omitempty && f.empty))).map (fun f => f.name) := by
  induction fs generalizing members with
  | nil =>
    simp [encodeFields] at h
    subst h
    simp
  | cons f rest ih =>
    unfold encodeFields at h
    split at h
    · rename_i hskip
      simp [List.filter, hskip, ih members h]
    · rename_i hskip
      split at h
      · cases h
      · split at h
        · cases h
        · rename_i ms hms
          cases h
          simp [List.filter, hskip, ih ms hms]

theorem where_not_written (enc : Encoder) (o : Operation) (hw : Slice.len o.Where = 0)
    (p : StructField → Bool) :
    "where" ∉ (((OpAlias.fields enc o 1).filter p).filter
      (fun f => !(f.omitempty && f.empty))).map (fun f => f.name) := by
  intro hmem
  obtain ⟨f, hf, hname⟩ := List.mem_map.1 hmem
  have hf2 := List.mem_filter.1 hf
  have hf1 := (List.mem_filter.1 hf2.1).1
  have hkeep := hf2.2
  simp only [OpAlias.fields, List.mem_cons, List.mem_singleton, List.not_mem_nil,
    or_false] at hf1
  rcases hf1 with rfl | rfl | rfl | rfl | rfl | rfl | rfl | rfl | rfl | rfl <;>
    simp [hw] at hname hkeep

theorem encodeFields_cons_kept_ok (f : StructField) (rest : List StructField)
    (members : List (String × JSON)) (ho : f.omitempty = false)
    (h : encodeFields (f :: rest) = .ok members) :
    ∃ j t, f.value = .ok j ∧ encodeFields rest = .ok t ∧ members = (f.name, j) :: t := by
  unfold encodeFields at h
  simp only [ho, Bool.false_and] at h
  cases hv : f.value with
  | error e => simp [hv] at h
  | ok j =>
    cases ht : encodeFields rest with
    | error e => simp [hv, ht] at h
    | ok t =>
      simp [hv, ht] at h
      exact ⟨j, t, rfl, rfl, h.symm⟩

theorem opAlias_members (enc : Encoder) (o : Operation) (p : StructField → Bool)
    (hop : ∀ f : StructField, f.name = "op" → p f = true)
    (htable : ∀ f : StructField, f.name = "table" → p f = true)
    (members : List (String × JSON))
    (h : encodeFields ((OpAlias.fields enc o 1).filter p) = .ok members) :
    ∃ t, members = ("op", .str o.Op) :: ("table", .str o.Table) :: t
      ∧ "op" ∉ t.map Prod.fst ∧ "table" ∉ t.map Prod.fst := by
  have hsplit : (OpAlias.fields enc o 1).filter p
      = { name := "op", depth := 1, omitempty := false, empty := o.Op == "",
          value := .ok (.str o.Op) }
        :: { name := "table", depth := 1, omitempty := false, empty := o.Table == "",
             value := .ok (.str o.Table) }
        :: ((OpAlias.fields enc o 1).drop 2).filter p := by
    simp [OpAlias.fields, List.filter, hop, htable]
  rw [hsplit] at h
  obtain ⟨j1, t1, hv1, ht1, hm1⟩ := encodeFields_cons_kept_ok _ _ _ rfl h
  obtain ⟨j2, t2, hv2, ht2, hm2⟩ := encodeFields_cons_kept_ok _ _ _ rfl ht1
  simp only [Except.ok.injEq] at hv1 hv2
  subst hv1 hv2 hm2
  refine ⟨t2, hm1, ?_, ?_⟩ <;>
  · rw [encodeFields_keys_eq _ _ ht2]
    intro hmem
    obtain ⟨f, hf, hname⟩ := List.mem_map.1 hmem
    have hf1 := (List.mem_filter.1 (List.mem_filter.1 hf).1).1
    simp only [OpAlias.fields, List.drop_succ_cons, List.drop_zero, List.mem_cons,
      List.mem_singleton, List.not_mem_nil, or_false] at hf1
    rcases hf1 with rfl | rfl | rfl | rfl | rfl | rfl | rfl | rfl <;> simp at hname

theorem select_marshal_fields (enc : Encoder) (o : Operation) (hop : o.Op = "select") :
    o.MarshalJSON enc
      = match encodeFields
            ({ name := "where", depth := 0, omitempty := false,
               empty := Slice.len (match o.Where with
                 | none => some []
                 | some w => some w) == 0,
               value := encodeSlice enc.condition (match o.Where with
                 | none => some []
                 | some w => some w) }
              :: (OpAlias.fields enc o 1).filter (fun f => f.name != "where")) with
        | .error e => .error e
        | .ok members => .ok (.obj members) := by
  unfold Operation.MarshalJSON
  rw [if_pos hop]
  simp only [marshalStruct]
  rw [dominantFields_select enc o _ rfl rfl]

end ovsdb

/-! ## The conditional API (`client/condition.go`) -/

namespace client

/-- C1: when the cache holds the table, and `newEqualityCondition` succeeds on every
cached row that satisfies the predicate (yielding `conds r` on row `r`), Generate of a
`predicateConditional` returns without error the list that has, in the order of
`Rows()`, exactly one entry `conds r` for each cached row `r` with `f r = true` and
nothing for the other rows.  When moreover the equality condition of each such row is
the condition on its `_uuid`, every entry is that single `_uuid` condition. -/
theorem predicate_Generate_enumerates (ErrNotFound : GoError) (c : predicateConditional)
    (tableCache : RowCache) (conds : Model → List ovsdb.Condition)
    (htable : c.cache.Table c.tableName = some tableCache)
    (hok : ∀ id ∈ tableCache.Rows, c.predicate (tableCache.Row id) = true →
      c.cache.orm.newEqualityCondition c.tableName (tableCache.Row id) []
        = .ok (conds (tableCache.Row id))) :
    c.Generate ErrNotFound
        = (((tableCache.Rows.map tableCache.Row).filter c.predicate).map conds, none)
      ∧ ((∀ id ∈ tableCache.Rows, c.predicate (tableCache.Row id) = true →
            c.cache.orm.newEqualityCondition c.tableName (tableCache.Row id) []
              = .ok [uuidCondition (tableCache.Row id).uuid]) →
          c.Generate ErrNotFound
            = (((tableCache.Rows.map tableCache.Row).filter c.predicate).map
                (fun r => [uuidCondition r.uuid]), none)) := by
  have hgen : ∀ k : Model → List ovsdb.Condition,
      (∀ id ∈ tableCache.Rows, c.predicate (tableCache.Row id) = true →
        c.cache.orm.newEqualityCondition c.tableName (tableCache.Row id) []
          = .ok (k (tableCache.Row id))) →
      c.Generate ErrNotFound
        = (((tableCache.Rows.map tableCache.Row).filter c.predicate).map k, none) := by
    intro k hk
    simp [predicateConditional.Generate, predicateConditional.GenerateCalls, htable,
      predicate_loop_matching c tableCache k tableCache.Rows hk]
  exact ⟨hgen conds hok, fun hu => hgen (fun r => [uuidCondition r.uuid]) hu⟩

/-- Witness for C1: on the sample cache, with the predicate "the name is br0", rows
`u1` and `u3` match and row `u2` does not. -/
theorem predicate_Generate_enumerates_witness :
    predicateConditional.Generate ⟨"not found"⟩
        { tableName := "Bridge", predicate := fun m => m.column "name" == some (Any.str "br0"),
          cache := sampleCache }
      = ([[uuidCondition "u1"], [uuidCondition "u3"]], none) := by
  have h := predicate_Generate_enumerates ⟨"not found"⟩
    { tableName := "Bridge", predicate := fun m => m.column "name" == some (Any.str "br0"),
      cache := sampleCache }
    { Rows := ["u1", "u2", "u3"],
      Row := fun id => sampleModel id (if id = "u2" then "other" else "br0") }
    (fun r => [uuidCondition r.uuid]) (by simp [sampleCache])
    (by
      intro id hid _
      simp only [List.mem_cons, List.mem_singleton, List.not_mem_nil, or_false] at hid
      rcases hid with rfl | rfl | rfl <;> rfl)
  rw [h.1]
  rfl

/-- C2: for an `equalityConditional` built with `all = true`, whenever
`newEqualityCondition(table, model)` succeeds with the list `cs`, the constructor and
Generate return no error and Generate returns exactly one outer entry, `cs` itself. -/
theorem equality_Generate_all (ErrNotFound : GoError) (o : orm) (table : String)
    (model : Model) (fields : List Any) (cs : List ovsdb.Condition)
    (h : o.newEqualityCondition table model [] = .ok cs) :
    (newEqualityConditional o table true model fields).2 = none
      ∧ (newEqualityConditional o table true model fields).1.Generate ErrNotFound
          = ([cs], none) := by
  simp [newEqualityConditional, Conditional.Generate, equalityConditional.Generate, h]

/-- Witness for C2 on the sample `orm` and a model with identifier `u1`. -/
theorem equality_Generate_all_witness :
    (newEqualityConditional sampleOrm "Bridge" true (sampleModel "u1" "br0") []).1.Generate
        ⟨"not found"⟩ = ([[uuidCondition "u1"]], none) :=
  (equality_Generate_all ⟨"not found"⟩ sampleOrm "Bridge" (sampleModel "u1" "br0") []
    [uuidCondition "u1"] rfl).2

/-- C3: for an `equalityConditional` built with `all = false`, whenever
`newEqualityCondition(table, model)` succeeds with the list `cs`, Generate returns
without error a list `out` of the length of `cs` whose entry at every index `i` is the
singleton list holding the entry of `cs` at `i`. -/
theorem equality_Generate_each (ErrNotFound : GoError) (o : orm) (table : String)
    (model : Model) (fields : List Any) (cs : List ovsdb.Condition)
    (h : o.newEqualityCondition table model [] = .ok cs) :
    ∃ out : List (List ovsdb.Condition),
      (newEqualityConditional o table false model fields).1.Generate ErrNotFound = (out, none)
        ∧ out.length = cs.length
        ∧ ∀ (i : Nat) (hi : i < cs.length), out[i]? = some [cs[i]] := by
  refine ⟨cs.map (fun c => [c]), ?_, by simp, ?_⟩
  · simp [newEqualityConditional, Conditional.Generate, equalityConditional.Generate, h,
      foldl_singletons]
  · intro i hi
    simp [List.getElem?_map, List.getElem?_eq_getElem hi]

/-- Witness for C3: an `orm` whose equality condition has two conditions. -/
theorem equality_Generate_each_witness :
    ∃ out : List (List ovsdb.Condition),
      (newEqualityConditional composedOrm "TestTable" false (sampleModel "" "") []).1.Generate
          ⟨"not found"⟩ = (out, none)
        ∧ out.length = composedConditions.length
        ∧ ∀ (i : Nat) (hi : i < composedConditions.length),
            out[i]? = some [composedConditions[i]] :=
  equality_Generate_each ⟨"not found"⟩ composedOrm "TestTable" (sampleModel "" "") []
    composedConditions rfl

/-- C4: for an `explicitConditional` whose conditions `cs` are resolved one by one by
`newCondition` to `os`, Generate returns without error the single outer entry `os`
when `all = true`, and the singleton lists of the entries of `os`, in order, when
`all = false`. -/
theorem explicit_Generate_resolved (ErrNotFound : GoError) (o : orm) (table : String)
    (model : Model) (cs : List Condition) (os : List ovsdb.Condition)
    (h : List.Forall₂ (fun cond oc => o.newCondition table model cond = .ok oc) cs os) :
    (newExplicitConditional o table true model cs).1.Generate ErrNotFound = ([os], none)
      ∧ (newExplicitConditional o table false model cs).1.Generate ErrNotFound
          = (os.map (fun oc => [oc]), none) := by
  constructor
  · have hl := explicit_loop_resolved
      { orm := o, tableName := table, model := model, conditions := cs, singleOp := true }
      cs os h [] []
    simp [newExplicitConditional, Conditional.Generate, explicitConditional.Generate, hl]
  · have hl := explicit_loop_resolved
      { orm := o, tableName := table, model := model, conditions := cs, singleOp := false }
      cs os h [] []
    simp [newExplicitConditional, Conditional.Generate, explicitConditional.Generate, hl]

/-- Witness for C4: two explicit conditions on the columns `name` and `ports`. -/
theorem explicit_Generate_resolved_witness :
    (newExplicitConditional sampleOrm "Bridge" true (sampleModel "u1" "br0")
        [⟨Any.str "name", "!=", Any.str "br1"⟩, ⟨Any.str "ports", "includes", Any.uuid "p"⟩]
      ).1.Generate ⟨"not found"⟩
        = ([[⟨"name", "!=", Any.str "br1"⟩, ⟨"ports", "includes", Any.uuid "p"⟩]], none)
      ∧ (newExplicitConditional sampleOrm "Bridge" false (sampleModel "u1" "br0")
        [⟨Any.str "name", "!=", Any.str "br1"⟩, ⟨Any.str "ports", "includes", Any.uuid "p"⟩]
      ).1.Generate ⟨"not found"⟩
        = ([[⟨"name", "!=", Any.str "br1"⟩], [⟨"ports", "includes", Any.uuid "p"⟩]], none) :=
  explicit_Generate_resolved ⟨"not found"⟩ sampleOrm "Bridge" (sampleModel "u1" "br0")
    [⟨Any.str "name", "!=", Any.str "br1"⟩, ⟨Any.str "ports", "includes", Any.uuid "p"⟩]
    [⟨"name", "!=", Any.str "br1"⟩, ⟨"ports", "includes", Any.uuid "p"⟩]
    (List.Forall₂.cons rfl (List.Forall₂.cons rfl List.Forall₂.nil))

/-- C5: for every `explicitConditional` (any `orm`, table, model, conditions and mode)
and every candidate model, Matches returns the boolean false together with an error
that is not nil, the one with the text of the source. -/
theorem explicit_Matches_fails (o : orm) (table : String) (all : Bool) (model : Model)
    (cs : List Condition) (m : Model) :
    ((newExplicitConditional o table all model cs).1.Matches m).1 = false
      ∧ ((newExplicitConditional o table all model cs).1.Matches m).2 ≠ none
      ∧ ((newExplicitConditional o table all model cs).1.Matches m).2
          = some ⟨"Cannot perform Cache comparisons using explicit Conditions"⟩ := by
  refine ⟨rfl, ?_, ?_⟩
  · simp [newExplicitConditional, Conditional.Matches, explicitConditional.Matches]
  · simp only [newExplicitConditional, Conditional.Matches, explicitConditional.Matches]
    decide

/-- C8: for every conditional `c` built by `newErrorConditional(e)` there is an error
`E` such that Generate returns no conditions together with `E`, and Matches returns
false together with the same `E` on every model; neither ever returns a nil error. -/
theorem error_conditional_surfaces (ErrNotFound : GoError) (e : Option GoError)
    (c : Conditional) (h : newErrorConditional e = some c) :
    ∃ E : GoError,
      c.Generate ErrNotFound = ([], some E)
        ∧ (∀ m : Model, c.Matches m = (false, some E))
        ∧ (c.Generate ErrNotFound).2 ≠ none
        ∧ (∀ m : Model, (c.Matches m).2 ≠ none) := by
  cases e with
  | none => simp [newErrorConditional] at h
  | some err =>
    simp only [newErrorConditional, Option.some.injEq] at h
    subst h
    exact ⟨fmt.Errorf "conditionerror: %s" [err.Error], rfl, fun _ => rfl,
      by simp [Conditional.Generate, errorConditional.Generate],
      fun _ => by simp [Conditional.Matches, errorConditional.Matches]⟩

/-- Witness for C8: the conditional built from the error with text `boom`. -/
theorem error_conditional_surfaces_witness :
    ∃ E : GoError,
      Conditional.Generate ⟨"not found"⟩
          (.error { err := some (fmt.Errorf "conditionerror: %s" ["boom"]) }) = ([], some E)
        ∧ (∀ m : Model, Conditional.Matches
            (.error { err := some (fmt.Errorf "conditionerror: %s" ["boom"]) }) m
              = (false, some E))
        ∧ (Conditional.Generate ⟨"not found"⟩
            (.error { err := some (fmt.Errorf "conditionerror: %s" ["boom"]) })).2 ≠ none
        ∧ (∀ m : Model, (Conditional.Matches
            (.error { err := some (fmt.Errorf "conditionerror: %s" ["boom"]) }) m).2 ≠ none) :=
  error_conditional_surfaces ⟨"not found"⟩ (some ⟨"boom"⟩)
    (.error { err := some (fmt.Errorf "conditionerror: %s" ["boom"]) }) rfl

/-- C9, as stated, fails: the conditional built from the error with text `x` surfaces
an error whose text is not `condition error: x`. -/
theorem error_conditional_text_counterexample :
    ¬ (∀ (e E : GoError) (c : Conditional) (ErrNotFound : GoError),
        newErrorConditional (some e) = some c →
        (c.Generate ErrNotFound).2 = some E →
        E.Error = "condition error: " ++ e.Error) := by
  intro h
  have hx := h ⟨"x"⟩ (fmt.Errorf "conditionerror: %s" ["x"])
    (.error { err := some (fmt.Errorf "conditionerror: %s" ["x"]) }) ⟨"not found"⟩ rfl rfl
  revert hx
  decide

/-- C9, amended: for every error `e`, `newErrorConditional(e)` builds a conditional,
and the text of the error that its Generate and its Matches surface is
`conditionerror: ` (written as one word) followed by the text of `e`. -/
theorem error_conditional_text (ErrNotFound : GoError) (e : GoError) :
    ∃ c : Conditional,
      newErrorConditional (some e) = some c
        ∧ (c.Generate ErrNotFound).2.map GoError.Error = some ("conditionerror: " ++ e.Error)
        ∧ ∀ m : Model,
            (c.Matches m).2.map GoError.Error = some ("conditionerror: " ++ e.Error) := by
  have htext : (fmt.Errorf "conditionerror: %s" [e.Error]).Error
      = "conditionerror: " ++ e.Error := by
    apply String.ext
    simp [fmt.Errorf, fmt.expand]
  refine ⟨.error { err := some (fmt.Errorf "conditionerror: %s" [e.Error]) }, rfl, ?_, ?_⟩
  · simp [Conditional.Generate, errorConditional.Generate, htext]
  · intro m
    simp [Conditional.Matches, errorConditional.Matches, htext]

/-- C10: when the cache has no entry for the table of a `predicateConditional`,
Generate returns no conditions together with the error `ErrNotFound`, and the
predicate has been called on no model. -/
theorem predicate_Generate_no_table (ErrNotFound : GoError) (c : predicateConditional)
    (h : c.cache.Table c.tableName = none) :
    c.Generate ErrNotFound = ([], some ErrNotFound)
      ∧ (c.GenerateCalls ErrNotFound).2 = []
      ∧ (Conditional.predicate c).Generate ErrNotFound = ([], some ErrNotFound) := by
  simp [Conditional.Generate, predicateConditional.Generate,
    predicateConditional.GenerateCalls, h]

/-- Witness for C10: the sample cache has no table `Port`. -/
theorem predicate_Generate_no_table_witness :
    predicateConditional.Generate ⟨"not found"⟩
        { tableName := "Port", predicate := fun _ => true, cache := sampleCache }
      = ([], some ⟨"not found"⟩) :=
  (predicate_Generate_no_table ⟨"not found"⟩
    { tableName := "Port", predicate := fun _ => true, cache := sampleCache } rfl).1

end client

/-! ## Operations (`ovsdb/notation.go`) -/

namespace ovsdb

/-- C6: for every operation with `Op = "select"` whose `Where` is nil or of length 0,
every JSON document that `MarshalJSON` produces is an object that has the key `where`
with the empty array as its value, that key being written once; and `MarshalJSON` does
produce a document as soon as the dynamically typed values of the operation encode. -/
theorem select_where_written (enc : Encoder) (o : Operation)
    (hop : o.Op = "select") (hw : Slice.len o.Where = 0) :
    (∀ j, o.MarshalJSON enc = .ok j →
        (∃ members, j = .obj members)
          ∧ j.get "where" = some (.arr [])
          ∧ j.keys.count "where" = 1)
      ∧ ((∀ v ∈ o.dynamicValues, ∃ j, enc.any v = .ok j) →
          ∃ j, o.MarshalJSON enc = .ok j) := by
  rw [select_marshal enc o hop hw]
  constructor
  · intro j hj
    cases hms : encodeFields ((OpAlias.fields enc o 1).filter (fun f => f.name != "where")) with
    | error e => simp [hms] at hj
    | ok ms =>
      simp only [hms, Except.ok.injEq] at hj
      subst hj
      refine ⟨⟨_, rfl⟩, by simp [JSON.get], ?_⟩
      have hk := encodeFields_keys_eq _ _ hms
      have hno := where_not_written enc o hw (fun f => f.name != "where")
      rw [← hk] at hno
      simp [JSON.keys, List.count_cons, List.count_eq_zero_of_not_mem hno]
  · intro hv
    obtain ⟨ms, hms⟩ := encodeFields_total
      ((OpAlias.fields enc o 1).filter (fun f => f.name != "where"))
      (fun f hf => opAlias_fields_encodable enc o hw hv f (List.mem_filter.1 hf).1)
    exact ⟨.obj (("where", .arr []) :: ms), by simp [hms]⟩

/-- Witness for C6: the sample `select`, whose where clause is empty. -/
theorem select_where_written_witness :
    ∃ j, selectAll.MarshalJSON sampleEncoder = .ok j
      ∧ j.get "where" = some (.arr []) ∧ j.keys.count "where" = 1 := by
  have h := select_where_written sampleEncoder selectAll rfl rfl
  obtain ⟨j, hj⟩ := h.2 (by
    intro v hv
    simp only [Operation.dynamicValues, selectAll, List.append_nil, List.nil_append,
      List.mem_singleton] at hv
    subst hv
    exact ⟨.num 1, rfl⟩)
  exact ⟨j, hj, (h.1 j hj).2⟩

/-- C7: for every operation whose `Op` is not `select` and whose `Where` is nil or of
length 0, every JSON document that `MarshalJSON` produces is an object without the key
`where`; and `MarshalJSON` does produce a document as soon as the dynamically typed
values of the operation encode. -/
theorem other_where_omitted (enc : Encoder) (o : Operation)
    (hop : o.Op ≠ "select") (hw : Slice.len o.Where = 0) :
    (∀ j, o.MarshalJSON enc = .ok j →
        (∃ members, j = .obj members)
          ∧ "where" ∉ j.keys
          ∧ j.get "where" = none)
      ∧ ((∀ v ∈ o.dynamicValues, ∃ j, enc.any v = .ok j) →
          ∃ j, o.MarshalJSON enc = .ok j) := by
  rw [default_marshal enc o hop]
  unfold marshalStruct
  rw [dominantFields_default]
  constructor
  · intro j hj
    cases hms : encodeFields (OpAlias.fields enc o 1) with
    | error e => simp [hms] at hj
    | ok ms =>
      simp only [hms, Except.ok.injEq] at hj
      subst hj
      have hk := encodeFields_keys_eq _ _ hms
      have hno := where_not_written enc o hw (fun _ => true)
      rw [List.filter_true, ← hk] at hno
      refine ⟨⟨_, rfl⟩, hno, ?_⟩
      simp only [JSON.get, Option.map_eq_none', List.find?_eq_none]
      intro kv hkv heq
      exact hno (List.mem_map.2 ⟨kv, hkv, by simpa using heq⟩)
  · intro hv
    obtain ⟨ms, hms⟩ := encodeFields_total (OpAlias.fields enc o 1)
      (opAlias_fields_encodable enc o hw hv)
    exact ⟨.obj ms, by simp [hms]⟩

/-- Witness for C7: the sample `insert`, which has no where clause. -/
theorem other_where_omitted_witness :
    ∃ j, insertRow.MarshalJSON sampleEncoder = .ok j
      ∧ "where" ∉ j.keys ∧ j.get "where" = none := by
  have h := other_where_omitted sampleEncoder insertRow (by decide) rfl
  obtain ⟨j, hj⟩ := h.2 (by
    intro v hv
    simp only [Operation.dynamicValues, insertRow, List.append_nil, List.map_cons,
      List.map_nil, List.mem_singleton] at hv
    subst hv
    exact ⟨.str "br0", rfl⟩)
  exact ⟨j, hj, (h.1 j hj).2⟩

/-- C15: for every column, mutator and value, `NewMutation` returns a list of exactly
three elements: the column, the mutator and the value, in this order and unchanged. -/
theorem NewMutation_triple (column mutator : String) (value : Any) :
    (NewMutation column mutator value).length = 3
      ∧ (NewMutation column mutator value)[0]? = some (Any.str column)
      ∧ (NewMutation column mutator value)[1]? = some (Any.str mutator)
      ∧ (NewMutation column mutator value)[2]? = some value := by
  simp [NewMutation]

/-- C16: for every operation, whatever its `Op` and its other fields, every JSON
document that `MarshalJSON` produces is an object in which the key `op` has the value
of `Op` and the key `table` the value of `Table`, each key being written exactly once;
and `MarshalJSON` does produce a document as soon as the dynamically typed values and
the conditions of the operation encode. -/
theorem marshal_op_table (enc : Encoder) (o : Operation) :
    (∀ j, o.MarshalJSON enc = .ok j →
        (∃ members, j = .obj members)
          ∧ j.get "op" = some (.str o.Op) ∧ j.keys.count "op" = 1
          ∧ j.get "table" = some (.str o.Table) ∧ j.keys.count "table" = 1)
      ∧ ((∀ v ∈ o.dynamicValues, ∃ j, enc.any v = .ok j) →
          (∀ ws, o.Where = some ws → ∀ c ∈ ws, ∃ j, enc.condition c = .ok j) →
          ∃ j, o.MarshalJSON enc = .ok j) := by
  by_cases hop : o.Op = "select"
  · rw [select_marshal_fields enc o hop]
    constructor
    · intro j hj
      split at hj
      · cases hj
      · rename_i members hms
        cases hj
        obtain ⟨jw, t, _, ht, hm⟩ := encodeFields_cons_kept_ok _ _ _ rfl hms
        obtain ⟨t2, ht2, hno, hnt⟩ := opAlias_members enc o (fun f => f.name != "where")
          (by intro f hf; simp [hf]) (by intro f hf; simp [hf]) t ht
        subst hm ht2
        refine ⟨⟨_, rfl⟩, by simp [JSON.get], ?_, by simp [JSON.get], ?_⟩
        · simp [JSON.keys, List.count_cons, List.count_eq_zero_of_not_mem hno]
        · simp [JSON.keys, List.count_cons, List.count_eq_zero_of_not_mem hnt]
    · intro hv hc
      have hwh : ∃ jw, encodeSlice enc.condition (match o.Where with
          | none => some []
          | some w => some w) = .ok jw := by
        apply encodeSlice_total
        intro l hl x hx
        cases hW : o.Where with
        | none =>
          simp only [hW, Option.some.injEq] at hl
          subst hl
          cases hx
        | some ws =>
          simp only [hW, Option.some.injEq] at hl
          subst hl
          exact hc _ hW x hx
      obtain ⟨jw, hjw⟩ := hwh
      obtain ⟨ms, hms⟩ := encodeFields_total
        ((OpAlias.fields enc o 1).filter (fun f => f.name != "where"))
        (fun f hf => opAlias_fields_encodable_of enc o
          (Or.inr (encodeSlice_total _ _ (fun ws hws c hcm => hc ws hws c hcm))) hv f
          (List.mem_filter.1 hf).1)
      rw [encodeFields_cons_kept _ _ jw rfl hjw, hms]
      exact ⟨_, rfl⟩
  · rw [default_marshal enc o hop]
    unfold marshalStruct
    rw [dominantFields_default]
    constructor
    · intro j hj
      split at hj
      · cases hj
      · rename_i members hms
        cases hj
        obtain ⟨t2, ht2, hno, hnt⟩ := opAlias_members enc o (fun _ => true)
          (by intro f _; rfl) (by intro f _; rfl) members (by rw [List.filter_true]; exact hms)
        subst ht2
        refine ⟨⟨_, rfl⟩, by simp [JSON.get], ?_, by simp [JSON.get], ?_⟩
        · simp [JSON.keys, List.count_cons, List.count_eq_zero_of_not_mem hno]
        · simp [JSON.keys, List.count_cons, List.count_eq_zero_of_not_mem hnt]
    · intro hv hc
      obtain ⟨ms, hms⟩ := encodeFields_total (OpAlias.fields enc o 1)
        (opAlias_fields_encodable_of enc o
          (Or.inr (encodeSlice_total _ _ (fun ws hws c hcm => hc ws hws c hcm))) hv)
      rw [hms]
      exact ⟨_, rfl⟩

/-- Witness for C16: the sample `select` with a where clause. -/
theorem marshal_op_table_witness :
    ∃ j, selectWhere.MarshalJSON sampleEncoder = .ok j
      ∧ j.get "op" = some (.str "select") ∧ j.keys.count "op" = 1
      ∧ j.get "table" = some (.str "Bridge") ∧ j.keys.count "table" = 1 := by
  have h := marshal_op_table sampleEncoder selectWhere
  obtain ⟨j, hj⟩ := h.2
    (by
      intro v hv
      simp only [Operation.dynamicValues, selectWhere, List.map_cons, List.map_nil,
        List.flatten, List.append_nil, List.nil_append, List.cons_append, List.mem_cons,
        List.mem_singleton, List.not_mem_nil, or_false] at hv
      rcases hv with rfl | rfl | rfl <;> exact ⟨_, rfl⟩)
    (by
      intro ws hws c hc
      simp only [selectWhere, Option.some.injEq] at hws
      subst hws
      simp only [List.mem_singleton] at hc
      subst hc
      exact ⟨_, rfl⟩)
  exact ⟨j, hj, (h.1 j hj).2⟩

end ovsdb

/-! ## The conditional API, continued -/

namespace client

/-- C11: for every `predicateConditional` with predicate `f` and every model `m`,
Matches returns the boolean `f m` together with a nil error. -/
theorem predicate_Matches (table : String) (cache : TableCache) (f : Model → Bool)
    (m : Model) :
    (newPredicateConditional table cache f).1.Matches m = (f m, none) := by
  rfl

/-- C14: the conditionals built by `newEqualityConditional`, `newExplicitConditional`
and `newPredicateConditional` with table name `T` return `T` from Table, whatever the
other arguments. -/
theorem Table_of_constructors (T : String) (o : orm) (all : Bool) (model : Model)
    (fields : List Any) (conds : List Condition) (cache : TableCache)
    (f : Model → Bool) :
    (newEqualityConditional o T all model fields).1.Table = T
      ∧ (newExplicitConditional o T all model conds).1.Table = T
      ∧ (newPredicateConditional T cache f).1.Table = T := by
  exact ⟨rfl, rfl, rfl⟩

end client

/-! ## Lemmas on the schema, the codec and the ORM -/

namespace ovsdb

theorem encodeList_ok_iff {α β : Type} (f : α → Except GoError β) (xs : List α)
    (ys : List β) :
    encodeList f xs = .ok ys ↔ List.Forall₂ (fun x y => f x = .ok y) xs ys := by
  induction xs generalizing ys with
  | nil =>
    constructor
    · intro h
      simp only [encodeList, Except.ok.injEq] at h
      subst h
      exact List.Forall₂.nil
    · intro h
      cases h
      rfl
  | cons x rest ih =>
    constructor
    · intro h
      unfold encodeList at h
      cases hx : f x with
      | error e => simp [hx] at h
      | ok y =>
        cases hr : encodeList f rest with
        | error e => simp [hx, hr] at h
        | ok zs =>
          simp only [hx, hr, Except.ok.injEq] at h
          subst h
          exact List.Forall₂.cons hx ((ih zs).1 hr)
    · intro h
      cases h with
      | cons hx hrest =>
        simp only [encodeList, hx, (ih _).2 hrest]

theorem toWire_uuid (u : String) : toWire UUIDColumn (Any.str u) = .ok (Any.uuid u) := by
  rfl

end ovsdb

namespace client

theorem find_first {α : Type} (p : α → Bool) (pre post : List α) (x : α)
    (hpre : ∀ t ∈ pre, p t = false) (hx : p x = true) :
    (pre ++ x :: post).find? p = some x := by
  induction pre with
  | nil => simp [List.find?, hx]
  | cons t rest ih =>
    have ht := hpre t (List.mem_cons_self _ _)
    simp only [List.cons_append, List.find?, ht]
    exact ih (fun z hz => hpre z (List.mem_cons_of_mem _ hz))

theorem fieldPtr_inj (m : Model) (i j : Nat) : m.fieldPtr i = m.fieldPtr j ↔ i = j := by
  simp [Model.fieldPtr, Nat.pair_eq_pair]

theorem columnByPtrFrom_fieldPtr (m : Model) (l : List ModelField) (k i : Nat)
    (f : ModelField) (h : l[i]? = some f) :
    Model.columnByPtrFrom m (m.fieldPtr (k + i)) k l = f.tag := by
  induction l generalizing k i with
  | nil => simp at h
  | cons g rest ih =>
    cases i with
    | zero =>
      simp only [List.getElem?_cons_zero, Option.some.injEq] at h
      subst h
      simp [Model.columnByPtrFrom]
    | succ n =>
      simp only [List.getElem?_cons_succ] at h
      have hne : ¬ m.fieldPtr k = m.fieldPtr (k + (n + 1)) := by
        rw [fieldPtr_inj]
        omega
      simp only [Model.columnByPtrFrom, hne, if_false]
      have := ih (k + 1) n h
      rw [show k + 1 + n = k + (n + 1) by omega] at this
      exact this

theorem columnByPtr_fieldPtr (m : Model) (i : Nat) (f : ModelField)
    (h : m.fields[i]? = some f) : m.columnByPtr (m.fieldPtr i) = f.tag := by
  have := columnByPtrFrom_fieldPtr m m.fields 0 i f h
  simpa [Model.columnByPtr] using this

theorem column_uuid_of_uuid (data : Model) (hu : data.uuid ≠ "") :
    data.column "_uuid" = some (Any.str data.uuid) := by
  unfold Model.uuid at hu ⊢
  split
  · rename_i s hs
    exact hs
  · rename_i hno
    split at hu
    · rename_i s hs
      exact absurd hs (hno s)
    · exact absurd rfl hu

theorem equalityOn_ok_iff (table : ovsdb.TableSchema) (data : Model) (col : String)
    (c : ovsdb.Condition) :
    newORM.equalityOn table data col = .ok c
      ↔ ∃ column v w, table.Column col = some column ∧ data.column col = some v
          ∧ ovsdb.toWire column v = .ok w
          ∧ c = { Column := col, Function := "==", Value := w } := by
  unfold newORM.equalityOn
  constructor
  · intro h
    split at h
    · rename_i column v hc hv
      cases hw : ovsdb.toWire column v with
      | error e => simp [hw] at h
      | ok w =>
        simp only [hw, Except.ok.injEq] at h
        exact ⟨column, v, w, hc, hv, hw, h.symm⟩
    · cases h
  · rintro ⟨column, v, w, hc, hv, hw, rfl⟩
    simp [hc, hv, hw]


theorem conditions_on_columns (table : ovsdb.TableSchema) (data : Model) (cols : List String)
    (cs : List ovsdb.Condition) :
    ovsdb.encodeList (newORM.equalityOn table data) cols = .ok cs
      ↔ List.Forall₂ (fun col c =>
          ∃ column v w, table.Column col = some column ∧ data.column col = some v
            ∧ ovsdb.toWire column v = .ok w
            ∧ c = { Column := col, Function := "==", Value := w }) cols cs := by
  rw [ovsdb.encodeList_ok_iff]
  constructor <;> intro h <;>
    exact h.imp (fun {col c} hc => by
      first
        | exact (equalityOn_ok_iff table data col c).1 hc
        | exact (equalityOn_ok_iff table data col c).2 hc)

theorem conditions_columns (table : ovsdb.TableSchema) (data : Model) (cols : List String)
    (cs : List ovsdb.Condition)
    (h : ovsdb.encodeList (newORM.equalityOn table data) cols = .ok cs) :
    cs.map (fun c => c.Column) = cols := by
  have hall := (conditions_on_columns table data cols cs).1 h
  clear h
  induction hall with
  | nil => rfl
  | cons hhead _ ih =>
    obtain ⟨_, _, _, _, _, _, hc⟩ := hhead
    simp [hc, ih]

theorem isSet_uuid (data : Model) (hu : data.uuid ≠ "") : data.isSet "_uuid" = true := by
  simp [Model.isSet, column_uuid_of_uuid data hu, Any.isZero, hu]

theorem conditionColumns_valid (table : ovsdb.TableSchema) (data : Model)
    (cols : List String) (h : newORM.conditionColumns table data [] = .ok cols) :
    cols ∈ table.allIndexes ∧ ∀ col ∈ cols, data.isSet col = true := by
  unfold newORM.conditionColumns at h
  by_cases hu : data.uuid = ""
  · simp only [hu, ne_eq, not_true_eq_false, if_false] at h
    cases hf : table.Indexes.find? (fun idx => idx.all (fun col => data.isSet col)) with
    | none => simp [hf] at h
    | some idx =>
      simp only [hf, Except.ok.injEq] at h
      subst h
      refine ⟨List.mem_cons_of_mem _ (List.mem_of_find?_eq_some hf), ?_⟩
      have hp := List.find?_some hf
      rw [List.all_eq_true] at hp
      exact hp
  · simp only [ne_eq, hu, not_false_eq_true, if_true, Except.ok.injEq] at h
    subst h
    refine ⟨List.mem_cons_self _ _, ?_⟩
    intro col hcol
    simp only [List.mem_singleton] at hcol
    subst hcol
    exact isSet_uuid data hu

theorem equalFields_no_pointers (schema : ovsdb.DatabaseSchema) (tableName : String)
    (table : ovsdb.TableSchema) (s m : Model)
    (htable : schema.Table tableName = some table)
    (hws : s.wellFormed table = true) (hwm : m.wellFormed table = true) :
    newORM.equalFields schema tableName s m []
      = ((table.allIndexes.filter (fun idx => idx.all (fun col => s.isSet col))).any
          (fun idx => idx.all (fun col => s.sameColumn m col)), none) := by
  simp [newORM.equalFields, htable, ovsdb.encodeList, newORM.equalIndexes, hws, hwm]

/-- The six cases of `TestORMCondition`, in the order of the test. -/
theorem TestORMCondition_cases :
    newORM.newEqualityCondition testSchema "TestTable" (testType 1 "" "foo" [] "" "" 0 0) []
        = .ok [⟨"name", "==", Any.str "foo"⟩]
      ∧ newORM.newEqualityCondition testSchema "TestTable"
          (testType 1 aUUID0 "foo" [] "" "" 0 0) []
        = .ok [⟨"_uuid", "==", Any.uuid aUUID0⟩]
      ∧ newORM.newEqualityCondition testSchema "TestTable"
          (testType 1 aUUID0 "foo" [] "" "" 0 0)
          [(testType 1 aUUID0 "foo" [] "" "" 0 0).fieldPtr 1]
        = .ok [⟨"name", "==", Any.str "foo"⟩]
      ∧ newORM.newEqualityCondition testSchema "TestTable"
          (testType 1 "" "" [] "foo" "bar" 0 0) []
        = .ok [⟨"composed_1", "==", Any.str "foo"⟩, ⟨"composed_2", "==", Any.str "bar"⟩]
      ∧ newORM.newEqualityCondition testSchema "TestTable"
          (testType 1 "" "something" [] "foo" "bar" 0 0) []
        = .ok [⟨"name", "==", Any.str "something"⟩]
      ∧ newORM.newEqualityCondition testSchema "TestTable"
          (testType 1 "" "" [(Atom.str "foo", Atom.str "bar")] "" "" 0 0) []
        = .error ovsdb.ErrNoIndex :=
  ⟨rfl, rfl, rfl, rfl, rfl, rfl⟩

/-- The ten cases of `TestORMEqualIndexes`, in the order of the test, and its two calls
of `equalFields`. -/
theorem TestORMEqualIndexes_cases :
    newORM.equalIndexes testTable (testType 1 "" "foo" [] "" "" 0 0)
        (testType 2 "" "foo" [] "" "" 0 0) [] = (true, none)
      ∧ newORM.equalIndexes testTable (testType 1 "" "foo" [] "" "" 0 0)
        (testType 2 "" "bar" [] "" "" 0 0) [] = (false, none)
      ∧ newORM.equalIndexes testTable (testType 1 aUUID0 "foo" [] "" "" 0 0)
        (testType 2 aUUID0 "bar" [] "" "" 0 0) [] = (true, none)
      ∧ newORM.equalIndexes testTable (testType 1 aUUID0 "foo" [] "" "" 0 0)
        (testType 2 aUUID1 "bar" [] "" "" 0 0) [] = (false, none)
      ∧ newORM.equalIndexes testTable (testType 1 aUUID0 "foo" [] "foo" "bar" 0 0)
        (testType 2 aUUID1 "bar" [] "foo" "bar" 0 0) [] = (true, none)
      ∧ newORM.equalIndexes testTable (testType 1 aUUID0 "name1" [] "foo" "bar" 0 0)
        (testType 2 aUUID1 "name2" [] "foo" "bar2" 0 0) [] = (false, none)
      ∧ newORM.equalIndexes testTable (testType 1 aUUID0 "name1" [] "foo" "bar1" 42 0)
        (testType 2 aUUID1 "name2" [] "foo" "bar2" 42 0) ["int1"] = (true, none)
      ∧ newORM.equalIndexes testTable (testType 1 aUUID0 "name1" [] "foo" "bar1" 42 0)
        (testType 2 aUUID1 "name2" [] "foo" "bar2" 420 0) ["int1"] = (false, none)
      ∧ newORM.equalIndexes testTable (testType 1 aUUID0 "name1" [] "foo" "bar1" 42 25)
        (testType 2 aUUID1 "name2" [] "foo" "bar2" 42 25) ["int1", "int2"] = (true, none)
      ∧ newORM.equalIndexes testTable (testType 1 aUUID0 "name1" [] "foo" "bar1" 42 50)
        (testType 2 aUUID1 "name2" [] "foo" "bar2" 42 25) ["int1", "int2"] = (false, none)
      ∧ newORM.equalFields testSchema "TestTable"
          (testType 1 aUUID0 "name1" [] "foo" "bar1" 42 25)
          (testType 2 aUUID1 "name2" [] "foo" "bar2" 42 25)
          [(testType 1 aUUID0 "name1" [] "foo" "bar1" 42 25).fieldPtr 5,
           (testType 1 aUUID0 "name1" [] "foo" "bar1" 42 25).fieldPtr 6] = (true, none)
      ∧ (newORM.equalFields testSchema "TestTable"
          (testType 1 aUUID0 "name1" [] "foo" "bar1" 42 25)
          (testType 2 aUUID1 "name2" [] "foo" "bar2" 42 25)
          [(testType 2 aUUID1 "name2" [] "foo" "bar2" 42 25).fieldPtr 5,
           (testType 2 aUUID1 "name2" [] "foo" "bar2" 42 25).fieldPtr 6]).2 ≠ none := by
  decide

end client

/-! ## Matching and generating with the ORM of a schema -/

namespace client

/-- C12, as stated, fails.  In the test table, the stored model with identifier
`aUUID0` and the candidate with identifier `aUUID1` have the same composed index:
Generate conditions on `_uuid` alone for the stored model, the two models differ in
`_uuid`, and yet Matches is true. -/
theorem equality_Matches_counterexample :
    ¬ (∀ (schema : ovsdb.DatabaseSchema) (tableName : String) (table : ovsdb.TableSchema)
        (s m : Model) (cs : List ovsdb.Condition),
        schema.Table tableName = some table →
        s.wellFormed table = true → m.wellFormed table = true →
        (newORM schema).newEqualityCondition tableName s [] = .ok cs →
        (((newEqualityConditional (newORM schema) tableName false s []).1.Matches m).1 = true
          ↔ ∀ c ∈ cs, s.sameColumn m c.Column = true)) := by
  intro h
  have hx := h testSchema "TestTable" testTable
    (testType 1 aUUID0 "foo" [] "foo" "bar" 0 0) (testType 2 aUUID1 "bar" [] "foo" "bar" 0 0)
    [{ Column := "_uuid", Function := "==", Value := Any.uuid aUUID0 }] rfl rfl rfl rfl
  have hm : ((newEqualityConditional (newORM testSchema) "TestTable" false
      (testType 1 aUUID0 "foo" [] "foo" "bar" 0 0) []).1.Matches
        (testType 2 aUUID1 "bar" [] "foo" "bar" 0 0)).1 = true := by decide
  have hc := hx.1 hm _ (List.mem_singleton.2 rfl)
  revert hc
  decide

/-- C12, amended: for two well-formed models of a table of the schema, Matches of an
`equalityConditional` with stored model `s` returns a nil error and is true exactly
when `s` and the candidate have equal values in every column of at least one index,
`_uuid` or a declared index tuple, all of whose columns are set in `s`.  In
particular it is true whenever the two models have equal values in every column that
`newEqualityCondition` conditions on for `s`. -/
theorem equality_Matches_some_index (schema : ovsdb.DatabaseSchema) (tableName : String)
    (table : ovsdb.TableSchema) (all : Bool) (s m : Model) (fields : List Any)
    (htable : schema.Table tableName = some table)
    (hws : s.wellFormed table = true) (hwm : m.wellFormed table = true) :
    ((newEqualityConditional (newORM schema) tableName all s fields).1.Matches m).2 = none
      ∧ (((newEqualityConditional (newORM schema) tableName all s fields).1.Matches m).1 = true
          ↔ ∃ idx ∈ table.allIndexes,
              (∀ col ∈ idx, s.isSet col = true) ∧ ∀ col ∈ idx, s.sameColumn m col = true)
      ∧ (∀ cs : List ovsdb.Condition,
          (newORM schema).newEqualityCondition tableName s [] = .ok cs →
          (∀ c ∈ cs, s.sameColumn m c.Column = true) →
          ((newEqualityConditional (newORM schema) tableName all s fields).1.Matches m).1
            = true) := by
  have hM : (newEqualityConditional (newORM schema) tableName all s fields).1.Matches m
      = ((table.allIndexes.filter (fun idx => idx.all (fun col => s.isSet col))).any
          (fun idx => idx.all (fun col => s.sameColumn m col)), none) := by
    rw [← equalFields_no_pointers schema tableName table s m htable hws hwm]
    rfl
  have hiff : ((table.allIndexes.filter (fun idx => idx.all (fun col => s.isSet col))).any
      (fun idx => idx.all (fun col => s.sameColumn m col))) = true
        ↔ ∃ idx ∈ table.allIndexes,
            (∀ col ∈ idx, s.isSet col = true) ∧ ∀ col ∈ idx, s.sameColumn m col = true := by
    simp only [List.any_eq_true, List.mem_filter, List.all_eq_true]
    constructor
    · rintro ⟨idx, ⟨hmem, hset⟩, hsame⟩
      exact ⟨idx, hmem, hset, hsame⟩
    · rintro ⟨idx, hmem, hset, hsame⟩
      exact ⟨idx, ⟨hmem, hset⟩, hsame⟩
  rw [hM]
  refine ⟨rfl, hiff, ?_⟩
  intro cs hcs hsame
  apply hiff.2
  have hnew : newORM.newEqualityCondition schema tableName s [] = .ok cs := hcs
  simp only [newORM.newEqualityCondition, htable, hws, not_true_eq_false, if_false] at hnew
  cases hcols : newORM.conditionColumns table s [] with
  | error e => simp [hcols] at hnew
  | ok cols =>
    simp only [hcols] at hnew
    obtain ⟨hmem, hset⟩ := conditionColumns_valid table s cols hcols
    refine ⟨cols, hmem, hset, ?_⟩
    have hmap := conditions_columns table s cols cs hnew
    intro col hcol
    rw [← hmap] at hcol
    obtain ⟨c, hc, hcc⟩ := List.mem_map.1 hcol
    rw [← hcc]
    exact hsame c hc

/-- Witness for C12, amended: the two models of the test with the same composed index. -/
theorem equality_Matches_some_index_witness :
    ((newEqualityConditional (newORM testSchema) "TestTable" false
        (testType 1 aUUID0 "foo" [] "foo" "bar" 0 0) []).1.Matches
      (testType 2 aUUID1 "bar" [] "foo" "bar" 0 0)).1 = true :=
  (equality_Matches_some_index testSchema "TestTable" testTable false
    (testType 1 aUUID0 "foo" [] "foo" "bar" 0 0) (testType 2 aUUID1 "bar" [] "foo" "bar" 0 0)
    [] rfl rfl rfl).2.1.2
    ⟨["composed_1", "composed_2"], by decide, by decide, by decide⟩

/-- C13, on the code: Generate of the conditional built by `newEqualityConditional` does
not depend on the field pointers, which the constructor drops.  For the model of the
test with identifier `aUUID0` and name `foo` and the pointer to its name field,
Generate conditions on `_uuid`, whereas `newEqualityCondition` called with that pointer
conditions on `name`. -/
theorem equality_Generate_drops_fields :
    (∀ (o : orm) (table : String) (all : Bool) (model : Model) (fields : List Any)
        (ErrNotFound : GoError),
        (newEqualityConditional o table all model fields).1.Generate ErrNotFound
          = (newEqualityConditional o table all model []).1.Generate ErrNotFound)
      ∧ (newEqualityConditional (newORM testSchema) "TestTable" false
            (testType 1 aUUID0 "foo" [] "" "" 0 0)
            [(testType 1 aUUID0 "foo" [] "" "" 0 0).fieldPtr 1]).1.Generate ⟨"not found"⟩
          = ([[{ Column := "_uuid", Function := "==", Value := Any.uuid aUUID0 }]], none)
      ∧ (newORM testSchema).newEqualityCondition "TestTable"
            (testType 1 aUUID0 "foo" [] "" "" 0 0)
            [(testType 1 aUUID0 "foo" [] "" "" 0 0).fieldPtr 1]
          = .ok [{ Column := "name", Function := "==", Value := Any.str "foo" }] := by
  exact ⟨fun _ _ _ _ _ _ => rfl, rfl, rfl⟩

end client

/-! ## The equality condition of a model (`newEqualityCondition`) -/

namespace client

/-- C17: for a well-formed model of a table of the schema whose `_uuid` field is a
non-empty identifier `u`, `newEqualityCondition` called with no field pointers returns
exactly one condition, `(_uuid, ==, UUID(u))`, whatever the other fields hold. -/
theorem newEqualityCondition_uuid (schema : ovsdb.DatabaseSchema) (tableName : String)
    (table : ovsdb.TableSchema) (data : Model)
    (htable : schema.Table tableName = some table)
    (hwf : data.wellFormed table = true) (hu : data.uuid ≠ "") :
    newORM.newEqualityCondition schema tableName data []
      = .ok [{ Column := "_uuid", Function := "==", Value := Any.uuid data.uuid }] := by
  have hcol := column_uuid_of_uuid data hu
  simp [newORM.newEqualityCondition, htable, hwf, newORM.conditionColumns, hu,
    ovsdb.encodeList, newORM.equalityOn, ovsdb.TableSchema.Column, hcol, ovsdb.toWire_uuid]

/-- Witness for C17: the model of the test case `UUID`, whose name is set as well. -/
theorem newEqualityCondition_uuid_witness :
    newORM.newEqualityCondition testSchema "TestTable"
        (testType 1 aUUID0 "foo" [] "" "" 0 0) []
      = .ok [{ Column := "_uuid", Function := "==", Value := Any.uuid aUUID0 }] :=
  newEqualityCondition_uuid testSchema "TestTable" testTable
    (testType 1 aUUID0 "foo" [] "" "" 0 0) rfl rfl (by decide)

/-- C18: for a well-formed model with an empty `_uuid` and no field pointers, let `idx`
be the first declared index tuple all of whose columns are set in the model (the
tuples `pre` declared before it each have a column that is not set).  Then the
conditions `newEqualityCondition` returns are exactly one `==` condition per column
of `idx`, in order, each carrying the wire form of the value the model holds for that
column; the tuples `post` declared after `idx` play no part. -/
theorem newEqualityCondition_first_index (schema : ovsdb.DatabaseSchema)
    (tableName : String) (table : ovsdb.TableSchema) (data : Model)
    (pre post : List (List String)) (idx : List String)
    (htable : schema.Table tableName = some table)
    (hwf : data.wellFormed table = true) (hu : data.uuid = "")
    (hidx : table.Indexes = pre ++ idx :: post)
    (hpre : ∀ t ∈ pre, ∃ col ∈ t, data.isSet col = false)
    (hset : ∀ col ∈ idx, data.isSet col = true) :
    ∀ cs : List ovsdb.Condition,
      newORM.newEqualityCondition schema tableName data [] = .ok cs
        ↔ List.Forall₂ (fun col c =>
            ∃ column v w, table.Column col = some column ∧ data.column col = some v
              ∧ ovsdb.toWire column v = .ok w
              ∧ c = { Column := col, Function := "==", Value := w }) idx cs := by
  intro cs
  have hfind : table.Indexes.find? (fun t => t.all (fun col => data.isSet col)) = some idx := by
    rw [hidx]
    apply find_first
    · intro t ht
      obtain ⟨col, hcol, hz⟩ := hpre t ht
      rw [Bool.eq_false_iff]
      intro hall
      rw [List.all_eq_true] at hall
      rw [hall col hcol] at hz
      cases hz
    · rw [List.all_eq_true]
      exact hset
  rw [← conditions_on_columns]
  simp [newORM.newEqualityCondition, htable, hwf, newORM.conditionColumns, hu, hfind]

/-- Witness for C18: the test case `first index`, where the composed index is set as
well and is not used. -/
theorem newEqualityCondition_first_index_witness :
    newORM.newEqualityCondition testSchema "TestTable"
        (testType 1 "" "something" [] "foo" "bar" 0 0) []
      = .ok [{ Column := "name", Function := "==", Value := Any.str "something" }] :=
  (newEqualityCondition_first_index testSchema "TestTable" testTable
    (testType 1 "" "something" [] "foo" "bar" 0 0) [] [["composed_1", "composed_2"]] ["name"]
    rfl rfl rfl rfl (by simp) (by decide) _).2
    (List.Forall₂.cons
      ⟨scalarColumn .string, Any.str "something", Any.str "something", rfl, rfl, rfl, rfl⟩
      List.Forall₂.nil)

/-- C19: for a model with an empty `_uuid`, no field pointers, and no declared index
tuple whose columns are all set in the model, `newEqualityCondition` fails; the error
is `no index` when the model is well formed, whatever its other columns hold. -/
theorem newEqualityCondition_no_index (schema : ovsdb.DatabaseSchema)
    (tableName : String) (table : ovsdb.TableSchema) (data : Model)
    (htable : schema.Table tableName = some table)
    (hu : data.uuid = "")
    (hnone : ∀ idx ∈ table.Indexes, ∃ col ∈ idx, data.isSet col = false) :
    (∃ e, newORM.newEqualityCondition schema tableName data [] = .error e)
      ∧ (data.wellFormed table = true →
          newORM.newEqualityCondition schema tableName data [] = .error ovsdb.ErrNoIndex) := by
  have hfind : table.Indexes.find? (fun t => t.all (fun col => data.isSet col)) = none := by
    rw [List.find?_eq_none]
    intro t ht hall
    obtain ⟨col, hcol, hz⟩ := hnone t ht
    rw [List.all_eq_true] at hall
    rw [hall col hcol] at hz
    cases hz
  by_cases hwf : data.wellFormed table = true
  · have h : newORM.newEqualityCondition schema tableName data [] = .error ovsdb.ErrNoIndex := by
      simp [newORM.newEqualityCondition, htable, hwf, newORM.conditionColumns, hu, hfind]
    exact ⟨⟨_, h⟩, fun _ => h⟩
  · refine ⟨⟨ovsdb.ErrUnknownColumn, ?_⟩, fun h => absurd h hwf⟩
    simp [newORM.newEqualityCondition, htable, hwf]

/-- Witness for C19: the test case `Error: None`, where only the map column is set. -/
theorem newEqualityCondition_no_index_witness :
    newORM.newEqualityCondition testSchema "TestTable"
        (testType 1 "" "" [(Atom.str "foo", Atom.str "bar")] "" "" 0 0) []
      = .error ovsdb.ErrNoIndex :=
  (newEqualityCondition_no_index testSchema "TestTable" testTable
    (testType 1 "" "" [(Atom.str "foo", Atom.str "bar")] "" "" 0 0) rfl rfl (by decide)).2 rfl

/-- C20: for a well-formed model and a non-empty list of pointers to tagged fields of
it (the fields at `positions`, bound to the columns `cols`), the conditions
`newEqualityCondition` returns are exactly one `==` condition per designated column,
in order, each carrying the wire form of the value the model holds for that column;
the `_uuid` of the model plays no part. -/
theorem newEqualityCondition_fields (schema : ovsdb.DatabaseSchema)
    (tableName : String) (table : ovsdb.TableSchema) (data : Model)
    (positions : List Nat) (cols : List String)
    (htable : schema.Table tableName = some table)
    (hwf : data.wellFormed table = true) (hne : positions ≠ [])
    (hptr : List.Forall₂ (fun i col =>
      ∃ f, data.fields[i]? = some f ∧ f.tag = some col) positions cols) :
    ∀ cs : List ovsdb.Condition,
      newORM.newEqualityCondition schema tableName data (positions.map data.fieldPtr) = .ok cs
        ↔ List.Forall₂ (fun col c =>
            ∃ column v w, table.Column col = some column ∧ data.column col = some v
              ∧ ovsdb.toWire column v = .ok w
              ∧ c = { Column := col, Function := "==", Value := w }) cols cs := by
  intro cs
  have hcols : ovsdb.encodeList (fun p =>
      match data.columnByPtr p with
      | some col => (.ok col : Except GoError String)
      | none => .error ovsdb.ErrInvalidFieldReference) (positions.map data.fieldPtr)
        = .ok cols := by
    rw [ovsdb.encodeList_ok_iff, List.forall₂_map_left_iff]
    exact hptr.imp (fun {i col} ⟨f, hf, htag⟩ => by
      rw [columnByPtr_fieldPtr data i f hf, htag])
  have hsel : newORM.conditionColumns table data (positions.map data.fieldPtr) = .ok cols := by
    cases hp : positions with
    | nil => exact absurd hp hne
    | cons i rest =>
      rw [hp] at hcols
      simpa [newORM.conditionColumns] using hcols
  rw [← conditions_on_columns]
  simp [newORM.newEqualityCondition, htable, hwf, hsel]

/-- Witness for C20: the test case `specify index`, a pointer to the name field of a
model whose `_uuid` is set. -/
theorem newEqualityCondition_fields_witness :
    newORM.newEqualityCondition testSchema "TestTable"
        (testType 1 aUUID0 "foo" [] "" "" 0 0)
        ([1].map (testType 1 aUUID0 "foo" [] "" "" 0 0).fieldPtr)
      = .ok [{ Column := "name", Function := "==", Value := Any.str "foo" }] :=
  (newEqualityCondition_fields testSchema "TestTable" testTable
    (testType 1 aUUID0 "foo" [] "" "" 0 0) [1] ["name"] rfl rfl (by simp)
    (List.Forall₂.cons ⟨_, rfl, rfl⟩ List.Forall₂.nil) _).2
    (List.Forall₂.cons
      ⟨scalarColumn .string, Any.str "foo", Any.str "foo", rfl, rfl, rfl, rfl⟩
      List.Forall₂.nil)

end client

/-! ## Lemmas on rows, mutations and the codec -/

namespace client

theorem rowEntries_columns (table : ovsdb.TableSchema) (emit : String → Any → Bool)
    (fs : List ModelField) (row : Row) (h : newORM.rowEntries table emit fs = .ok row)
    (col : String) :
    col ∈ row.columns
      ↔ col ≠ "_uuid" ∧ ∃ f ∈ fs, f.tag = some col ∧ emit col f.value = true := by
  induction fs generalizing row with
  | nil =>
    simp only [newORM.rowEntries, Except.ok.injEq] at h
    subst h
    simp [Row.columns]
  | cons f rest ih =>
    unfold newORM.rowEntries at h
    cases htag : f.tag with
    | none =>
      simp only [htag] at h
      rw [ih row h]
      simp [htag]
    | some c =>
      simp only [htag] at h
      by_cases hskip : c = "_uuid" ∨ emit c f.value = false
      · simp only [hskip, if_true] at h
        rw [ih row h]
        constructor
        · rintro ⟨hne, g, hg, hgt, hge⟩
          exact ⟨hne, g, List.mem_cons_of_mem _ hg, hgt, hge⟩
        · rintro ⟨hne, g, hg, hgt, hge⟩
          refine ⟨hne, ?_⟩
          rcases List.mem_cons.1 hg with rfl | hg'
          · rw [htag, Option.some.injEq] at hgt
            subst hgt
            rcases hskip with h1 | h1
            · exact absurd h1 hne
            · rw [h1] at hge
              cases hge
          · exact ⟨g, hg', hgt, hge⟩
      · simp only [hskip, if_false] at h
        cases hc : table.Column c with
        | none => simp [hc] at h
        | some column =>
          cases hw : ovsdb.toWire column f.value with
          | error e => simp [hc, hw] at h
          | ok w =>
            cases hr : newORM.rowEntries table emit rest with
            | error e => simp [hc, hw, hr] at h
            | ok row' =>
              simp only [hc, hw, hr, Except.ok.injEq] at h
              subst h
              have hih := ih row' hr
              simp only [Row.columns] at hih
              simp only [Row.columns, List.map_cons, List.mem_cons]
              rw [hih]
              simp only [not_or, Bool.not_eq_false] at hskip
              constructor
              · rintro (rfl | ⟨hne, g, hg, hgt, hge⟩)
                · exact ⟨hskip.1, f, Or.inl rfl, htag, hskip.2⟩
                · exact ⟨hne, g, Or.inr hg, hgt, hge⟩
              · rintro ⟨hne, g, hg, hgt, hge⟩
                rcases hg with rfl | hg'
                · rw [htag, Option.some.injEq] at hgt
                  exact Or.inl hgt.symm
                · exact Or.inr ⟨hne, g, hg', hgt, hge⟩

theorem rowEntries_entries (table : ovsdb.TableSchema) (emit : String → Any → Bool)
    (fs : List ModelField) (row : Row) (h : newORM.rowEntries table emit fs = .ok row)
    (col : String) (w : Any) (hmem : (col, w) ∈ row) :
    ∃ f ∈ fs, f.tag = some col ∧ emit col f.value = true
      ∧ ∃ column, table.Column col = some column ∧ ovsdb.toWire column f.value = .ok w := by
  induction fs generalizing row with
  | nil =>
    simp only [newORM.rowEntries, Except.ok.injEq] at h
    subst h
    cases hmem
  | cons f rest ih =>
    unfold newORM.rowEntries at h
    cases htag : f.tag with
    | none =>
      simp only [htag] at h
      obtain ⟨g, hg, hrest⟩ := ih row h hmem
      exact ⟨g, List.mem_cons_of_mem _ hg, hrest⟩
    | some c =>
      simp only [htag] at h
      by_cases hskip : c = "_uuid" ∨ emit c f.value = false
      · simp only [hskip, if_true] at h
        obtain ⟨g, hg, hrest⟩ := ih row h hmem
        exact ⟨g, List.mem_cons_of_mem _ hg, hrest⟩
      · simp only [hskip, if_false] at h
        cases hc : table.Column c with
        | none => simp [hc] at h
        | some column =>
          cases hw : ovsdb.toWire column f.value with
          | error e => simp [hc, hw] at h
          | ok w' =>
            cases hr : newORM.rowEntries table emit rest with
            | error e => simp [hc, hw, hr] at h
            | ok row' =>
              simp only [hc, hw, hr, Except.ok.injEq] at h
              subst h
              simp only [not_or, Bool.not_eq_false] at hskip
              rcases List.mem_cons.1 hmem with heq | hmem'
              · simp only [Prod.mk.injEq] at heq
                obtain ⟨rfl, rfl⟩ := heq
                exact ⟨f, List.mem_cons_self _ _, htag, hskip.2, column, hc, hw⟩
              · obtain ⟨g, hg, hrest⟩ := ih row' hr hmem'
                exact ⟨g, List.mem_cons_of_mem _ hg, hrest⟩

theorem rowEntries_total (table : ovsdb.TableSchema) (emit : String → Any → Bool)
    (fs : List ModelField)
    (h : ∀ f ∈ fs, ∀ col, f.tag = some col → col ≠ "_uuid" → emit col f.value = true →
      ∃ column w, table.Column col = some column ∧ ovsdb.toWire column f.value = .ok w) :
    ∃ row, newORM.rowEntries table emit fs = .ok row := by
  induction fs with
  | nil => exact ⟨[], rfl⟩
  | cons f rest ih =>
    obtain ⟨row', hr⟩ := ih (fun g hg => h g (List.mem_cons_of_mem _ hg))
    unfold newORM.rowEntries
    cases htag : f.tag with
    | none => exact ⟨row', by simpa using hr⟩
    | some c =>
      by_cases hskip : c = "_uuid" ∨ emit c f.value = false
      · exact ⟨row', by simp only [hskip, if_true]; exact hr⟩
      · have hs := hskip
        simp only [not_or, Bool.not_eq_false] at hs
        obtain ⟨column, w, hc, hw⟩ := h f (List.mem_cons_self _ _) c htag hs.1 hs.2
        exact ⟨(c, w) :: row', by simp only [hskip, if_false, hc, hw, hr]⟩

theorem newRow_default (schema : ovsdb.DatabaseSchema) (tableName : String)
    (table : ovsdb.TableSchema) (data : Model)
    (htable : schema.Table tableName = some table) (hwf : data.wellFormed table = true) :
    newORM.newRow schema tableName data []
      = newORM.rowEntries table (fun _ v => !v.isZero) data.fields := by
  simp [newORM.newRow, htable, hwf, ovsdb.encodeList]

theorem newRow_explicit (schema : ovsdb.DatabaseSchema) (tableName : String)
    (table : ovsdb.TableSchema) (data : Model) (positions : List Nat) (cols : List String)
    (htable : schema.Table tableName = some table) (hwf : data.wellFormed table = true)
    (hne : positions ≠ [])
    (hptr : List.Forall₂ (fun i col =>
      ∃ f, data.fields[i]? = some f ∧ f.tag = some col) positions cols) :
    newORM.newRow schema tableName data (positions.map data.fieldPtr)
      = newORM.rowEntries table (fun col _ => decide (col ∈ cols)) data.fields := by
  have hcols : ovsdb.encodeList (fun p =>
      match data.columnByPtr p with
      | some col => (.ok col : Except GoError String)
      | none => .error ovsdb.ErrInvalidFieldReference) (positions.map data.fieldPtr)
        = .ok cols := by
    rw [ovsdb.encodeList_ok_iff, List.forall₂_map_left_iff]
    exact hptr.imp (fun {i col} ⟨f, hf, htag⟩ => by
      rw [columnByPtr_fieldPtr data i f hf, htag])
  cases hp : positions with
  | nil => exact absurd hp hne
  | cons i rest =>
    rw [hp] at hcols
    simp only [List.map_cons] at hcols
    simp only [newORM.newRow, htable, hwf, not_true_eq_false, if_false, hcols, List.map_cons]

theorem designated_have_fields (data : Model) (positions : List Nat) (cols : List String)
    (hptr : List.Forall₂ (fun i col =>
      ∃ f, data.fields[i]? = some f ∧ f.tag = some col) positions cols)
    (col : String) (hcol : col ∈ cols) : ∃ f ∈ data.fields, f.tag = some col := by
  induction hptr with
  | nil => cases hcol
  | cons hhead _ ih =>
    rcases List.mem_cons.1 hcol with rfl | hrest
    · obtain ⟨f, hf, htag⟩ := hhead
      exact ⟨f, List.getElem?_mem hf, htag⟩
    · exact ih hrest

theorem shape_map_value (column : ovsdb.ColumnSchema) (hm : column.shape = some .map) :
    ∃ vt, column.Value = some vt := by
  unfold ovsdb.ColumnSchema.shape at hm
  cases hval : column.Value with
  | some vt => exact ⟨vt, rfl⟩
  | none =>
    simp only [hval, Option.isSome_none, Bool.false_eq_true, if_false] at hm
    split at hm <;> (try split at hm) <;> (try split at hm) <;> (try split at hm) <;>
      simp at hm

theorem columnByPtrFrom_foreign (m : Model) (p : Any) (l : List ModelField) (k : Nat)
    (h : ∀ j, m.fieldPtr j ≠ p) : Model.columnByPtrFrom m p k l = none := by
  induction l generalizing k with
  | nil => rfl
  | cons f rest ih => simp [Model.columnByPtrFrom, h k, ih]

theorem columnByPtr_other (a b : Model) (hab : a.addr ≠ b.addr) (i : Nat) :
    a.columnByPtr (b.fieldPtr i) = none := by
  apply columnByPtrFrom_foreign
  intro j hj
  simp only [Model.fieldPtr, Any.ptr.injEq, Nat.pair_eq_pair] at hj
  exact hab hj.1


theorem readFields_unchanged (table : ovsdb.TableSchema) (row : Row) (e : GoError)
    (fs : List ModelField) :
    List.Forall₂ (fun f f' =>
        f'.tag = f.tag
          ∧ (f.tag = none → f'.value = f.value)
          ∧ (∀ col, f.tag = some col → row.get col = none → f'.value = f.value)
          ∧ (∀ col w, f.tag = some col → row.get col = some w →
              f'.value = f.value
                ∨ ∃ column, table.Column col = some column
                    ∧ ovsdb.fromWire column w f.value = .ok f'.value)
          ∧ (some e = none → ∀ col w, f.tag = some col → row.get col = some w →
              ∃ column, table.Column col = some column
                ∧ ovsdb.fromWire column w f.value = .ok f'.value)) fs fs := by
  induction fs with
  | nil => exact List.Forall₂.nil
  | cons f rest ih =>
    exact List.Forall₂.cons
      ⟨rfl, fun _ => rfl, fun _ _ _ => rfl, fun _ _ _ _ => Or.inl rfl,
        fun h => by cases h⟩ ih

theorem readFields_untagged (table : ovsdb.TableSchema) (row : Row) (f : ModelField)
    (rest done : List ModelField) (htag : f.tag = none) :
    newORM.readFields table row done (f :: rest)
      = newORM.readFields table row (done ++ [f]) rest := by
  simp only [newORM.readFields, htag]

theorem readFields_absent (table : ovsdb.TableSchema) (row : Row) (f : ModelField)
    (rest done : List ModelField) (c : String) (htag : f.tag = some c)
    (hget : row.get c = none) :
    newORM.readFields table row done (f :: rest)
      = newORM.readFields table row (done ++ [f]) rest := by
  simp only [newORM.readFields, htag, hget]

theorem readFields_unknown (table : ovsdb.TableSchema) (row : Row) (f : ModelField)
    (rest done : List ModelField) (c : String) (w : Any) (htag : f.tag = some c)
    (hget : row.get c = some w) (hcol : table.Column c = none) :
    newORM.readFields table row done (f :: rest)
      = (done ++ f :: rest, some ovsdb.ErrUnknownColumn) := by
  simp only [newORM.readFields, htag, hget, hcol]

theorem readFields_mismatch (table : ovsdb.TableSchema) (row : Row) (f : ModelField)
    (rest done : List ModelField) (c : String) (w : Any) (column : ovsdb.ColumnSchema)
    (e : GoError) (htag : f.tag = some c) (hget : row.get c = some w)
    (hcol : table.Column c = some column)
    (hdec : ovsdb.fromWire column w f.value = .error e) :
    newORM.readFields table row done (f :: rest) = (done ++ f :: rest, some e) := by
  simp only [newORM.readFields, htag, hget, hcol, hdec]

theorem readFields_assign (table : ovsdb.TableSchema) (row : Row) (f : ModelField)
    (rest done : List ModelField) (c : String) (w v : Any) (column : ovsdb.ColumnSchema)
    (htag : f.tag = some c) (hget : row.get c = some w)
    (hcol : table.Column c = some column)
    (hdec : ovsdb.fromWire column w f.value = .ok v) :
    newORM.readFields table row done (f :: rest)
      = newORM.readFields table row (done ++ [{ f with value := v }]) rest := by
  simp only [newORM.readFields, htag, hget, hcol, hdec]

theorem readFields_spec (table : ovsdb.TableSchema) (row : Row) (fs : List ModelField)
    (done : List ModelField) :
    ∃ fs', (newORM.readFields table row done fs).1 = done ++ fs'
      ∧ List.Forall₂ (fun f f' =>
        f'.tag = f.tag
          ∧ (f.tag = none → f'.value = f.value)
          ∧ (∀ col, f.tag = some col → row.get col = none → f'.value = f.value)
          ∧ (∀ col w, f.tag = some col → row.get col = some w →
              f'.value = f.value
                ∨ ∃ column, table.Column col = some column
                    ∧ ovsdb.fromWire column w f.value = .ok f'.value)
          ∧ ((newORM.readFields table row done fs).2 = none → ∀ col w, f.tag = some col → row.get col = some w →
              ∃ column, table.Column col = some column
                ∧ ovsdb.fromWire column w f.value = .ok f'.value)) fs fs' := by
  induction fs generalizing done with
  | nil => exact ⟨[], by simp [newORM.readFields], List.Forall₂.nil⟩
  | cons f rest ih =>
    cases htag : f.tag with
    | none =>
      rw [readFields_untagged table row f rest done htag]
      obtain ⟨fs', h1, h2⟩ := ih (done ++ [f])
      refine ⟨f :: fs', by simp [h1], List.Forall₂.cons ?_ h2⟩
      exact ⟨rfl, fun _ => rfl, fun _ _ _ => rfl, fun _ _ _ _ => Or.inl rfl,
        fun _ col w hc _ => by rw [htag] at hc; cases hc⟩
    | some c =>
      cases hget : row.get c with
      | none =>
        rw [readFields_absent table row f rest done c htag hget]
        obtain ⟨fs', h1, h2⟩ := ih (done ++ [f])
        refine ⟨f :: fs', by simp [h1], List.Forall₂.cons ?_ h2⟩
        refine ⟨rfl, fun _ => rfl, fun _ _ _ => rfl, fun _ _ _ _ => Or.inl rfl,
          fun _ col w hc hw => ?_⟩
        rw [htag, Option.some.injEq] at hc
        subst hc
        rw [hget] at hw
        cases hw
      | some w =>
        cases hcol : table.Column c with
        | none =>
          rw [readFields_unknown table row f rest done c w htag hget hcol]
          exact ⟨f :: rest, rfl, readFields_unchanged table row _ (f :: rest)⟩
        | some column =>
          cases hdec : ovsdb.fromWire column w f.value with
          | error e =>
            rw [readFields_mismatch table row f rest done c w column e htag hget hcol hdec]
            exact ⟨f :: rest, rfl, readFields_unchanged table row _ (f :: rest)⟩
          | ok v =>
            rw [readFields_assign table row f rest done c w v column htag hget hcol hdec]
            obtain ⟨fs', h1, h2⟩ := ih (done ++ [{ f with value := v }])
            refine ⟨{ f with value := v } :: fs', by simp [h1], List.Forall₂.cons ?_ h2⟩
            refine ⟨rfl, fun h => ?_, fun col hc hn => ?_, fun col w' hc hw => ?_,
              fun _ col w' hc hw => ?_⟩
            · rw [htag] at h
              cases h
            · rw [htag, Option.some.injEq] at hc
              subst hc
              rw [hget] at hn
              cases hn
            · rw [htag, Option.some.injEq] at hc
              subst hc
              rw [hget, Option.some.injEq] at hw
              subst hw
              exact Or.inr ⟨column, hcol, hdec⟩
            · rw [htag, Option.some.injEq] at hc
              subst hc
              rw [hget, Option.some.injEq] at hw
              subst hw
              exact ⟨column, hcol, hdec⟩

theorem toAny_toAtom (a : Atom) : a.toAny.toAtom? = some a := by
  cases a <;> rfl

theorem wireElems_atom (a : Atom) : ovsdb.wireElems a.toAny = some [a] := by
  cases a <;> rfl

end client

namespace ovsdb

theorem toAtom_eq (v : Any) (a : Atom) (h : v.toAtom? = some a) : a.toAny = v := by
  cases v <;> simp [Any.toAtom?] at h <;> subst h <;> rfl

theorem atom_roundtrip (key : AtomicType) (a w : Atom) (h : atomToWire key a = .ok w)
    (hn : a.isNative = true) : atomFromWire key w = .ok a := by
  cases a <;> cases key <;> simp [atomToWire] at h <;> try (subst h; simp [atomFromWire])
  all_goals simp [Atom.isNative] at hn

theorem elem_roundtrip (column : ColumnSchema) (a w : Atom)
    (h : elemToWire column a = .ok w) (hn : a.isNative = true) :
    atomFromWire column.Key w = .ok a := by
  unfold elemToWire checkEnum at h
  cases henum : column.Enum with
  | none =>
    simp only [henum] at h
    exact atom_roundtrip column.Key a w h hn
  | some domain =>
    simp only [henum] at h
    by_cases hmem : a ∈ domain
    · simp only [hmem, if_true] at h
      exact atom_roundtrip column.Key a w h hn
    · simp [hmem] at h

theorem elems_roundtrip (column : ColumnSchema) (xs ws : List Atom)
    (h : encodeList (elemToWire column) xs = .ok ws)
    (hn : xs.all Atom.isNative = true) :
    encodeList (atomFromWire column.Key) ws = .ok xs := by
  induction xs generalizing ws with
  | nil =>
    simp only [encodeList, Except.ok.injEq] at h
    subst h
    rfl
  | cons x rest ih =>
    simp only [List.all_cons, Bool.and_eq_true] at hn
    unfold encodeList at h
    cases hx : elemToWire column x with
    | error e => simp [hx] at h
    | ok w =>
      cases hr : encodeList (elemToWire column) rest with
      | error e => simp [hx, hr] at h
      | ok ws' =>
        simp only [hx, hr, Except.ok.injEq] at h
        subst h
        simp only [encodeList, elem_roundtrip column x w hx hn.1, ih ws' hr hn.2]

theorem entries_roundtrip (column : ColumnSchema) (vt : AtomicType)
    (xs ws : List (Atom × Atom))
    (h : encodeList (fun kv : Atom × Atom =>
        match elemToWire column kv.1, atomToWire vt kv.2 with
        | .ok k, .ok w => (.ok (k, w) : Except GoError (Atom × Atom))
        | .error e, _ => .error e
        | _, .error e => .error e) xs = .ok ws)
    (hn : xs.all (fun kv => kv.1.isNative && kv.2.isNative) = true) :
    encodeList (fun kv : Atom × Atom =>
        match atomFromWire column.Key kv.1, atomFromWire vt kv.2 with
        | .ok k, .ok v => (.ok (k, v) : Except GoError (Atom × Atom))
        | .error e, _ => .error e
        | _, .error e => .error e) ws = .ok xs := by
  induction xs generalizing ws with
  | nil =>
    simp only [encodeList, Except.ok.injEq] at h
    subst h
    rfl
  | cons x rest ih =>
    simp only [List.all_cons, Bool.and_eq_true] at hn
    unfold encodeList at h
    cases hk : elemToWire column x.1 with
    | error e => simp [hk] at h
    | ok k =>
      cases hv : atomToWire vt x.2 with
      | error e => simp [hk, hv] at h
      | ok w =>
        cases hr : encodeList (fun kv : Atom × Atom =>
            match elemToWire column kv.1, atomToWire vt kv.2 with
            | .ok k, .ok w => (.ok (k, w) : Except GoError (Atom × Atom))
            | .error e, _ => .error e
            | _, .error e => .error e) rest with
        | error e => simp [hk, hv, hr] at h
        | ok ws' =>
          simp only [hk, hv, hr, Except.ok.injEq] at h
          subst h
          simp only [encodeList, elem_roundtrip column x.1 k hk hn.1.1,
            atom_roundtrip vt x.2 w hv hn.1.2, ih ws' hr hn.2]

theorem fitsField_atom_not_slice (d : Any) (a : Atom) (h : fitsField d a.toAny = true) :
    d.toAtom?.isSome = true := by
  cases d <;> cases a <;> simp [fitsField, Atom.toAny] at h <;> rfl

theorem fromWire_toWire (column : ColumnSchema) (v w dest : Any)
    (hw : toWire column v = .ok w) (hn : v.isNative = true)
    (ht : sameFieldType column dest v = true) : fromWire column w dest = .ok v := by
  unfold toWire at hw
  unfold fromWire
  unfold sameFieldType at ht
  cases hs : column.shape with
  | none => simp [hs] at hw
  | some shape =>
    cases shape with
    | scalar =>
      simp only [hs] at hw ht
      cases ha : v.toAtom? with
      | none => simp [ha] at hw
      | some a =>
        cases he : elemToWire column a with
        | error e => simp [ha, he] at hw
        | ok a' =>
          simp only [ha, he, Except.ok.injEq] at hw
          subst hw
          have hva := toAtom_eq v a ha
          subst hva
          have hnat : a.isNative = true := by
            cases a <;> simp_all [Any.isNative, Atom.toAny, Atom.isNative]
          simp only [client.toAny_toAtom, elem_roundtrip column a a' he hnat, ht, if_true]
    | set =>
      simp only [hs] at hw ht
      cases v <;> simp at hw
      rename_i elems
      cases he : encodeList (elemToWire column) elems with
      | error e => simp [he] at hw
      | ok ws =>
        simp only [he, Except.ok.injEq] at hw
        subst hw
        have hnat : elems.all Atom.isNative = true := by simpa [Any.isNative] using hn
        simp only [wireElems, elems_roundtrip column elems ws he (by simpa using hnat), ht,
          if_true]
    | optional =>
      simp only [hs] at hw ht
      cases v with
      | nil =>
        simp only [Except.ok.injEq] at hw
        subst hw
        cases dest <;> simp [Any.toAtom?] at ht <;>
          simp [wireElems, encodeList, Any.toAtom?]
      | slice elems =>
        cases he : encodeList (elemToWire column) elems with
        | error e => simp [he] at hw
        | ok ws =>
          simp only [he, Except.ok.injEq] at hw
          subst hw
          have hnat : elems.all Atom.isNative = true := by simpa [Any.isNative] using hn
          cases dest <;> simp [Any.toAtom?, fitsField] at ht
          simp only [wireElems, elems_roundtrip column elems ws he (by simpa using hnat)]
      | bool b =>
        cases he : elemToWire column (Atom.bool b) with
        | error e => simp [Any.toAtom?, he] at hw
        | ok a' =>
          simp only [Any.toAtom?, he, Except.ok.injEq] at hw
          subst hw
          have hr := elem_roundtrip column (Atom.bool b) a' he rfl
          cases dest <;> simp [Any.toAtom?, fitsField] at ht <;>
            simp [wireElems, encodeList, hr, Any.toAtom?, Atom.toAny, fitsField]
      | int n =>
        cases he : elemToWire column (Atom.int n) with
        | error e => simp [Any.toAtom?, he] at hw
        | ok a' =>
          simp only [Any.toAtom?, he, Except.ok.injEq] at hw
          subst hw
          have hr := elem_roundtrip column (Atom.int n) a' he rfl
          cases dest <;> simp [Any.toAtom?, fitsField] at ht <;>
            simp [wireElems, encodeList, hr, Any.toAtom?, Atom.toAny, fitsField]
      | real x =>
        cases he : elemToWire column (Atom.real x) with
        | error e => simp [Any.toAtom?, he] at hw
        | ok a' =>
          simp only [Any.toAtom?, he, Except.ok.injEq] at hw
          subst hw
          have hr := elem_roundtrip column (Atom.real x) a' he rfl
          cases dest <;> simp [Any.toAtom?, fitsField] at ht <;>
            simp [wireElems, encodeList, hr, Any.toAtom?, Atom.toAny, fitsField]
      | str x =>
        cases he : elemToWire column (Atom.str x) with
        | error e => simp [Any.toAtom?, he] at hw
        | ok a' =>
          simp only [Any.toAtom?, he, Except.ok.injEq] at hw
          subst hw
          have hr := elem_roundtrip column (Atom.str x) a' he rfl
          cases dest <;> simp [Any.toAtom?, fitsField] at ht <;>
            simp [wireElems, encodeList, hr, Any.toAtom?, Atom.toAny, fitsField]
      | uuid u => simp [Any.isNative] at hn
      | ptr p => simp [Any.isNative] at hn
      | gomap e => simp [Any.toAtom?] at hw
      | set e => simp [Any.isNative] at hn
      | map e => simp [Any.isNative] at hn
    | map =>
      simp only [hs] at hw ht
      cases v with
      | gomap entries =>
        cases hval : column.Value with
        | none => simp [hval] at hw
        | some vt =>
          simp only [hval] at hw
          split at hw
          · cases hw
          · rename_i ws he
            simp only [Except.ok.injEq] at hw
            subst hw
            have hnat : entries.all (fun kv => kv.1.isNative && kv.2.isNative) = true := by
              simpa [Any.isNative] using hn
            simp only [entries_roundtrip column vt entries ws he hnat, ht, if_true]
      | _ => simp at hw

end ovsdb

namespace client

theorem taggedPtrsFrom_resolve (m : Model) (l : List ModelField) (k : Nat)
    (h : m.fields.drop k = l) :
    ovsdb.encodeList (fun p =>
      match m.columnByPtr p with
      | some col => (.ok col : Except GoError String)
      | none => .error ovsdb.ErrInvalidFieldReference) (Model.taggedPtrsFrom m k l)
        = .ok (l.filterMap (fun f => f.tag)) := by
  induction l generalizing k with
  | nil => rfl
  | cons f rest ih =>
    have hk : m.fields[k]? = some f := by
      have := congrArg (fun l => l[0]?) h
      simpa [List.getElem?_drop] using this
    have hrest : m.fields.drop (k + 1) = rest := by
      have := congrArg (fun l => l.drop 1) h
      simpa [List.drop_drop, Nat.add_comm] using this
    have ih' := ih (k + 1) hrest
    cases htag : f.tag with
    | none => simpa [Model.taggedPtrsFrom, htag] using ih'
    | some c =>
      have hres := columnByPtr_fieldPtr m k f hk
      rw [htag] at hres
      simp [Model.taggedPtrsFrom, htag, ovsdb.encodeList, hres, ih']

theorem taggedPtrs_resolve (m : Model) :
    ovsdb.encodeList (fun p =>
      match m.columnByPtr p with
      | some col => (.ok col : Except GoError String)
      | none => .error ovsdb.ErrInvalidFieldReference) m.taggedPtrs
        = .ok (m.fields.filterMap (fun f => f.tag)) :=
  taggedPtrsFrom_resolve m m.fields 0 rfl

theorem taggedPtrsFrom_nil (m : Model) (l : List ModelField) (k : Nat)
    (h : Model.taggedPtrsFrom m k l = []) : ∀ f ∈ l, f.tag = none := by
  induction l generalizing k with
  | nil => intro f hf; cases hf
  | cons g rest ih =>
    simp only [Model.taggedPtrsFrom, List.append_eq_nil] at h
    intro f hf
    rcases List.mem_cons.1 hf with rfl | hf'
    · cases htag : f.tag with
      | none => rfl
      | some c => simp [htag] at h
    · exact ih (k + 1) h.2 f hf'

theorem rowEntries_congr (table : ovsdb.TableSchema) (emit1 emit2 : String → Any → Bool)
    (fs : List ModelField)
    (h : ∀ f ∈ fs, ∀ c, f.tag = some c → emit1 c f.value = emit2 c f.value) :
    newORM.rowEntries table emit1 fs = newORM.rowEntries table emit2 fs := by
  induction fs with
  | nil => rfl
  | cons f rest ih =>
    have ih' := ih (fun g hg => h g (List.mem_cons_of_mem _ hg))
    unfold newORM.rowEntries
    cases htag : f.tag with
    | none => simpa using ih'
    | some c =>
      simp only [h f (List.mem_cons_self _ _) c htag, ih']

theorem newRow_all (schema : ovsdb.DatabaseSchema) (tableName : String)
    (table : ovsdb.TableSchema) (m : Model)
    (htable : schema.Table tableName = some table) (hwf : m.wellFormed table = true) :
    newORM.newRow schema tableName m m.taggedPtrs
      = newORM.rowEntries table (fun _ _ => true) m.fields := by
  have hres := taggedPtrs_resolve m
  simp only [newORM.newRow, htable, hwf, not_true_eq_false, if_false, hres]
  apply rowEntries_congr
  intro f hf c htag
  cases hp : m.taggedPtrs with
  | nil =>
    have := taggedPtrsFrom_nil m m.fields 0 hp f hf
    rw [htag] at this
    cases this
  | cons p ps =>
    simp only [decide_eq_true_eq, List.mem_filterMap]
    exact ⟨f, hf, htag⟩

theorem rowEntries_get (table : ovsdb.TableSchema) (fs : List ModelField) (row : Row)
    (h : newORM.rowEntries table (fun _ _ => true) fs = .ok row)
    (col : String) (hcol : col ≠ "_uuid") :
    match (fs.find? (fun f => f.tag == some col)).map (fun f => f.value) with
    | some v => ∃ column w, table.Column col = some column
        ∧ ovsdb.toWire column v = .ok w ∧ row.get col = some w
    | none => row.get col = none := by
  induction fs generalizing row with
  | nil =>
    simp only [newORM.rowEntries, Except.ok.injEq] at h
    subst h
    rfl
  | cons f rest ih =>
    unfold newORM.rowEntries at h
    cases htag : f.tag with
    | none =>
      simp only [htag] at h
      have := ih row h
      simpa [List.find?, htag] using this
    | some c =>
      simp only [htag] at h
      by_cases hc : c = "_uuid"
      · simp only [hc, true_or, if_true] at h
        have := ih row h
        have hne : ("_uuid" == col) = false := by
          simp only [beq_eq_false_iff_ne, ne_eq]
          exact fun h' => hcol h'.symm
        simpa [List.find?, htag, hc, hne] using this
      · simp only [hc, Bool.true_eq_false, or_self, if_false] at h
        cases hcl : table.Column c with
        | none => simp [hcl] at h
        | some column =>
          cases hw : ovsdb.toWire column f.value with
          | error e => simp [hcl, hw] at h
          | ok w =>
            cases hr : newORM.rowEntries table (fun _ _ => true) rest with
            | error e => simp [hcl, hw, hr] at h
            | ok row' =>
              simp only [hcl, hw, hr, Except.ok.injEq] at h
              subst h
              by_cases heq : c = col
              · subst heq
                simp only [List.find?, htag, beq_self_eq_true, Option.map_some']
                exact ⟨column, w, hcl, hw, by simp [Row.get, List.find?]⟩
              · have hne : (c == col) = false := by simpa using heq
                have := ih row' hr
                simpa [List.find?, htag, hne, Row.get, heq] using this

theorem readFields_total (table : ovsdb.TableSchema) (row : Row) (fs done : List ModelField)
    (h : ∀ f ∈ fs, ∀ col w, f.tag = some col → row.get col = some w →
      ∃ column v, table.Column col = some column
        ∧ ovsdb.fromWire column w f.value = .ok v) :
    (newORM.readFields table row done fs).2 = none := by
  induction fs generalizing done with
  | nil => rfl
  | cons f rest ih =>
    have hrest := fun d => ih d (fun g hg => h g (List.mem_cons_of_mem _ hg))
    cases htag : f.tag with
    | none =>
      rw [readFields_untagged table row f rest done htag]
      exact hrest _
    | some c =>
      cases hget : row.get c with
      | none =>
        rw [readFields_absent table row f rest done c htag hget]
        exact hrest _
      | some w =>
        obtain ⟨column, v, hcol, hdec⟩ := h f (List.mem_cons_self _ _) c w htag hget
        rw [readFields_assign table row f rest done c w v column htag hget hcol hdec]
        exact hrest _

theorem find_forall₂ (R : ModelField → ModelField → Prop) (col : String)
    (fs fs' : List ModelField)
    (h : List.Forall₂ (fun f f' => f'.tag = f.tag ∧ R f f') fs fs') :
    (fs.find? (fun f => f.tag == some col) = none
        ∧ fs'.find? (fun f => f.tag == some col) = none)
      ∨ ∃ f f', fs.find? (fun f => f.tag == some col) = some f
          ∧ fs'.find? (fun f => f.tag == some col) = some f'
          ∧ f.tag = some col ∧ R f f' := by
  induction fs generalizing fs' with
  | nil =>
    cases h
    exact Or.inl ⟨rfl, rfl⟩
  | cons f rest ih =>
    cases h with
    | cons hhead htail =>
      rename_i f' rest'
      obtain ⟨htag, hR⟩ := hhead
      by_cases hc : f.tag = some col
      · have h1 : (f.tag == some col) = true := by simpa using hc
        have h2 : (f'.tag == some col) = true := by rw [htag]; exact h1
        refine Or.inr ⟨f, f', ?_, ?_, hc, hR⟩
        · rw [List.find?_cons, h1]
        · rw [List.find?_cons, h2]
      · have h1 : (f.tag == some col) = false := by simpa using hc
        have h2 : (f'.tag == some col) = false := by rw [htag]; exact h1
        rw [List.find?_cons, h1, List.find?_cons, h2]
        exact ih rest' htail

theorem get_mem_columns (row : Row) (col : String) (w : Any) (h : row.get col = some w) :
    col ∈ row.columns := by
  unfold Row.get at h
  cases hf : List.find? (fun kv => kv.1 == col) row with
  | none => simp [hf] at h
  | some kv =>
    have hmem := List.mem_of_find?_eq_some hf
    have hp := List.find?_some hf
    simp only [beq_iff_eq] at hp
    rw [← hp]
    exact List.mem_map.2 ⟨kv, hmem, rfl⟩

theorem wellFormed_of_tags (table : ovsdb.TableSchema) (m m' : Model)
    (h : m'.fields.map (fun f => f.tag) = m.fields.map (fun f => f.tag))
    (hwf : m.wellFormed table = true) : m'.wellFormed table = true := by
  have key : ∀ x : Model, x.wellFormed table
      = (x.fields.map (fun f => f.tag)).all (fun t =>
          match t with
          | none => true
          | some col => (table.Column col).isSome) := by
    intro x
    unfold Model.wellFormed
    induction x.fields with
    | nil => rfl
    | cons f rest ih => simp only [List.all_cons, List.map_cons, ih]
  rw [key] at hwf ⊢
  rw [h]
  exact hwf

theorem column_of_tagged (m : Model) (col : String)
    (h : ∃ f ∈ m.fields, f.tag = some col) :
    ∃ f ∈ m.fields, f.tag = some col
      ∧ m.fields.find? (fun f => f.tag == some col) = some f := by
  obtain ⟨g, hg, hgt⟩ := h
  cases hf : m.fields.find? (fun f => f.tag == some col) with
  | none =>
    have := List.find?_eq_none.1 hf g hg
    simp [hgt] at this
  | some f =>
    have hp := List.find?_some hf
    simp only [beq_iff_eq] at hp
    exact ⟨f, List.mem_of_find?_eq_some hf, hp, rfl⟩

end client

/-! ## Rows: default and explicit emission, and the round trip -/

namespace client
/-- The cases of `TestORMNewRowFields`: without field specification only the fields
that do not hold a zero value are emitted; with it, exactly the designated fields. -/
theorem TestORMNewRowFields_cases :
    newORM.newRow ormTestSchema "TestTable" (newRowObj 1 [] [] "foo" 0) []
        = .ok [("aString", Any.str "foo")]
      ∧ newORM.newRow ormTestSchema "TestTable" (newRowObj 1 [] [] "" 0)
          [(newRowObj 1 [] [] "" 0).fieldPtr 2] = .ok [("aString", Any.str "")]
      ∧ newORM.newRow ormTestSchema "TestTable" (newRowObj 1 [] [] "" 0) [] = .ok []
      ∧ newORM.newRow ormTestSchema "TestTable" (newRowObj 1 [] [] "" 0)
          [(newRowObj 1 [] [] "" 0).fieldPtr 1] = .ok [("aSet", Any.set [])]
      ∧ newORM.newRow ormTestSchema "TestTable" (newRowObj 1 [] [] "foo" 0)
          [(newRowObj 1 [] [] "foo" 0).fieldPtr 0] = .ok [("aMap", Any.map [])]
      ∧ newORM.newRow ormTestSchema "TestTable" (newRowObj 1 aMap aSet "foo" 42)
          [(newRowObj 1 aMap aSet "foo" 42).fieldPtr 0,
           (newRowObj 1 aMap aSet "foo" 42).fieldPtr 1]
          = .ok [("aMap", Any.map aMap), ("aSet", Any.set aSet)] :=
  ⟨rfl, rfl, rfl, rfl, rfl, rfl⟩

/-- The case of `TestORMGetData`: every tagged field is assigned from the entry of its
column, the bare string of `aSingleSet` is read as a list of one element, and the field
without tag keeps its value. -/
theorem TestORMGetData_case :
    newORM.getRowData ormTestSchema "TestTable" getOvsTestRow
        (ormTestType "" [] [] [] "" [] 0 [] [] "" [] "something")
      = (ormTestType "foo" aSet [Atom.str "foo"]
            [Atom.str aUUID0, Atom.str aUUID1,
             Atom.str "2f77b348-9768-4866-b761-89d5177ecda2",
             Atom.str "2f77b348-9768-4866-b761-89d5177ecda3"]
            aUUID0 [Atom.int 3, Atom.int 2, Atom.int 42] 42
            [Atom.real 3, Atom.real 2, Atom.real 42] [] "enum1" aMap "something", none) := by
  decide

/-- The cases of `TestORMMutation`. -/
theorem TestORMMutation_cases :
    newORM.newMutation mutationTestSchema "TestTable" mutationTestObj "string" "+=" Any.nil
        = .error ovsdb.ErrIllegalMutator
      ∧ newORM.newMutation mutationTestSchema "TestTable" mutationTestObj "int" "+="
          (Any.int 1) = .ok [Any.str "int", Any.str "+=", Any.int 1]
      ∧ newORM.newMutation mutationTestSchema "TestTable" mutationTestObj "int" "%="
          (Any.int 2) = .ok [Any.str "int", Any.str "%=", Any.int 2]
      ∧ newORM.newMutation mutationTestSchema "TestTable" mutationTestObj "unmutable" "-="
          (Any.int 2) = .error ovsdb.ErrImmutableColumn
      ∧ newORM.newMutation mutationTestSchema "TestTable" mutationTestObj "set" "insert"
          (Any.slice [Atom.str "foo"])
          = .ok [Any.str "set", Any.str "insert", Any.set [Atom.str "foo"]]
      ∧ newORM.newMutation mutationTestSchema "TestTable" mutationTestObj "set" "delete"
          (Any.slice [Atom.str "foo"])
          = .ok [Any.str "set", Any.str "delete", Any.set [Atom.str "foo"]]
      ∧ newORM.newMutation mutationTestSchema "TestTable" mutationTestObj "map" "delete"
          (Any.slice [Atom.str "foo", Atom.str "bar"])
          = .ok [Any.str "map", Any.str "delete", Any.set [Atom.str "foo", Atom.str "bar"]]
      ∧ newORM.newMutation mutationTestSchema "TestTable" mutationTestObj "map" "insert"
          (Any.gomap [(Atom.str "foo", Atom.str "bar")])
          = .ok [Any.str "map", Any.str "insert",
                 Any.map [(Atom.str "foo", Atom.str "bar")]] :=
  ⟨rfl, rfl, rfl, rfl, rfl, rfl, rfl, rfl⟩

/-- C21, as stated, fails.  The record of the case `empty set without field
specification` of `TestORMNewRowFields` holds the zero value in every field; its field
`MyString` is a tagged scalar field, bound to the scalar column `aString`, and the row
built without explicit fields has no entry for that column: the expected row of the
test is the empty row. -/
theorem newRow_default_counterexample :
    ¬ (∀ (schema : ovsdb.DatabaseSchema) (tableName : String) (table : ovsdb.TableSchema)
        (data : Model) (row : Row) (f : ModelField) (col : String)
        (column : ovsdb.ColumnSchema),
        schema.Table tableName = some table → data.wellFormed table = true →
        newORM.newRow schema tableName data [] = .ok row →
        f ∈ data.fields → f.tag = some col → table.Column col = some column →
        column.shape = some .scalar → col ∈ row.columns) := by
  intro h
  have hx := h ormTestSchema "TestTable" ormTestTable (newRowObj 1 [] [] "" 0) []
    { tag := some "aString", value := Any.str "" } "aString" (scalarColumn .string)
    rfl rfl rfl (by decide) rfl rfl rfl
  cases hx

/-- C21, amended.  For every well-formed model of a table of the schema, a row that
`newRow` returns when called with no explicit fields has an entry for a column exactly
when the column is not `_uuid` and a field tagged with it holds a value that is not the
zero value of its type: this rule is the same for scalars, sets and maps, so a zero
scalar, like a nil or empty set or map, gives no entry.  Every entry of the row is the
wire form of such a field, and the call succeeds whenever every such field has a wire
form. -/
theorem newRow_default_emission (schema : ovsdb.DatabaseSchema) (tableName : String)
    (table : ovsdb.TableSchema) (data : Model)
    (htable : schema.Table tableName = some table) (hwf : data.wellFormed table = true) :
    (∀ row, newORM.newRow schema tableName data [] = .ok row →
        (∀ col, col ∈ row.columns
          ↔ col ≠ "_uuid" ∧ ∃ f ∈ data.fields, f.tag = some col ∧ f.value.isZero = false)
        ∧ (∀ col w, (col, w) ∈ row →
            ∃ f ∈ data.fields, f.tag = some col ∧ f.value.isZero = false
              ∧ ∃ column, table.Column col = some column
                  ∧ ovsdb.toWire column f.value = .ok w))
      ∧ ((∀ f ∈ data.fields, ∀ col, f.tag = some col → col ≠ "_uuid" →
            f.value.isZero = false →
            ∃ column w, table.Column col = some column
              ∧ ovsdb.toWire column f.value = .ok w) →
          ∃ row, newORM.newRow schema tableName data [] = .ok row) := by
  rw [newRow_default schema tableName table data htable hwf]
  refine ⟨fun row h => ⟨fun col => ?_, fun col w hmem => ?_⟩, fun hall => ?_⟩
  · rw [rowEntries_columns table _ data.fields row h col]
    simp
  · obtain ⟨f, hf, htag, hemit, hrest⟩ := rowEntries_entries table _ data.fields row h col w hmem
    exact ⟨f, hf, htag, by simpa using hemit, hrest⟩
  · apply rowEntries_total
    intro f hf col htag hne hemit
    exact hall f hf col htag hne (by simpa using hemit)

/-- Witness for C21: the case `string` of `TestORMNewRowFields`; only `aString` holds a
value that is not zero. -/
theorem newRow_default_emission_witness :
    newORM.newRow ormTestSchema "TestTable" (newRowObj 1 [] [] "foo" 0) []
        = .ok [("aString", Any.str "foo")]
      ∧ ∀ col, col ∈ Row.columns [("aString", Any.str "foo")]
          ↔ col ≠ "_uuid" ∧ ∃ f ∈ (newRowObj 1 [] [] "foo" 0).fields,
              f.tag = some col ∧ f.value.isZero = false :=
  ⟨rfl, ((newRow_default_emission ormTestSchema "TestTable" ormTestTable
    (newRowObj 1 [] [] "foo" 0) rfl rfl).1 _ rfl).1⟩

/-- C22, as stated, fails.  With the pointer to the field tagged `_uuid` as the only
explicit field, the designated column is `_uuid`, and the row has no column at all: the
`_uuid` column is never part of a row that `newRow` builds. -/
theorem newRow_explicit_counterexample :
    ¬ (∀ (schema : ovsdb.DatabaseSchema) (tableName : String) (table : ovsdb.TableSchema)
        (data : Model) (positions : List Nat) (cols : List String) (row : Row),
        schema.Table tableName = some table → data.wellFormed table = true →
        positions ≠ [] →
        List.Forall₂ (fun i col =>
          ∃ f, data.fields[i]? = some f ∧ f.tag = some col) positions cols →
        newORM.newRow schema tableName data (positions.map data.fieldPtr) = .ok row →
        ∀ col, col ∈ row.columns ↔ col ∈ cols) := by
  intro h
  have hx := h testSchema "TestTable" testTable (testType 1 aUUID0 "foo" [] "" "" 0 0)
    [0] ["_uuid"] [] rfl rfl (by simp)
    (List.Forall₂.cons ⟨_, rfl, rfl⟩ List.Forall₂.nil) rfl "_uuid"
  have := hx.2 (List.mem_singleton.2 rfl)
  cases this

/-- C22, amended.  For every well-formed model and every non-empty list of pointers to
tagged fields of it, a row that `newRow` returns has exactly the designated columns
other than `_uuid`, each with the wire form of the value of its field; the call
succeeds whenever the designated fields have a wire form.  The wire form of an empty
list for a set column is the empty OVSDB set, that of an empty map for a map column is
the empty OVSDB map, and the zero string, integer, real and boolean of a scalar column
without enum are passed as they are. -/
theorem newRow_explicit_emission (schema : ovsdb.DatabaseSchema) (tableName : String)
    (table : ovsdb.TableSchema) (data : Model) (positions : List Nat) (cols : List String)
    (htable : schema.Table tableName = some table) (hwf : data.wellFormed table = true)
    (hne : positions ≠ [])
    (hptr : List.Forall₂ (fun i col =>
      ∃ f, data.fields[i]? = some f ∧ f.tag = some col) positions cols) :
    (∀ row, newORM.newRow schema tableName data (positions.map data.fieldPtr) = .ok row →
        (∀ col, col ∈ row.columns ↔ col ∈ cols ∧ col ≠ "_uuid")
        ∧ (∀ col w, (col, w) ∈ row →
            ∃ f ∈ data.fields, f.tag = some col
              ∧ ∃ column, table.Column col = some column
                  ∧ ovsdb.toWire column f.value = .ok w))
      ∧ ((∀ f ∈ data.fields, ∀ col, f.tag = some col → col ≠ "_uuid" → col ∈ cols →
            ∃ column w, table.Column col = some column
              ∧ ovsdb.toWire column f.value = .ok w) →
          ∃ row, newORM.newRow schema tableName data (positions.map data.fieldPtr) = .ok row)
      ∧ (∀ column : ovsdb.ColumnSchema,
          (column.isSet = true → ovsdb.toWire column (Any.slice []) = .ok (Any.set []))
          ∧ (column.shape = some .map → ovsdb.toWire column (Any.gomap []) = .ok (Any.map []))
          ∧ (column.shape = some .scalar → column.Enum = none →
              (column.Key = .string → ovsdb.toWire column (Any.str "") = .ok (Any.str ""))
              ∧ (column.Key = .integer → ovsdb.toWire column (Any.int 0) = .ok (Any.int 0))
              ∧ (column.Key = .real → ovsdb.toWire column (Any.real 0) = .ok (Any.real 0))
              ∧ (column.Key = .boolean →
                  ovsdb.toWire column (Any.bool false) = .ok (Any.bool false)))) := by
  rw [newRow_explicit schema tableName table data positions cols htable hwf hne hptr]
  refine ⟨fun row h => ⟨fun col => ?_, fun col w hmem => ?_⟩, fun hall => ?_, fun column => ?_⟩
  · rw [rowEntries_columns table _ data.fields row h col]
    constructor
    · rintro ⟨hne', f, _, _, hemit⟩
      exact ⟨by simpa using hemit, hne'⟩
    · rintro ⟨hcol, hne'⟩
      obtain ⟨f, hf, htag⟩ := designated_have_fields data positions cols hptr col hcol
      exact ⟨hne', f, hf, htag, by simpa using hcol⟩
  · obtain ⟨f, hf, htag, _, hrest⟩ := rowEntries_entries table _ data.fields row h col w hmem
    exact ⟨f, hf, htag, hrest⟩
  · apply rowEntries_total
    intro f hf col htag hne' hemit
    exact hall f hf col htag hne' (by simpa using hemit)
  · refine ⟨fun hs => ?_, fun hm => ?_, fun hs he => ⟨fun hk => ?_, fun hk => ?_, fun hk => ?_,
      fun hk => ?_⟩⟩
    · simp only [ovsdb.ColumnSchema.isSet, Bool.or_eq_true, beq_iff_eq] at hs
      rcases hs with hs | hs <;> simp [ovsdb.toWire, hs, ovsdb.encodeList]
    · have hv : ∃ vt, column.Value = some vt := by
        unfold ovsdb.ColumnSchema.shape at hm
        cases hval : column.Value with
        | some vt => exact ⟨vt, rfl⟩
        | none =>
          simp only [hval, Option.isSome_none, Bool.false_eq_true, if_false] at hm
          split at hm <;> (try split at hm) <;> (try split at hm) <;> (try split at hm) <;>
            simp at hm
      obtain ⟨vt, hvt⟩ := hv
      simp [ovsdb.toWire, hm, hvt, ovsdb.encodeList]
    all_goals
      simp [ovsdb.toWire, hs, Any.toAtom?, ovsdb.elemToWire, ovsdb.checkEnum, he,
        ovsdb.atomToWire, hk, Atom.toAny]

/-- Witness for C22: the case of `TestORMNewRowFields` that designates the empty set
`MySet`. -/
theorem newRow_explicit_emission_witness :
    newORM.newRow ormTestSchema "TestTable" (newRowObj 1 [] [] "" 0)
        ([1].map (newRowObj 1 [] [] "" 0).fieldPtr) = .ok [("aSet", Any.set [])]
      ∧ ∀ col, col ∈ Row.columns [("aSet", Any.set [])] ↔ col ∈ ["aSet"] ∧ col ≠ "_uuid" :=
  ⟨rfl, ((newRow_explicit_emission ormTestSchema "TestTable" ormTestTable
    (newRowObj 1 [] [] "" 0) [1] ["aSet"] rfl rfl (by simp)
    (List.Forall₂.cons ⟨_, rfl, rfl⟩ List.Forall₂.nil)).1 _ rfl).1⟩

/-- C23, as stated, fails.  The row built from a model with all its fields explicit has
no `_uuid` column, so reading it back leaves the `_uuid` field of the destination as it
was: with the identifier `aUUID0` in the model and the empty identifier in the
destination, the two differ on the tagged field `_uuid` after the round trip. -/
theorem newRow_getRowData_counterexample :
    ¬ (∀ (schema : ovsdb.DatabaseSchema) (tableName : String) (table : ovsdb.TableSchema)
        (m m' : Model) (row : Row) (col : String),
        schema.Table tableName = some table → m.wellFormed table = true →
        m'.fields.map (fun f => f.tag) = m.fields.map (fun f => f.tag) →
        newORM.newRow schema tableName m m.taggedPtrs = .ok row →
        (∃ f ∈ m.fields, f.tag = some col) →
        (newORM.getRowData schema tableName row m').2 = none
          ∧ (newORM.getRowData schema tableName row m').1.column col = m.column col) := by
  intro h
  have hx := h testSchema "TestTable" testTable (testType 1 aUUID0 "foo" [] "a" "b" 1 2)
    (testType 2 "" "" [] "" "" 0 0)
    [("name", Any.str "foo"), ("config", Any.map []), ("composed_1", Any.str "a"),
     ("composed_2", Any.str "b"), ("int1", Any.int 1), ("int2", Any.int 2)]
    "_uuid" rfl rfl rfl rfl ⟨_, List.mem_cons_self _ _, rfl⟩
  revert hx
  decide

/-- C23, amended.  For every table of the schema, every well-formed model `m` whose
tagged fields other than `_uuid` hold native values that have a wire form, and every
destination `m'` of the same record type (the same tags, fields of the Go types of
those of `m`), building a row from `m` with all its tagged fields explicit succeeds,
reading the row into `m'` succeeds, and afterwards `m'` holds the value of `m` in
every tagged column other than `_uuid`, with the elements of a set in the same order;
the `_uuid` field of `m'` is as it was before. -/
theorem newRow_getRowData_roundtrip (schema : ovsdb.DatabaseSchema) (tableName : String)
    (table : ovsdb.TableSchema) (m m' : Model)
    (htable : schema.Table tableName = some table) (hwf : m.wellFormed table = true)
    (hsat : ∀ f ∈ m.fields, ∀ col, f.tag = some col → col ≠ "_uuid" →
      f.value.isNative = true ∧ ∃ column w, table.Column col = some column
        ∧ ovsdb.toWire column f.value = .ok w)
    (htags : m'.fields.map (fun f => f.tag) = m.fields.map (fun f => f.tag))
    (htype : ∀ f' ∈ m'.fields, ∀ col column v, f'.tag = some col →
      table.Column col = some column → m.column col = some v →
      ovsdb.sameFieldType column f'.value v = true) :
    ∃ row, newORM.newRow schema tableName m m.taggedPtrs = .ok row
      ∧ (newORM.getRowData schema tableName row m').2 = none
      ∧ (∀ col, col ≠ "_uuid" → (∃ f ∈ m.fields, f.tag = some col) →
          (newORM.getRowData schema tableName row m').1.column col = m.column col)
      ∧ (newORM.getRowData schema tableName row m').1.column "_uuid"
          = m'.column "_uuid" := by
  obtain ⟨row, hrow⟩ := rowEntries_total table (fun _ _ => true) m.fields
    (fun f hf col htag hne _ => (hsat f hf col htag hne).2)
  have hwf' := wellFormed_of_tags table m m' htags hwf
  have hno : row.get "_uuid" = none := by
    cases hg : row.get "_uuid" with
    | none => rfl
    | some w =>
      have := (rowEntries_columns table _ m.fields row hrow "_uuid").1
        (get_mem_columns row "_uuid" w hg)
      exact absurd rfl this.1
  -- what the row holds for a column of `m`
  have hrowcol : ∀ col w, row.get col = some w →
      col ≠ "_uuid" ∧ ∃ f ∈ m.fields, f.tag = some col ∧ m.column col = some f.value
        ∧ ∃ column, table.Column col = some column
          ∧ ovsdb.toWire column f.value = .ok w := by
    intro col w hg
    have hne : col ≠ "_uuid" := by
      intro h
      rw [h, hno] at hg
      cases hg
    refine ⟨hne, ?_⟩
    have key := rowEntries_get table m.fields row hrow col hne
    cases hf : m.fields.find? (fun f => f.tag == some col) with
    | none =>
      rw [hf] at key
      simp only [Option.map_none'] at key
      rw [key] at hg
      cases hg
    | some f =>
      rw [hf] at key
      simp only [Option.map_some'] at key
      obtain ⟨column, w0, hc, hw, hg0⟩ := key
      rw [hg0] at hg
      cases hg
      have hp := List.find?_some hf
      simp only [beq_iff_eq] at hp
      exact ⟨f, List.mem_of_find?_eq_some hf, hp, by simp [Model.column, hf], column, hc, hw⟩
  -- every entry of the row decodes into the matching field of `m'`
  have hdec : ∀ f' ∈ m'.fields, ∀ col w, f'.tag = some col → row.get col = some w →
      ∃ column v, table.Column col = some column
        ∧ ovsdb.fromWire column w f'.value = .ok v ∧ m.column col = some v := by
    intro f' hf' col w htag hg
    obtain ⟨hne, f, hf, hft, hmc, column, hc, hw⟩ := hrowcol col w hg
    refine ⟨column, f.value, hc, ?_, hmc⟩
    exact ovsdb.fromWire_toWire column f.value w f'.value hw (hsat f hf col hft hne).1
      (htype f' hf' col column f.value htag hc hmc)
  have herr : (newORM.readFields table row [] m'.fields).2 = none :=
    readFields_total table row m'.fields [] (fun f' hf' col w htag hg => by
      obtain ⟨column, v, hc, hd, _⟩ := hdec f' hf' col w htag hg
      exact ⟨column, v, hc, hd⟩)
  obtain ⟨fs'', hfs, hrel⟩ := readFields_spec table row m'.fields []
  rw [List.nil_append] at hfs
  have hget : newORM.getRowData schema tableName row m'
      = ({ m' with fields := fs'' }, none) := by
    unfold newORM.getRowData
    rw [htable]
    simp only [hwf', not_true_eq_false, if_false]
    rw [← hfs, ← herr]
  refine ⟨row, ?_, ?_, ?_, ?_⟩
  · rw [newRow_all schema tableName table m htable hwf]
    exact hrow
  · rw [hget]
  · intro col hne hex
    rw [hget]
    obtain ⟨f, hf, hft, hfind⟩ := column_of_tagged m col hex
    have hmc : m.column col = some f.value := by simp [Model.column, hfind]
    obtain ⟨column, w, hc, hw⟩ := (hsat f hf col hft hne).2
    have hkey := rowEntries_get table m.fields row hrow col hne
    rw [hfind] at hkey
    simp only [Option.map_some'] at hkey
    obtain ⟨column0, w0, _, _, hg⟩ := hkey
    have hrel' : List.Forall₂ (fun g g' => g'.tag = g.tag ∧
        (∀ col w, g.tag = some col → row.get col = some w →
          ∃ column, table.Column col = some column
            ∧ ovsdb.fromWire column w g.value = .ok g'.value)) m'.fields fs'' :=
      hrel.imp (fun _ _ h => ⟨h.1, h.2.2.2.2 herr⟩)
    rcases find_forall₂ _ col m'.fields fs'' hrel' with ⟨hn, _⟩ | ⟨g, g', hg1, hg2, hgt, hR⟩
    · exfalso
      have hmem : some col ∈ m'.fields.map (fun f => f.tag) := by
        rw [htags]
        exact List.mem_map.2 ⟨f, hf, hft⟩
      obtain ⟨g, hgm, hgt⟩ := List.mem_map.1 hmem
      have := List.find?_eq_none.1 hn g hgm
      simp [hgt] at this
    · obtain ⟨column1, hc1, hd1⟩ := hR col w0 hgt hg
      obtain ⟨column2, v, hc2, hd2, hmv⟩ :=
        hdec g (List.mem_of_find?_eq_some hg1) col w0 hgt hg
      rw [hc1] at hc2
      cases hc2
      rw [hd1] at hd2
      cases hd2
      show (List.find? (fun f => f.tag == some col) fs'').map (fun f => f.value) = _
      rw [hg2, hmv]
      rfl
  · rw [hget]
    have hrel' : List.Forall₂ (fun g g' => g'.tag = g.tag ∧
        (g.tag = some "_uuid" → g'.value = g.value)) m'.fields fs'' :=
      hrel.imp (fun _ _ h => ⟨h.1, fun ht => h.2.2.1 "_uuid" ht hno⟩)
    rcases find_forall₂ _ "_uuid" m'.fields fs'' hrel' with ⟨h1, h2⟩ | ⟨g, g', hg1, hg2, hgt, hR⟩
    · show (List.find? (fun f => f.tag == some "_uuid") fs'').map (fun f => f.value)
        = (List.find? (fun f => f.tag == some "_uuid") m'.fields).map (fun f => f.value)
      rw [h1, h2]
    · show (List.find? (fun f => f.tag == some "_uuid") fs'').map (fun f => f.value)
        = (List.find? (fun f => f.tag == some "_uuid") m'.fields).map (fun f => f.value)
      rw [hg1, hg2]
      simp only [Option.map_some', hR hgt]

/-- Witness for C23: a record of the tests with every column set, read back into a
record that holds zero values. -/
theorem newRow_getRowData_roundtrip_witness :
    ∃ row, newORM.newRow testSchema "TestTable"
          (testType 1 aUUID0 "foo" [(Atom.str "k", Atom.str "v")] "a" "b" 1 2)
          (testType 1 aUUID0 "foo" [(Atom.str "k", Atom.str "v")] "a" "b" 1 2).taggedPtrs
        = .ok row
      ∧ (newORM.getRowData testSchema "TestTable" row (testType 2 "" "" [] "" "" 0 0)).2
          = none
      ∧ (∀ col, col ≠ "_uuid" →
          (∃ f ∈ (testType 1 aUUID0 "foo" [(Atom.str "k", Atom.str "v")] "a" "b" 1 2).fields,
            f.tag = some col) →
          (newORM.getRowData testSchema "TestTable" row
              (testType 2 "" "" [] "" "" 0 0)).1.column col
            = (testType 1 aUUID0 "foo" [(Atom.str "k", Atom.str "v")] "a" "b" 1 2).column col)
      ∧ (newORM.getRowData testSchema "TestTable" row
            (testType 2 "" "" [] "" "" 0 0)).1.column "_uuid"
          = (testType 2 "" "" [] "" "" 0 0).column "_uuid" :=
  newRow_getRowData_roundtrip testSchema "TestTable" testTable
    (testType 1 aUUID0 "foo" [(Atom.str "k", Atom.str "v")] "a" "b" 1 2)
    (testType 2 "" "" [] "" "" 0 0) rfl rfl
    (by
      intro f hf col htag hne
      simp only [testType, List.mem_cons, List.mem_singleton, List.not_mem_nil,
        or_false] at hf
      rcases hf with rfl | rfl | rfl | rfl | rfl | rfl | rfl <;> cases htag
      · exact absurd rfl hne
      all_goals exact ⟨rfl, _, _, rfl, rfl⟩)
    rfl
    (by
      intro f hf col column v htag hcol hv
      simp only [testType, List.mem_cons, List.mem_singleton, List.not_mem_nil,
        or_false] at hf
      rcases hf with rfl | rfl | rfl | rfl | rfl | rfl | rfl <;> cases htag <;>
        cases hcol <;> cases hv <;> rfl)

/-- C29: for every wire row and model, `getRowData` returns the same record with the
same fields and tags, where a field without tag, and a tagged field whose column has no
entry in the row, keeps the value it had; a tagged field whose column has an entry
either keeps its value or holds the native form of that entry, the entry of its own
column, and holds it whenever the call returns no error.  For a set column the native
form of a bare scalar whose native form is `v` is the list of the one element `v`. -/
theorem getRowData_frame (schema : ovsdb.DatabaseSchema) (tableName : String) (row : Row)
    (result : Model) :
    (newORM.getRowData schema tableName row result).1.addr = result.addr
      ∧ List.Forall₂
          (fun f f' =>
            f'.tag = f.tag
              ∧ (f.tag = none → f'.value = f.value)
              ∧ (∀ col, f.tag = some col → row.get col = none → f'.value = f.value)
              ∧ (∀ col w, f.tag = some col → row.get col = some w →
                  f'.value = f.value
                    ∨ ∃ table column, schema.Table tableName = some table
                        ∧ table.Column col = some column
                        ∧ ovsdb.fromWire column w f.value = .ok f'.value)
              ∧ ((newORM.getRowData schema tableName row result).2 = none →
                  ∀ col w, f.tag = some col → row.get col = some w →
                    ∃ table column, schema.Table tableName = some table
                      ∧ table.Column col = some column
                      ∧ ovsdb.fromWire column w f.value = .ok f'.value))
          result.fields (newORM.getRowData schema tableName row result).1.fields
      ∧ (∀ (column : ovsdb.ColumnSchema) (a v : Atom) (dest : List Atom),
          column.isSet = true → ovsdb.atomFromWire column.Key a = .ok v →
          ovsdb.fromWire column a.toAny (Any.slice dest) = .ok (Any.slice [v])) := by
  refine ⟨?_, ?_, ?_⟩
  · unfold newORM.getRowData
    split
    · rfl
    · split <;> rfl
  · unfold newORM.getRowData
    cases htable : schema.Table tableName with
    | none =>
      exact List.forall₂_same.2 (fun f _ =>
        ⟨rfl, fun _ => rfl, fun _ _ _ => rfl, fun _ _ _ _ => Or.inl rfl, fun h => by cases h⟩)
    | some table =>
      by_cases hwf : result.wellFormed table = true
      · simp only [hwf, not_true_eq_false, if_false]
        obtain ⟨fs', h1, h2⟩ := readFields_spec table row result.fields []
        simp only [List.nil_append] at h1
        rw [h1]
        exact h2.imp (fun {f f'} ⟨t1, t2, t3, t4, t5⟩ =>
          ⟨t1, t2, t3,
            fun col w hc hw => (t4 col w hc hw).imp id
              (fun ⟨column, hcol, hdec⟩ => ⟨table, column, rfl, hcol, hdec⟩),
            fun herr col w hc hw =>
              let ⟨column, hcol, hdec⟩ := t5 herr col w hc hw
              ⟨table, column, rfl, hcol, hdec⟩⟩)
      · simp only [hwf, not_false_eq_true, if_true]
        exact List.forall₂_same.2 (fun f _ =>
          ⟨rfl, fun _ => rfl, fun _ _ _ => rfl, fun _ _ _ _ => Or.inl rfl,
            fun h => by cases h⟩)
  · intro column a v dest hset hdec
    simp only [ovsdb.ColumnSchema.isSet, Bool.or_eq_true, beq_iff_eq] at hset
    rcases hset with hs | hs <;>
      simp [ovsdb.fromWire, hs, wireElems_atom, ovsdb.encodeList, hdec, ovsdb.fitsField]

/-- Witness for C29: the bare string of the column `aSingleSet` in `getOvsTestRow`. -/
theorem getRowData_frame_witness :
    ovsdb.fromWire (setColumn .string 0 (some 1)) (Atom.str "foo").toAny (Any.slice [])
      = .ok (Any.slice [Atom.str "foo"]) :=
  (getRowData_frame ormTestSchema "TestTable" getOvsTestRow
    (ormTestType "" [] [] [] "" [] 0 [] [] "" [] "something")).2.2
    (setColumn .string 0 (some 1)) (Atom.str "foo") (Atom.str "foo") [] rfl rfl

/-! ## Mutations -/

/-- C24: for every column that the schema marks immutable, every mutator (the seven
mutators among them) and every value, `newMutation` fails and returns no mutation; for
a well-formed model the error is `immutable column`. -/
theorem newMutation_immutable (schema : ovsdb.DatabaseSchema) (tableName : String)
    (table : ovsdb.TableSchema) (data : Model) (column mutator : String) (value : Any)
    (columnSchema : ovsdb.ColumnSchema)
    (htable : schema.Table tableName = some table)
    (hcol : table.Column column = some columnSchema)
    (himm : columnSchema.Mutable = false) :
    (∃ e, newORM.newMutation schema tableName data column mutator value = .error e)
      ∧ (data.wellFormed table = true →
          newORM.newMutation schema tableName data column mutator value
            = .error ovsdb.ErrImmutableColumn) := by
  by_cases hwf : data.wellFormed table = true
  · have h : newORM.newMutation schema tableName data column mutator value
        = .error ovsdb.ErrImmutableColumn := by
      simp [newORM.newMutation, htable, hwf, hcol, himm]
    exact ⟨⟨_, h⟩, fun _ => h⟩
  · exact ⟨⟨ovsdb.ErrUnknownColumn, by simp [newORM.newMutation, htable, hwf]⟩,
      fun h => absurd h hwf⟩

/-- Witness for C24: the case of `TestORMMutation` on the column `unmutable`. -/
theorem newMutation_immutable_witness :
    newORM.newMutation mutationTestSchema "TestTable" mutationTestObj "unmutable" "-="
        (Any.int 2) = .error ovsdb.ErrImmutableColumn :=
  (newMutation_immutable mutationTestSchema "TestTable" mutationTestTable mutationTestObj
    "unmutable" "-=" (Any.int 2) _ rfl rfl rfl).2 rfl

/-- C25: for every column that is not an atomic integer or real column and every
arithmetic mutator, `newMutation` fails and returns no mutation; for a well-formed
model and a mutable column the error is `illegal mutator for type`. -/
theorem newMutation_arithmetic_illegal (schema : ovsdb.DatabaseSchema) (tableName : String)
    (table : ovsdb.TableSchema) (data : Model) (column mutator : String) (value : Any)
    (columnSchema : ovsdb.ColumnSchema)
    (htable : schema.Table tableName = some table)
    (hcol : table.Column column = some columnSchema)
    (hnum : columnSchema.isNumeric = false)
    (harith : mutator ∈ ovsdb.arithmeticMutators) :
    (∃ e, newORM.newMutation schema tableName data column mutator value = .error e)
      ∧ (data.wellFormed table = true → columnSchema.Mutable = true →
          newORM.newMutation schema tableName data column mutator value
            = .error ovsdb.ErrIllegalMutator) := by
  have hlegal : ovsdb.legalMutator columnSchema mutator = false := by
    simp [ovsdb.legalMutator, harith, hnum]
  by_cases hwf : data.wellFormed table = true
  · by_cases hmut : columnSchema.Mutable = true
    · have h : newORM.newMutation schema tableName data column mutator value
          = .error ovsdb.ErrIllegalMutator := by
        simp [newORM.newMutation, htable, hwf, hcol, hmut, hlegal]
      exact ⟨⟨_, h⟩, fun _ _ => h⟩
    · have hm : columnSchema.Mutable = false := by simpa using hmut
      exact ⟨⟨ovsdb.ErrImmutableColumn, by simp [newORM.newMutation, htable, hwf, hcol, hm]⟩,
        fun _ h => absurd h hmut⟩
  · exact ⟨⟨ovsdb.ErrUnknownColumn, by simp [newORM.newMutation, htable, hwf]⟩,
      fun h => absurd h hwf⟩

/-- Witness for C25: the case of `TestORMMutation` that adds to the column `string`. -/
theorem newMutation_arithmetic_illegal_witness :
    newORM.newMutation mutationTestSchema "TestTable" mutationTestObj "string" "+="
        (Any.str "foo") = .error ovsdb.ErrIllegalMutator :=
  (newMutation_arithmetic_illegal mutationTestSchema "TestTable" mutationTestTable
    mutationTestObj "string" "+=" (Any.str "foo") _ rfl rfl rfl (by decide)).2 rfl rfl

/-- C26: for every mutable column of a well-formed model and every mutator legal for
its type, `newMutation` returns exactly the triple of the column, the mutator and the
wire form of the value, whenever the value has one.  An integer operand of a mutator of
an integer column is passed unchanged; a list given for a set column is encoded as an
OVSDB set; a map inserted into a map column is encoded as an OVSDB map; a list of keys
deleted from a map column is encoded as the OVSDB set of those keys. -/
theorem newMutation_triple (schema : ovsdb.DatabaseSchema) (tableName : String)
    (table : ovsdb.TableSchema) (data : Model) (column mutator : String)
    (columnSchema : ovsdb.ColumnSchema)
    (htable : schema.Table tableName = some table) (hwf : data.wellFormed table = true)
    (hcol : table.Column column = some columnSchema)
    (hmut : columnSchema.Mutable = true)
    (hlegal : ovsdb.legalMutator columnSchema mutator = true) :
    (∀ value w, ovsdb.mutationValue columnSchema mutator value = .ok w →
        newORM.newMutation schema tableName data column mutator value
          = .ok [Any.str column, Any.str mutator, w])
      ∧ (∀ n : Int, columnSchema.isNumeric = true → columnSchema.Key = .integer →
          columnSchema.Enum = none →
          ovsdb.mutationValue columnSchema mutator (Any.int n) = .ok (Any.int n))
      ∧ (∀ elems ws, columnSchema.isSet = true →
          ovsdb.encodeList (ovsdb.elemToWire columnSchema) elems = .ok ws →
          ovsdb.mutationValue columnSchema mutator (Any.slice elems) = .ok (Any.set ws))
      ∧ (∀ entries w, columnSchema.shape = some .map → mutator = "insert" →
          ovsdb.toWire columnSchema (Any.gomap entries) = .ok w →
          (∃ ws, w = Any.map ws)
            ∧ ovsdb.mutationValue columnSchema mutator (Any.gomap entries) = .ok w)
      ∧ (∀ keys ws, columnSchema.shape = some .map → mutator = "delete" →
          ovsdb.encodeList (ovsdb.elemToWire columnSchema) keys = .ok ws →
          ovsdb.mutationValue columnSchema mutator (Any.slice keys) = .ok (Any.set ws)) := by
  refine ⟨fun value w hw => ?_, fun n hnum hkey henum => ?_, fun elems ws hset henc => ?_,
    fun entries w hm hins hw => ?_, fun keys ws hm hdel henc => ?_⟩
  · have hl : ¬ ovsdb.legalMutator columnSchema mutator = false := by simp [hlegal]
    simp [newORM.newMutation, htable, hwf, hcol, hmut, hlegal, hw, ovsdb.NewMutation]
  · have hs : columnSchema.shape = some .scalar := by
      simp only [ovsdb.ColumnSchema.isNumeric, Bool.and_eq_true, beq_iff_eq] at hnum
      exact hnum.1
    simp [ovsdb.mutationValue, hs, ovsdb.toWire, Any.toAtom?, ovsdb.elemToWire,
      ovsdb.checkEnum, henum, ovsdb.atomToWire, hkey, Atom.toAny]
  · simp only [ovsdb.ColumnSchema.isSet, Bool.or_eq_true, beq_iff_eq] at hset
    rcases hset with hs | hs <;>
      simp [ovsdb.mutationValue, hs, ovsdb.toWire, henc]
  · obtain ⟨vt, hvt⟩ := shape_map_value columnSchema hm
    refine ⟨?_, ?_⟩
    · simp only [ovsdb.toWire, hm, hvt] at hw
      split at hw
      · cases hw
      · cases hw
        exact ⟨_, rfl⟩
    · subst hins
      simp only [ovsdb.mutationValue, hm]
      exact hw
  · subst hdel
    simp [ovsdb.mutationValue, hm, henc]

/-- Witness for C26: the case of `TestORMMutation` that inserts into the column `set`. -/
theorem newMutation_triple_witness :
    newORM.newMutation mutationTestSchema "TestTable" mutationTestObj "set" "insert"
        (Any.slice [Atom.str "foo"])
      = .ok [Any.str "set", Any.str "insert", Any.set [Atom.str "foo"]] :=
  (newMutation_triple mutationTestSchema "TestTable" mutationTestTable mutationTestObj
    "set" "insert" _ rfl rfl rfl rfl rfl).1 _ _ rfl

/-! ## Equality of models -/

/-- With both models well formed, `equalIndexes` returns no error and is true exactly
when the two models agree on every column of some index all of whose columns are set
in the first model, or on every column of a non-empty list of extra columns. -/
theorem equalIndexes_true_iff (table : ovsdb.TableSchema) (a b : Model)
    (extra : List String)
    (hwa : a.wellFormed table = true) (hwb : b.wellFormed table = true) :
    (newORM.equalIndexes table a b extra).2 = none
      ∧ ((newORM.equalIndexes table a b extra).1 = true
          ↔ (∃ idx ∈ table.allIndexes,
                (∀ col ∈ idx, a.isSet col = true) ∧ ∀ col ∈ idx, a.sameColumn b col = true)
              ∨ (extra ≠ [] ∧ ∀ col ∈ extra, a.sameColumn b col = true)) := by
  have hval : newORM.equalIndexes table a b extra
      = (((table.allIndexes.filter (fun idx => idx.all (fun col => a.isSet col)))
          ++ (match extra with
              | [] => []
              | _ :: _ => [extra])).any
            (fun idx => idx.all (fun col => a.sameColumn b col)), none) := by
    simp [newORM.equalIndexes, hwa, hwb]
  refine ⟨by rw [hval], ?_⟩
  rw [hval]
  simp only [List.any_append, Bool.or_eq_true, List.any_eq_true, List.mem_filter,
    List.all_eq_true]
  constructor
  · rintro (⟨idx, ⟨hmem, hset⟩, hsame⟩ | ⟨idx, hmem, hsame⟩)
    · exact Or.inl ⟨idx, hmem, hset, hsame⟩
    · cases extra with
      | nil => cases hmem
      | cons c rest =>
        simp only [List.mem_singleton] at hmem
        subst hmem
        exact Or.inr ⟨by simp, hsame⟩
  · rintro (⟨idx, hmem, hset, hsame⟩ | ⟨hne, hsame⟩)
    · exact Or.inl ⟨idx, ⟨hmem, hset⟩, hsame⟩
    · cases extra with
      | nil => exact absurd rfl hne
      | cons c rest => exact Or.inr ⟨c :: rest, by simp, hsame⟩

/-- C27: for every two well-formed models `a` and `b` of a table and every list of
extra columns, `equalIndexes` returns no error and is true exactly when some candidate
has equal values in `a` and `b` on all of its columns, where the candidates are the
indexes of the table, `_uuid` first, all of whose columns are set in `a`, and the extra
columns as one tuple when there are any.  When no index is fully set in `a` and there
are no extra columns the result is false: columns unset in both models do not make them
equal. -/
theorem equalIndexes_candidates (table : ovsdb.TableSchema) (a b : Model)
    (extra : List String)
    (hwa : a.wellFormed table = true) (hwb : b.wellFormed table = true) :
    (newORM.equalIndexes table a b extra).2 = none
      ∧ ((newORM.equalIndexes table a b extra).1 = true
          ↔ (∃ idx ∈ table.allIndexes,
                (∀ col ∈ idx, a.isSet col = true) ∧ ∀ col ∈ idx, a.sameColumn b col = true)
              ∨ (extra ≠ [] ∧ ∀ col ∈ extra, a.sameColumn b col = true))
      ∧ ((∀ idx ∈ table.allIndexes, ∃ col ∈ idx, a.isSet col = false) → extra = [] →
          (newORM.equalIndexes table a b extra).1 = false) := by
  obtain ⟨herr, hiff⟩ := equalIndexes_true_iff table a b extra hwa hwb
  refine ⟨herr, hiff, fun hunset hextra => ?_⟩
  rw [Bool.eq_false_iff]
  intro htrue
  rcases hiff.1 htrue with ⟨idx, hmem, hset, _⟩ | ⟨hne, _⟩
  · obtain ⟨col, hcol, hz⟩ := hunset idx hmem
    rw [hset col hcol] at hz
    cases hz
  · exact hne hextra

/-- Witness for C27: the case `same simple_index` of `TestORMEqualIndexes`; the two
records agree on the index `name`, which is set. -/
theorem equalIndexes_candidates_witness :
    (newORM.equalIndexes testTable (testType 1 "" "foo" [] "" "" 0 0)
        (testType 2 "" "foo" [] "" "" 0 0) []).1 = true :=
  (equalIndexes_candidates testTable (testType 1 "" "foo" [] "" "" 0 0)
    (testType 2 "" "foo" [] "" "" 0 0) [] rfl rfl).2.1.2
    (Or.inl ⟨["name"], by decide, by decide, by decide⟩)

/-- C28, as stated, fails.  Called with pointers to fields of `a`, `equalFields` does not
compare the designated columns alone: the indexes stay candidates.  The two records of
the test table below have the same `_uuid` and differ in `int1`; with the pointer to
the field `Int1` of the first as the only field pointer the call returns true, although
the one designated column has different values. -/
theorem equalFields_pointers_counterexample :
    ¬ (∀ (schema : ovsdb.DatabaseSchema) (tableName : String) (table : ovsdb.TableSchema)
        (a b : Model) (positions : List Nat) (cols : List String),
        schema.Table tableName = some table →
        a.wellFormed table = true → b.wellFormed table = true →
        a.addr ≠ b.addr → positions ≠ [] →
        List.Forall₂ (fun i col =>
          ∃ f, a.fields[i]? = some f ∧ f.tag = some col) positions cols →
        ((newORM.equalFields schema tableName a b (positions.map a.fieldPtr)).1 = true
          ↔ ∀ col ∈ cols, a.sameColumn b col = true)) := by
  intro h
  have hx := h testSchema "TestTable" testTable (testType 1 aUUID0 "foo" [] "" "" 42 0)
    (testType 2 aUUID0 "foo" [] "" "" 43 0) [5] ["int1"] rfl rfl rfl (by decide) (by simp)
    (List.Forall₂.cons ⟨_, rfl, rfl⟩ List.Forall₂.nil)
  have ht : (newORM.equalFields testSchema "TestTable"
      (testType 1 aUUID0 "foo" [] "" "" 42 0) (testType 2 aUUID0 "foo" [] "" "" 43 0)
      ([5].map (testType 1 aUUID0 "foo" [] "" "" 42 0).fieldPtr)).1 = true := by decide
  have hc := hx.1 ht "int1" (List.mem_singleton.2 rfl)
  revert hc
  decide

/-- C28, amended.  For every two models `a` and `b` at different addresses and every
non-empty list of positions of tagged fields, `equalFields` called with the pointers to
these fields of `b` fails with `invalid field reference`, while the call with the
pointers to the same fields of `a` is the comparison `equalIndexes` with the designated
columns as the extra tuple: for well-formed models it returns no error and is true
exactly when `a` and `b` agree on all designated columns, or on all columns of an index
(`_uuid` or a declared index tuple) that is set in `a`. -/
theorem equalFields_pointers (schema : ovsdb.DatabaseSchema) (tableName : String)
    (table : ovsdb.TableSchema) (a b : Model) (positions : List Nat) (cols : List String)
    (htable : schema.Table tableName = some table)
    (hab : a.addr ≠ b.addr) (hne : positions ≠ [])
    (hptr : List.Forall₂ (fun i col =>
      ∃ f, a.fields[i]? = some f ∧ f.tag = some col) positions cols) :
    newORM.equalFields schema tableName a b (positions.map b.fieldPtr)
        = (false, some ovsdb.ErrInvalidFieldReference)
      ∧ newORM.equalFields schema tableName a b (positions.map a.fieldPtr)
          = newORM.equalIndexes table a b cols
      ∧ (a.wellFormed table = true → b.wellFormed table = true →
          (newORM.equalFields schema tableName a b (positions.map a.fieldPtr)).2 = none
            ∧ ((newORM.equalFields schema tableName a b (positions.map a.fieldPtr)).1 = true
                ↔ (∃ idx ∈ table.allIndexes,
                      (∀ col ∈ idx, a.isSet col = true)
                        ∧ ∀ col ∈ idx, a.sameColumn b col = true)
                    ∨ ∀ col ∈ cols, a.sameColumn b col = true)) := by
  have hcols : ovsdb.encodeList (fun p =>
      match a.columnByPtr p with
      | some col => (.ok col : Except GoError String)
      | none => .error ovsdb.ErrInvalidFieldReference) (positions.map a.fieldPtr)
        = .ok cols := by
    rw [ovsdb.encodeList_ok_iff, List.forall₂_map_left_iff]
    exact hptr.imp (fun {i col} ⟨f, hf, htag⟩ => by
      rw [columnByPtr_fieldPtr a i f hf, htag])
  have hsecond : newORM.equalFields schema tableName a b (positions.map a.fieldPtr)
      = newORM.equalIndexes table a b cols := by
    simp only [newORM.equalFields, htable, hcols]
  have hcne : cols ≠ [] := by
    intro hc
    subst hc
    cases hptr
    exact hne rfl
  refine ⟨?_, hsecond, fun hwa hwb => ?_⟩
  · cases hp : positions with
    | nil => exact absurd hp hne
    | cons i rest =>
      simp [newORM.equalFields, htable, ovsdb.encodeList, columnByPtr_other a b hab i]
  · rw [hsecond]
    obtain ⟨herr, hiff⟩ := equalIndexes_true_iff table a b cols hwa hwb
    refine ⟨herr, hiff.trans ?_⟩
    constructor
    · rintro (h | ⟨_, h⟩)
      · exact Or.inl h
      · exact Or.inr h
    · rintro (h | h)
      · exact Or.inl h
      · exact Or.inr ⟨hcne, h⟩

/-- Witness for C28: the last calls of `TestORMEqualIndexes`, with the pointers to the
fields `Int1` and `Int2`: those of the second record are rejected, those of the first
give the comparison on `int1` and `int2` next to the indexes. -/
theorem equalFields_pointers_witness :
    newORM.equalFields testSchema "TestTable"
        (testType 1 aUUID0 "name1" [] "foo" "bar1" 42 25)
        (testType 2 aUUID1 "name2" [] "foo" "bar2" 42 25)
        ([5, 6].map (testType 2 aUUID1 "name2" [] "foo" "bar2" 42 25).fieldPtr)
      = (false, some ovsdb.ErrInvalidFieldReference)
      ∧ newORM.equalFields testSchema "TestTable"
          (testType 1 aUUID0 "name1" [] "foo" "bar1" 42 25)
          (testType 2 aUUID1 "name2" [] "foo" "bar2" 42 25)
          ([5, 6].map (testType 1 aUUID0 "name1" [] "foo" "bar1" 42 25).fieldPtr)
        = newORM.equalIndexes testTable (testType 1 aUUID0 "name1" [] "foo" "bar1" 42 25)
            (testType 2 aUUID1 "name2" [] "foo" "bar2" 42 25) ["int1", "int2"] :=
  ⟨(equalFields_pointers testSchema "TestTable" testTable
      (testType 1 aUUID0 "name1" [] "foo" "bar1" 42 25)
      (testType 2 aUUID1 "name2" [] "foo" "bar2" 42 25)
      [5, 6] ["int1", "int2"] rfl (by decide) (by simp)
      (List.Forall₂.cons ⟨_, rfl, rfl⟩
        (List.Forall₂.cons ⟨_, rfl, rfl⟩ List.Forall₂.nil))).1,
    (equalFields_pointers testSchema "TestTable" testTable
      (testType 1 aUUID0 "name1" [] "foo" "bar1" 42 25)
      (testType 2 aUUID1 "name2" [] "foo" "bar2" 42 25)
      [5, 6] ["int1", "int2"] rfl (by decide) (by simp)
      (List.Forall₂.cons ⟨_, rfl, rfl⟩
        (List.Forall₂.cons ⟨_, rfl, rfl⟩ List.Forall₂.nil))).2.1⟩

end client

/-! ## The code generator -/

namespace modelgen

/-- C30: `AtomicType` maps `integer` to `int`, `real` to `float64`, `boolean` to `bool`,
`string` to `string` and `uuid` to `string`; for `notAType` and for every other string
it returns the empty string. -/
theorem AtomicType_names :
    AtomicType ovsdb.TypeInteger = "int"
      ∧ AtomicType ovsdb.TypeReal = "float64"
      ∧ AtomicType ovsdb.TypeBoolean = "bool"
      ∧ AtomicType ovsdb.TypeString = "string"
      ∧ AtomicType ovsdb.TypeUUID = "string"
      ∧ AtomicType "notAType" = ""
      ∧ ∀ atype : String,
          atype ∉ [ovsdb.TypeInteger, ovsdb.TypeReal, ovsdb.TypeBoolean, ovsdb.TypeString,
                   ovsdb.TypeUUID] →
          AtomicType atype = "" := by
  refine ⟨by decide, by decide, by decide, by decide, by decide, by decide, ?_⟩
  intro atype h
  simp only [List.mem_cons, List.mem_singleton, List.not_mem_nil, or_false, not_or] at h
  simp [AtomicType, h.1, h.2.1, h.2.2.1, h.2.2.2.1, h.2.2.2.2]

end modelgen

/-! ## The code generator: field types -/

namespace modelgen

/-- The two cases of `TestFieldType`. -/
theorem TestFieldType_cases :
    FieldType "t1" "c1" singleValueSetSchema = "*string"
      ∧ FieldType "t1" "c2" multipleValueSetSchema = "[]string" :=
  ⟨by decide, by decide⟩

/-- C31: for every column schema with a string key and no value type, `FieldType`
returns `*string` when the cardinality is min 0 and max 1, and `[]string` when max is a
number greater than 1 (and also when max is unlimited).  A type object with min 0 whose
max is omitted has max 1, so that its field type is `*string`. -/
theorem FieldType_string (tableName columnName : String) (column : ovsdb.ColumnSchema)
    (hkey : column.Key = .string) (hval : column.Value = none) :
    (column.Min = 0 → column.Max = some 1 →
        FieldType tableName columnName column = "*string")
      ∧ (∀ n, column.Max = some n → 1 < n →
          FieldType tableName columnName column = "[]string")
      ∧ (column.Max = none → FieldType tableName columnName column = "[]string")
      ∧ (ovsdb.ColumnSchema.ofType .string none (some 0) none).Max = some 1
      ∧ FieldType tableName columnName (ovsdb.ColumnSchema.ofType .string none (some 0) none)
          = "*string" := by
  refine ⟨fun hmin hmax => ?_, fun n hmax hn => ?_, fun hmax => ?_, rfl, rfl⟩
  · simp only [FieldType, hval, ovsdb.ColumnSchema.shape, hmax, hmin, hkey]
    decide
  · simp only [FieldType, hval, ovsdb.ColumnSchema.shape, hmax, hn, hkey, if_true,
      Option.isSome_none, Bool.false_eq_true, if_false]
    decide
  · simp only [FieldType, hval, ovsdb.ColumnSchema.shape, hmax, hkey]
    decide

/-- Witness for C31: the column schema `multipleValueSetSchema` of `TestFieldType`. -/
theorem FieldType_string_witness :
    FieldType "t1" "c2" multipleValueSetSchema = "[]string" :=
  (FieldType_string "t1" "c2" multipleValueSetSchema rfl rfl).2.1 2 rfl (by decide)

end modelgen

/-! ## The conditional API: failures and the two modes -/

namespace client

theorem explicit_loop_eq (c : explicitConditional) (cs : List Condition)
    (result : List (List ovsdb.Condition)) (conds : List ovsdb.Condition) :
    explicitConditional.loop c cs result conds
      = match ovsdb.encodeList (c.orm.newCondition c.tableName c.model) cs with
        | .error e => .error e
        | .ok os =>
          .ok (if c.singleOp then (result, conds ++ os)
               else (result ++ os.map (fun o => [o]), conds)) := by
  induction cs generalizing result conds with
  | nil => cases c.singleOp <;> simp [explicitConditional.loop, ovsdb.encodeList]
  | cons cond rest ih =>
    cases hc : c.orm.newCondition c.tableName c.model cond with
    | error e => simp [explicitConditional.loop, ovsdb.encodeList, hc]
    | ok o =>
      cases hs : c.singleOp
      · simp only [explicitConditional.loop, ovsdb.encodeList, hc, hs, Bool.false_eq_true,
          if_false]
        rw [ih]
        cases ovsdb.encodeList (c.orm.newCondition c.tableName c.model) rest <;> simp [hs]
      · simp only [explicitConditional.loop, ovsdb.encodeList, hc, hs, if_true]
        rw [ih]
        cases ovsdb.encodeList (c.orm.newCondition c.tableName c.model) rest <;> simp [hs]

theorem encodeList_first_error {α β : Type} (f : α → Except GoError β) (pre post : List α)
    (bad : α) (ys : List β) (e : GoError)
    (hpre : List.Forall₂ (fun x y => f x = .ok y) pre ys) (hbad : f bad = .error e) :
    ovsdb.encodeList f (pre ++ bad :: post) = .error e := by
  induction hpre with
  | nil => simp [ovsdb.encodeList, hbad]
  | cons hd _ ih => simp [ovsdb.encodeList, hd, ih]

theorem flatten_singletons {α : Type} (xs : List α) :
    (xs.map (fun x => [x])).flatten = xs := by
  induction xs with
  | nil => rfl
  | cons x rest ih => simp [ih]

/-- Generate of an `explicitConditional` in terms of the resolution of its conditions
one after the other. -/
theorem explicit_Generate_eq (c : explicitConditional) :
    c.Generate
      = match ovsdb.encodeList (c.orm.newCondition c.tableName c.model) c.conditions with
        | .error e => ([], some e)
        | .ok os => (if c.singleOp then [os] else os.map (fun o => [o]), none) := by
  unfold explicitConditional.Generate
  rw [explicit_loop_eq]
  cases ovsdb.encodeList (c.orm.newCondition c.tableName c.model) c.conditions with
  | error e => rfl
  | ok os => cases hs : c.singleOp <;> simp

/-- Generate of an `equalityConditional` in terms of the equality condition of its
model. -/
theorem equality_Generate_eq (c : equalityConditional) :
    c.Generate
      = match c.orm.newEqualityCondition c.tableName c.model [] with
        | .error e => ([], some e)
        | .ok conds => (if c.singleOp then [conds] else conds.map (fun o => [o]), none) := by
  unfold equalityConditional.Generate
  cases c.orm.newEqualityCondition c.tableName c.model [] with
  | error e => rfl
  | ok conds => cases hs : c.singleOp <;> simp [foldl_singletons]

/-- C32: for every `explicitConditional`, in both modes, when the conditions before
`bad` are all resolved by `newCondition` and `newCondition` fails on `bad` with the
error `e`, Generate returns the error `e` itself and the nil list: none of the
conditions resolved before the failure is returned. -/
theorem explicit_Generate_first_error (ErrNotFound : GoError) (o : orm) (table : String)
    (all : Bool) (model : Model) (pre post : List Condition) (bad : Condition)
    (os : List ovsdb.Condition) (e : GoError)
    (hpre : List.Forall₂ (fun cond oc => o.newCondition table model cond = .ok oc) pre os)
    (hbad : o.newCondition table model bad = .error e) :
    (newExplicitConditional o table all model (pre ++ bad :: post)).1.Generate ErrNotFound
      = ([], some e) := by
  simp only [newExplicitConditional, Conditional.Generate]
  rw [explicit_Generate_eq]
  simp only []
  rw [encodeList_first_error _ pre post bad os e hpre hbad]

/-- Witness for C32: the second of three conditions has a field that is not a column
name; the first one resolves. -/
theorem explicit_Generate_first_error_witness :
    (newExplicitConditional sampleOrm "Bridge" false (sampleModel "u1" "br0")
        ([⟨Any.str "name", "!=", Any.str "br1"⟩]
          ++ ⟨Any.int 3, "==", Any.nil⟩ :: [⟨Any.nil, "==", Any.nil⟩])).1.Generate
        ⟨"not found"⟩
      = ([], some ⟨"unknown field"⟩) :=
  explicit_Generate_first_error ⟨"not found"⟩ sampleOrm "Bridge" false
    (sampleModel "u1" "br0") [⟨Any.str "name", "!=", Any.str "br1"⟩]
    [⟨Any.nil, "==", Any.nil⟩] ⟨Any.int 3, "==", Any.nil⟩
    [⟨"name", "!=", Any.str "br1"⟩] ⟨"unknown field"⟩
    (List.Forall₂.cons rfl List.Forall₂.nil) rfl

/-- C33: an `explicitConditional` built with an empty list of conditions generates,
without error, one outer entry that is the empty list when `all = true` and no outer
entry when `all = false`; so does an `equalityConditional` whenever
`newEqualityCondition` returns the empty list. -/
theorem Generate_without_conditions (ErrNotFound : GoError) (o : orm) (table : String)
    (model : Model) (fields : List Any) :
    (newExplicitConditional o table true model []).1.Generate ErrNotFound = ([[]], none)
      ∧ (newExplicitConditional o table false model []).1.Generate ErrNotFound = ([], none)
      ∧ (o.newEqualityCondition table model [] = .ok [] →
          (newEqualityConditional o table true model fields).1.Generate ErrNotFound
              = ([[]], none)
            ∧ (newEqualityConditional o table false model fields).1.Generate ErrNotFound
              = ([], none)) := by
  refine ⟨rfl, rfl, fun h => ⟨?_, ?_⟩⟩ <;>
    simp [newEqualityConditional, Conditional.Generate, equalityConditional.Generate, h]

/-- Witness for C33: the `orm` whose equality condition is the empty list. -/
theorem Generate_without_conditions_witness :
    (newEqualityConditional emptyOrm "Bridge" true (sampleModel "u1" "br0") []).1.Generate
        ⟨"not found"⟩ = ([[]], none)
      ∧ (newEqualityConditional emptyOrm "Bridge" false (sampleModel "u1" "br0")
          []).1.Generate ⟨"not found"⟩ = ([], none) :=
  (Generate_without_conditions ⟨"not found"⟩ emptyOrm "Bridge" (sampleModel "u1" "br0")
    []).2.2 rfl

/-- C34: for every `equalityConditional` and every `explicitConditional`, Generate
succeeds with `all = false` exactly when it succeeds with `all = true` on the same
inputs, and then the output with `all = true` is the single list obtained by
concatenating, in order, the inner lists of the output with `all = false`. -/
theorem Generate_modes_agree (ErrNotFound : GoError) (o : orm) (table : String)
    (model : Model) (fields : List Any) (cs : List Condition) :
    (((newEqualityConditional o table false model fields).1.Generate ErrNotFound).2 = none
        ↔ ((newEqualityConditional o table true model fields).1.Generate ErrNotFound).2
            = none)
      ∧ (((newEqualityConditional o table false model fields).1.Generate ErrNotFound).2
            = none →
          (newEqualityConditional o table true model fields).1.Generate ErrNotFound
            = ([((newEqualityConditional o table false model fields).1.Generate
                  ErrNotFound).1.flatten], none))
      ∧ (((newExplicitConditional o table false model cs).1.Generate ErrNotFound).2 = none
          ↔ ((newExplicitConditional o table true model cs).1.Generate ErrNotFound).2
              = none)
      ∧ (((newExplicitConditional o table false model cs).1.Generate ErrNotFound).2 = none →
          (newExplicitConditional o table true model cs).1.Generate ErrNotFound
            = ([((newExplicitConditional o table false model cs).1.Generate
                  ErrNotFound).1.flatten], none)) := by
  simp only [newEqualityConditional, newExplicitConditional, Conditional.Generate,
    equality_Generate_eq, explicit_Generate_eq]
  refine ⟨?_, ?_, ?_, ?_⟩
  · cases o.newEqualityCondition table model [] <;> simp
  · cases o.newEqualityCondition table model [] <;> simp [flatten_singletons]
  · cases ovsdb.encodeList (o.newCondition table model) cs <;> simp
  · cases ovsdb.encodeList (o.newCondition table model) cs <;> simp [flatten_singletons]

/-- Witness for C34: the two conditions of the composed index, in both modes. -/
theorem Generate_modes_agree_witness :
    (newEqualityConditional composedOrm "TestTable" true (sampleModel "" "") []).1.Generate
        ⟨"not found"⟩
      = ([((newEqualityConditional composedOrm "TestTable" false (sampleModel "" "")
            []).1.Generate ⟨"not found"⟩).1.flatten], none) :=
  (Generate_modes_agree ⟨"not found"⟩ composedOrm "TestTable" (sampleModel "" "") []
    []).2.1 rfl

end client

/-! ## Operations, continued: `ovsSliceToGoNotation` and the timeout -/

namespace ovsdb

/-- C35, on the code: `ovsSliceToGoNotation` evaluates `sl[0]` without a test of the
length of `sl`.  For the empty list, whenever `json.Marshal` succeeds on it (as it does:
it writes `[]`), the call ends in the run-time panic of an index out of range and
returns neither a value nor an error.  The rest of the claim holds: a value that is not
a list is returned unchanged with no error, and so is a non-empty list that
`json.Marshal` accepts and whose first element is none of the four strings. -/
theorem ovsSliceToGoNotation_empty_list :
    (∀ (dec : Decoder) (bsliced : JSON), dec.marshal [] = .ok bsliced →
        ovsSliceToGoNotation dec (.arr []) = none)
      ∧ ovsSliceToGoNotation sampleDecoder (.arr []) = none
      ∧ (∀ (dec : Decoder) (val : JSON), (∀ sl, val ≠ .arr sl) →
          ovsSliceToGoNotation dec val = some (.json val, none))
      ∧ (∀ (dec : Decoder) (first : JSON) (rest : List JSON) (bsliced : JSON),
          dec.marshal (first :: rest) = .ok bsliced →
          (∀ s ∈ ["uuid", "named-uuid", "set", "map"], first ≠ .str s) →
          ovsSliceToGoNotation dec (.arr (first :: rest))
            = some (.json (.arr (first :: rest)), none)) := by
  refine ⟨fun dec bsliced h => ?_, rfl, fun dec val h => ?_, fun dec first rest bsliced h hne => ?_⟩
  · simp [ovsSliceToGoNotation, h]
  · cases val with
    | arr sl => exact absurd rfl (h sl)
    | _ => rfl
  · cases first with
    | str s =>
      have h1 : s ≠ "uuid" := fun hs => hne "uuid" (by simp) (by rw [hs])
      have h2 : s ≠ "named-uuid" := fun hs => hne "named-uuid" (by simp) (by rw [hs])
      have h3 : s ≠ "set" := fun hs => hne "set" (by simp) (by rw [hs])
      have h4 : s ≠ "map" := fun hs => hne "map" (by simp) (by rw [hs])
      simp [ovsSliceToGoNotation, h, h1, h2, h3, h4]
    | _ => simp [ovsSliceToGoNotation, h]

/-- The keys written for an operation other than `select`. -/
theorem default_marshal_keys (enc : Encoder) (o : Operation) (j : JSON)
    (hop : o.Op ≠ "select") (h : o.MarshalJSON enc = .ok j) :
    j.keys = ((OpAlias.fields enc o 1).filter
      (fun f => !(f.omitempty && f.empty))).map (fun f => f.name) := by
  rw [default_marshal enc o hop] at h
  simp only [marshalStruct, dominantFields_default] at h
  cases hf : encodeFields (OpAlias.fields enc o 1) with
  | error e => simp [hf] at h
  | ok members =>
    simp only [hf, Except.ok.injEq] at h
    subst h
    exact encodeFields_keys_eq _ _ hf

/-- The keys written for a `select`. -/
theorem select_marshal_keys (enc : Encoder) (o : Operation) (j : JSON)
    (hop : o.Op = "select") (h : o.MarshalJSON enc = .ok j) :
    j.keys = "where" :: (((OpAlias.fields enc o 1).filter (fun f => f.name != "where")).filter
      (fun f => !(f.omitempty && f.empty))).map (fun f => f.name) := by
  rw [select_marshal_fields enc o hop] at h
  split at h
  · cases h
  · rename_i members hf
    simp only [Except.ok.injEq] at h
    subst h
    have := encodeFields_keys_eq _ _ hf
    simpa [JSON.keys, List.filter] using this

/-- Among the fields of an operation that a selection `p` keeps, the field `timeout` is
written exactly when `Timeout` is not zero. -/
theorem timeout_written (enc : Encoder) (o : Operation) (p : StructField → Bool)
    (hp : ∀ f : StructField, f.name = "timeout" → p f = true) :
    "timeout" ∈ (((OpAlias.fields enc o 1).filter p).filter
        (fun f => !(f.omitempty && f.empty))).map (fun f => f.name)
      ↔ o.Timeout ≠ 0 := by
  constructor
  · intro hmem
    obtain ⟨f, hf, hname⟩ := List.mem_map.1 hmem
    have hf2 := List.mem_filter.1 hf
    have hf1 := (List.mem_filter.1 hf2.1).1
    have hkeep := hf2.2
    simp only [OpAlias.fields, List.mem_cons, List.mem_singleton, List.not_mem_nil,
      or_false] at hf1
    rcases hf1 with rfl | rfl | rfl | rfl | rfl | rfl | rfl | rfl | rfl | rfl <;>
      simp at hname hkeep
    exact hkeep
  · intro hne
    refine List.mem_map.2 ⟨StructField.mk "timeout" 1 true (o.Timeout == 0)
      (.ok (.num o.Timeout)), ?_, rfl⟩
    refine List.mem_filter.2 ⟨List.mem_filter.2 ⟨?_, hp _ rfl⟩, ?_⟩
    · simp [OpAlias.fields]
    · simpa using hne

/-- C36: for every operation that `MarshalJSON` encodes, whatever its `Op`, the object
written has the key `timeout` if and only if `Timeout` is not zero: with `Timeout = 0`
no such member is written. -/
theorem marshal_timeout (enc : Encoder) (o : Operation) (j : JSON)
    (h : o.MarshalJSON enc = .ok j) :
    "timeout" ∈ j.keys ↔ o.Timeout ≠ 0 := by
  by_cases hop : o.Op = "select"
  · rw [select_marshal_keys enc o j hop h, List.mem_cons]
    rw [timeout_written enc o (fun f => f.name != "where") (fun f hf => by simp [hf])]
    simp
  · rw [default_marshal_keys enc o j hop h]
    have := timeout_written enc o (fun _ => true) (fun _ _ => rfl)
    simpa using this

/-- Witness for C36: the sample `select` with `Timeout = 5` has the key, the sample
`insert` with `Timeout = 0` has not. -/
theorem marshal_timeout_witness :
    (∃ j, selectWhere.MarshalJSON sampleEncoder = .ok j ∧ "timeout" ∈ j.keys)
      ∧ (∃ j, insertRow.MarshalJSON sampleEncoder = .ok j ∧ "timeout" ∉ j.keys) :=
  ⟨⟨_, rfl, (marshal_timeout sampleEncoder selectWhere _ rfl).2 (by decide)⟩,
    ⟨_, rfl, fun hmem => (marshal_timeout sampleEncoder insertRow _ rfl).1 hmem rfl⟩⟩

end ovsdb

/-! ## The model of the `Database` table -/

namespace serverdb

theorem andAlso_some (x y : Bool) : andAlso (some x) (some y) = some (x && y) := by
  cases x <;> rfl

theorem equalDatabaseCid_eq (mem : Memory) (a b : Ptr) :
    equalDatabaseCid mem a b
      = some (decide (Ptr.value mem.strings a = Ptr.value mem.strings b)) := by
  cases a with
  | none => cases b <;> simp [equalDatabaseCid, Ptr.value]
  | some p =>
    cases b with
    | none => simp [equalDatabaseCid, Ptr.value]
    | some q =>
      by_cases hpq : p = q
      · simp [equalDatabaseCid, Ptr.value, hpq]
      · have hd : (mem.strings p == mem.strings q) = decide (mem.strings p = mem.strings q) := rfl
        simp [equalDatabaseCid, Ptr.value, hpq, hd]

theorem equalDatabaseIndex_eq (mem : Memory) (a b : Ptr) :
    equalDatabaseIndex mem a b
      = some (decide (Ptr.value mem.uints a = Ptr.value mem.uints b)) := by
  cases a with
  | none => cases b <;> simp [equalDatabaseIndex, Ptr.value]
  | some p =>
    cases b with
    | none => simp [equalDatabaseIndex, Ptr.value]
    | some q =>
      by_cases hpq : p = q
      · simp [equalDatabaseIndex, Ptr.value, hpq]
      · have hd : (mem.uints p == mem.uints q) = decide (mem.uints p = mem.uints q) := rfl
        simp [equalDatabaseIndex, Ptr.value, hpq, hd]

theorem equalDatabaseSchema_eq (mem : Memory) (a b : Ptr) :
    equalDatabaseSchema mem a b
      = some (decide (Ptr.value mem.strings a = Ptr.value mem.strings b)) :=
  equalDatabaseCid_eq mem a b

theorem equalDatabaseSid_eq (mem : Memory) (a b : Ptr) :
    equalDatabaseSid mem a b
      = some (decide (Ptr.value mem.strings a = Ptr.value mem.strings b)) :=
  equalDatabaseCid_eq mem a b

theorem same_iff_value {α : Type} (deref : Nat → α) (a b : Ptr) :
    Ptr.same deref a b ↔ Ptr.value deref a = Ptr.value deref b := by
  cases a <;> cases b <;> simp [Ptr.same, Ptr.value]

/-- The method `Equals` never panics: it compares the plain fields and the values the
pointers point to. -/
theorem Equals_eq (mem : Memory) (a b : Database) :
    a.Equals mem b
      = some (decide (a.UUID = b.UUID
          ∧ Ptr.value mem.strings a.Cid = Ptr.value mem.strings b.Cid
          ∧ a.Connected = b.Connected
          ∧ Ptr.value mem.uints a.Index = Ptr.value mem.uints b.Index
          ∧ a.Leader = b.Leader
          ∧ a.Model = b.Model
          ∧ a.Name = b.Name
          ∧ Ptr.value mem.strings a.Schema = Ptr.value mem.strings b.Schema
          ∧ Ptr.value mem.strings a.Sid = Ptr.value mem.strings b.Sid)) := by
  simp only [Database.Equals, equalDatabaseCid_eq, equalDatabaseIndex_eq,
    equalDatabaseSchema_eq, equalDatabaseSid_eq, List.foldl, andAlso_some, Option.some.injEq]
  rw [Bool.eq_iff_iff]
  simp only [Bool.and_eq_true, beq_iff_eq, decide_eq_true_eq]
  tauto

end serverdb

namespace serverdb

theorem preserved_refl (mem : Memory) : mem.preserved mem :=
  ⟨Nat.le_refl _, fun _ _ => ⟨rfl, rfl⟩⟩

theorem preserved_trans (m1 m2 m3 : Memory) (h12 : m1.preserved m2) (h23 : m2.preserved m3) :
    m1.preserved m3 := by
  refine ⟨Nat.le_trans h12.1 h23.1, fun p hp => ?_⟩
  have h2 := h23.2 p (Nat.lt_of_lt_of_le hp h12.1)
  have h1 := h12.2 p hp
  exact ⟨h2.1.trans h1.1, h2.2.trans h1.2⟩

theorem newString_preserved (mem : Memory) (s : String) : mem.preserved (mem.newString s) := by
  refine ⟨Nat.le_succ _, fun p hp => ⟨?_, rfl⟩⟩
  simp [Memory.newString, Nat.ne_of_lt hp]

theorem newUint_preserved (mem : Memory) (n : Nat) : mem.preserved (mem.newUint n) := by
  refine ⟨Nat.le_succ _, fun p hp => ⟨rfl, ?_⟩⟩
  simp [Memory.newUint, Nat.ne_of_lt hp]

theorem value_strings_preserved (mem mem' : Memory) (h : mem.preserved mem') (a : Ptr)
    (ha : Ptr.allocated mem a = true) :
    Ptr.value mem'.strings a = Ptr.value mem.strings a := by
  cases a with
  | none => rfl
  | some p =>
    simp only [Ptr.allocated, decide_eq_true_eq] at ha
    simp [Ptr.value, (h.2 p ha).1]

theorem value_uints_preserved (mem mem' : Memory) (h : mem.preserved mem') (a : Ptr)
    (ha : Ptr.allocated mem a = true) :
    Ptr.value mem'.uints a = Ptr.value mem.uints a := by
  cases a with
  | none => rfl
  | some p =>
    simp only [Ptr.allocated, decide_eq_true_eq] at ha
    simp [Ptr.value, (h.2 p ha).2]

/-- The copy of a pointer to a string: the memory is extended, the copy points to a
variable of the new memory, and that variable holds the value the original points to. -/
theorem copyDatabaseCid_spec (mem : Memory) (a : Ptr) :
    mem.preserved (copyDatabaseCid mem a).2
      ∧ Ptr.allocated (copyDatabaseCid mem a).2 (copyDatabaseCid mem a).1 = true
      ∧ Ptr.value (copyDatabaseCid mem a).2.strings (copyDatabaseCid mem a).1
          = Ptr.value mem.strings a := by
  cases a with
  | none => exact ⟨preserved_refl mem, rfl, rfl⟩
  | some p =>
    refine ⟨newString_preserved mem _, ?_, ?_⟩
    · simp [copyDatabaseCid, Ptr.allocated, Memory.newString]
    · simp [copyDatabaseCid, Ptr.value, Memory.newString]

theorem copyDatabaseIndex_spec (mem : Memory) (a : Ptr) :
    mem.preserved (copyDatabaseIndex mem a).2
      ∧ Ptr.allocated (copyDatabaseIndex mem a).2 (copyDatabaseIndex mem a).1 = true
      ∧ Ptr.value (copyDatabaseIndex mem a).2.uints (copyDatabaseIndex mem a).1
          = Ptr.value mem.uints a := by
  cases a with
  | none => exact ⟨preserved_refl mem, rfl, rfl⟩
  | some p =>
    refine ⟨newUint_preserved mem _, ?_, ?_⟩
    · simp [copyDatabaseIndex, Ptr.allocated, Memory.newUint]
    · simp [copyDatabaseIndex, Ptr.value, Memory.newUint]

/-- The method `DeepCopyInto` in terms of the four copies, made one after the other. -/
theorem DeepCopyInto_eq (mem : Memory) (a b : Database) :
    a.DeepCopyInto mem b
      = ({ a with
            Cid := (copyDatabaseCid mem a.Cid).1,
            Index := (copyDatabaseIndex (copyDatabaseCid mem a.Cid).2 a.Index).1,
            Schema := (copyDatabaseSchema
              (copyDatabaseIndex (copyDatabaseCid mem a.Cid).2 a.Index).2 a.Schema).1,
            Sid := (copyDatabaseSid (copyDatabaseSchema
              (copyDatabaseIndex (copyDatabaseCid mem a.Cid).2 a.Index).2 a.Schema).2
                a.Sid).1 },
          (copyDatabaseSid (copyDatabaseSchema
            (copyDatabaseIndex (copyDatabaseCid mem a.Cid).2 a.Index).2 a.Schema).2
              a.Sid).2) :=
  rfl

/-- What `DeepCopyInto` leaves behind, for a receiver whose pointers point into the
memory: the plain fields of the receiver, pointers to variables that hold the values
the pointers of the receiver point to, and a memory in which every variable that
existed before holds its value. -/
theorem DeepCopyInto_spec (mem : Memory) (a b : Database) (hal : a.allocated mem = true) :
    (a.DeepCopyInto mem b).1.UUID = a.UUID
      ∧ (a.DeepCopyInto mem b).1.Connected = a.Connected
      ∧ (a.DeepCopyInto mem b).1.Leader = a.Leader
      ∧ (a.DeepCopyInto mem b).1.Model = a.Model
      ∧ (a.DeepCopyInto mem b).1.Name = a.Name
      ∧ Ptr.value (a.DeepCopyInto mem b).2.strings (a.DeepCopyInto mem b).1.Cid
          = Ptr.value mem.strings a.Cid
      ∧ Ptr.value (a.DeepCopyInto mem b).2.uints (a.DeepCopyInto mem b).1.Index
          = Ptr.value mem.uints a.Index
      ∧ Ptr.value (a.DeepCopyInto mem b).2.strings (a.DeepCopyInto mem b).1.Schema
          = Ptr.value mem.strings a.Schema
      ∧ Ptr.value (a.DeepCopyInto mem b).2.strings (a.DeepCopyInto mem b).1.Sid
          = Ptr.value mem.strings a.Sid
      ∧ mem.preserved (a.DeepCopyInto mem b).2 := by
  rw [DeepCopyInto_eq]
  simp only [Database.allocated, Bool.and_eq_true] at hal
  obtain ⟨⟨⟨_, hindex⟩, hschema⟩, hsid⟩ := hal
  obtain ⟨p1, a1, v1⟩ := copyDatabaseCid_spec mem a.Cid
  obtain ⟨p2, a2, v2⟩ := copyDatabaseIndex_spec (copyDatabaseCid mem a.Cid).2 a.Index
  obtain ⟨p3, a3, v3⟩ := copyDatabaseCid_spec
    (copyDatabaseIndex (copyDatabaseCid mem a.Cid).2 a.Index).2 a.Schema
  obtain ⟨p4, a4, v4⟩ := copyDatabaseCid_spec (copyDatabaseSchema
    (copyDatabaseIndex (copyDatabaseCid mem a.Cid).2 a.Index).2 a.Schema).2 a.Sid
  have p12 := preserved_trans _ _ _ p1 p2
  have p13 := preserved_trans _ _ _ p12 p3
  have p34 := preserved_trans _ _ _ p3 p4
  have p24 := preserved_trans _ _ _ p2 p34
  refine ⟨rfl, rfl, rfl, rfl, rfl, ?_, ?_, ?_, ?_, preserved_trans _ _ _ p12 p34⟩
  · exact (value_strings_preserved _ _ p24 _ a1).trans v1
  · exact (value_uints_preserved _ _ p34 _ a2).trans
      (v2.trans (value_uints_preserved _ _ p1 _ hindex))
  · exact (value_strings_preserved _ _ p4 _ a3).trans
      (v3.trans (value_strings_preserved _ _ p12 _ hschema))
  · exact v4.trans (value_strings_preserved _ _ p13 _ hsid)

/-- C37: for every two `Database` values, `Equals` returns (it never dereferences a nil
pointer), and it is true if and only if `UUID`, `Connected`, `Leader`, `Model` and
`Name` are equal and each of `Cid`, `Index`, `Schema` and `Sid` is nil in both or
points in both to variables holding equal values.  Whenever one of these four is nil in
one of the two and not nil in the other, whatever value it points to, the result is
false. -/
theorem Equals_iff (mem : Memory) (a b : Database) :
    ∃ r, a.Equals mem b = some r
      ∧ (r = true ↔
          a.UUID = b.UUID ∧ a.Connected = b.Connected ∧ a.Leader = b.Leader
            ∧ a.Model = b.Model ∧ a.Name = b.Name
            ∧ Ptr.same mem.strings a.Cid b.Cid ∧ Ptr.same mem.uints a.Index b.Index
            ∧ Ptr.same mem.strings a.Schema b.Schema ∧ Ptr.same mem.strings a.Sid b.Sid)
      ∧ ((a.Cid.isSome ≠ b.Cid.isSome ∨ a.Index.isSome ≠ b.Index.isSome
            ∨ a.Schema.isSome ≠ b.Schema.isSome ∨ a.Sid.isSome ≠ b.Sid.isSome) →
          r = false) := by
  refine ⟨_, Equals_eq mem a b, ?_, ?_⟩
  · simp only [decide_eq_true_eq, same_iff_value]
    tauto
  · intro h
    rw [decide_eq_false_iff_not]
    rintro ⟨_, hcid, _, hindex, _, _, _, hschema, hsid⟩
    have key : ∀ {α : Type} (deref : Nat → α) (x y : Ptr),
        Ptr.value deref x = Ptr.value deref y → x.isSome = y.isSome := by
      intro α deref x y hxy
      cases x <;> cases y <;> simp [Ptr.value] at hxy ⊢
    rcases h with h | h | h | h
    · exact h (key _ _ _ hcid)
    · exact h (key _ _ _ hindex)
    · exact h (key _ _ _ hschema)
    · exact h (key _ _ _ hsid)

/-- C38: for every `Database` `a` whose pointers point into the memory and every
`Database` `b`, after `a.DeepCopyInto(b)` every plain field of `b` has the value of the
field of `a`, every optional field of `b` is nil when that of `a` is and otherwise
points to a variable holding the value that of `a` points to, `a.Equals(b)` is true,
and every variable that existed before the call, those of `a` among them, holds the
value it held.  In particular `a.Equals(a.DeepCopy())` and
`a.EqualsModel(a.CloneModel())` are true. -/
theorem DeepCopyInto_equal (mem : Memory) (a b : Database) (hal : a.allocated mem = true) :
    ((a.DeepCopyInto mem b).1.UUID = a.UUID
        ∧ (a.DeepCopyInto mem b).1.Connected = a.Connected
        ∧ (a.DeepCopyInto mem b).1.Leader = a.Leader
        ∧ (a.DeepCopyInto mem b).1.Model = a.Model
        ∧ (a.DeepCopyInto mem b).1.Name = a.Name)
      ∧ (Ptr.value (a.DeepCopyInto mem b).2.strings (a.DeepCopyInto mem b).1.Cid
            = Ptr.value mem.strings a.Cid
          ∧ Ptr.value (a.DeepCopyInto mem b).2.uints (a.DeepCopyInto mem b).1.Index
            = Ptr.value mem.uints a.Index
          ∧ Ptr.value (a.DeepCopyInto mem b).2.strings (a.DeepCopyInto mem b).1.Schema
            = Ptr.value mem.strings a.Schema
          ∧ Ptr.value (a.DeepCopyInto mem b).2.strings (a.DeepCopyInto mem b).1.Sid
            = Ptr.value mem.strings a.Sid)
      ∧ a.Equals (a.DeepCopyInto mem b).2 (a.DeepCopyInto mem b).1 = some true
      ∧ mem.preserved (a.DeepCopyInto mem b).2
      ∧ a.Equals (a.DeepCopy mem).2 (a.DeepCopy mem).1 = some true
      ∧ a.EqualsModel (a.CloneModel mem).2 (a.CloneModel mem).1 = some true := by
  have key : ∀ b : Database,
      a.Equals (a.DeepCopyInto mem b).2 (a.DeepCopyInto mem b).1 = some true := by
    intro b
    obtain ⟨h1, h2, h3, h4, h5, h6, h7, h8, h9, hp⟩ := DeepCopyInto_spec mem a b hal
    simp only [Database.allocated, Bool.and_eq_true] at hal
    obtain ⟨⟨⟨hcid, hindex⟩, hschema⟩, hsid⟩ := hal
    rw [Equals_eq, h1, h2, h3, h4, h5, h6, h7, h8, h9,
      value_strings_preserved _ _ hp _ hcid, value_uints_preserved _ _ hp _ hindex,
      value_strings_preserved _ _ hp _ hschema, value_strings_preserved _ _ hp _ hsid]
    simp
  obtain ⟨h1, h2, h3, h4, h5, h6, h7, h8, h9, hp⟩ := DeepCopyInto_spec mem a b hal
  exact ⟨⟨h1, h2, h3, h4, h5⟩, ⟨h6, h7, h8, h9⟩, key b, hp, key Database.zero,
    key Database.zero⟩

/-- Witness for C38: the copy of the sample database into a struct that pointed
elsewhere. -/
theorem DeepCopyInto_equal_witness :
    sampleDatabase.Equals (sampleDatabase.DeepCopyInto sampleMemory
        { sampleDatabase with UUID := "u2", Cid := some 1, Sid := none }).2
      (sampleDatabase.DeepCopyInto sampleMemory
        { sampleDatabase with UUID := "u2", Cid := some 1, Sid := none }).1 = some true :=
  (DeepCopyInto_equal sampleMemory sampleDatabase
    { sampleDatabase with UUID := "u2", Cid := some 1, Sid := none } (by decide)).2.2.1

/-- C39: on the `Database` values over one memory, `Equals` is an equivalence relation:
`a.Equals(a)` is true, `a.Equals(b)` implies `b.Equals(a)`, and `a.Equals(b)` together
with `b.Equals(c)` implies `a.Equals(c)`. -/
theorem Equals_equivalence (mem : Memory) :
    (∀ a : Database, a.Equals mem a = some true)
      ∧ (∀ a b : Database, a.Equals mem b = some true → b.Equals mem a = some true)
      ∧ (∀ a b c : Database, a.Equals mem b = some true → b.Equals mem c = some true →
          a.Equals mem c = some true) := by
  refine ⟨fun a => ?_, fun a b hab => ?_, fun a b c hab hbc => ?_⟩
  · rw [Equals_eq]
    simp
  · rw [Equals_eq] at hab ⊢
    simp only [Option.some.injEq, decide_eq_true_eq] at hab ⊢
    obtain ⟨h1, h2, h3, h4, h5, h6, h7, h8, h9⟩ := hab
    exact ⟨h1.symm, h2.symm, h3.symm, h4.symm, h5.symm, h6.symm, h7.symm, h8.symm, h9.symm⟩
  · rw [Equals_eq] at hab hbc ⊢
    simp only [Option.some.injEq, decide_eq_true_eq] at hab hbc ⊢
    obtain ⟨h1, h2, h3, h4, h5, h6, h7, h8, h9⟩ := hab
    obtain ⟨k1, k2, k3, k4, k5, k6, k7, k8, k9⟩ := hbc
    exact ⟨h1.trans k1, h2.trans k2, h3.trans k3, h4.trans k4, h5.trans k5, h6.trans k6,
      h7.trans k7, h8.trans k8, h9.trans k9⟩

/-- The sample database equals itself, differs from one with another `sid` value and
from one without `cid`, and equals one whose `cid` is another variable holding the same
string. -/
theorem Equals_samples :
    sampleDatabase.Equals sampleMemory sampleDatabase = some true
      ∧ sampleDatabase.Equals sampleMemory { sampleDatabase with Sid := some 0 } = some false
      ∧ sampleDatabase.Equals sampleMemory { sampleDatabase with Cid := none } = some false
      ∧ sampleDatabase.Equals sampleMemory { sampleDatabase with Cid := some 2 }
          = some true := by
  decide

end serverdb

end Libovsdb
